import Mathlib

/-!
# aleagit: fingerprint comparator and structural differ

A shallow embedding of `src/include/aleagit.h`, `src/src/geom_fingerprint.{h,c}`
and `src/src/geom_diff.{h,c}`.

Conventions of the embedding

* C `int` values that are only stored and compared (ids, tags) are `Int`;
  where the source does arithmetic on them (the sort comparators) the result is
  reduced to the signed 32-bit range explicitly.
* `uint64_t` hashes and `uint32_t` flag words are `Nat`.
* a `double` is the rational (`ℚ`) it denotes; the literal `1e-6` is the
  rational `1 / 1000000`. The density test is evaluated in exact arithmetic;
  in `fnv_double` the product with `1e6` is rounded to the nearest binary64
  value (`round_to_double`) before `round`.
* C arrays with their element count are `List`s; a cursor into an array is the
  suffix of the list that starts at the cursor.
-/

namespace Aleagit

/-! ## aleagit.h -/

/-- The enum `diff_change_t`. -/
inductive diff_change_t where
  | DIFF_UNCHANGED
  | DIFF_ADDED
  | DIFF_REMOVED
  | DIFF_MODIFIED
  deriving DecidableEq, Repr

def CELL_CHG_MATERIAL : Nat := 1 <<< 0
def CELL_CHG_DENSITY : Nat := 1 <<< 1
def CELL_CHG_REGION : Nat := 1 <<< 2
def CELL_CHG_UNIVERSE : Nat := 1 <<< 3
def CELL_CHG_FILL : Nat := 1 <<< 4
def CELL_CHG_LATTICE : Nat := 1 <<< 5

def SURF_CHG_TYPE : Nat := 1 <<< 0
def SURF_CHG_DATA : Nat := 1 <<< 1
def SURF_CHG_BOUNDARY : Nat := 1 <<< 2

/-! ## geom_fingerprint.h -/

/-- The struct `ag_cell_fp_t`. -/
structure ag_cell_fp_t where
  cell_id : Int
  material_id : Int
  universe_id : Int
  fill_universe : Int
  lat_type : Int
  density : ℚ
  tree_hash : Nat
  lattice_hash : Nat
  deriving DecidableEq

/-- The struct `ag_surface_fp_t`. -/
structure ag_surface_fp_t where
  surface_id : Int
  primitive_type : Int
  boundary_type : Int
  data_hash : Nat
  deriving DecidableEq

/-- The struct `ag_fingerprint_set_t`; the two counts are the list lengths. -/
structure ag_fingerprint_set_t where
  cells : List ag_cell_fp_t
  surfaces : List ag_surface_fp_t
  deriving DecidableEq

/-- A zero-filled `ag_cell_fp_t`, as `calloc` leaves it. -/
def ag_cell_fp_zero : ag_cell_fp_t :=
  { cell_id := 0, material_id := 0, universe_id := 0, fill_universe := 0,
    lat_type := 0, density := 0, tree_hash := 0, lattice_hash := 0 }

/-- A zero-filled `ag_surface_fp_t`, as `calloc` leaves it. -/
def ag_surface_fp_zero : ag_surface_fp_t :=
  { surface_id := 0, primitive_type := 0, boundary_type := 0, data_hash := 0 }

/-! ## geom_fingerprint.c: comparator and change mask -/

/-- The density test shared by `ag_cell_fp_compare` (lines 165-166) and
`ag_cell_fp_diff` (lines 180-181):
`dd = fabs(a - b); dd > 1e-6 && dd > fabs(a) * 1e-6`. -/
def density_changed (a b : ℚ) : Bool :=
  let dd := abs (a - b)
  decide (dd > 1 / 1000000) && decide (dd > abs a * (1 / 1000000))

/-- The function `ag_cell_fp_compare`: 0 when equal, 1 otherwise. -/
def ag_cell_fp_compare (a b : ag_cell_fp_t) : Int :=
  if a.material_id ≠ b.material_id then 1
  else if a.universe_id ≠ b.universe_id then 1
  else if a.fill_universe ≠ b.fill_universe then 1
  else if a.lat_type ≠ b.lat_type then 1
  else if a.tree_hash ≠ b.tree_hash then 1
  else if a.lattice_hash ≠ b.lattice_hash then 1
  else if density_changed a.density b.density then 1
  else 0

/-- The function `ag_surface_fp_compare`: 0 when equal, 1 otherwise. -/
def ag_surface_fp_compare (a b : ag_surface_fp_t) : Int :=
  if a.primitive_type ≠ b.primitive_type then 1
  else if a.boundary_type ≠ b.boundary_type then 1
  else if a.data_hash ≠ b.data_hash then 1
  else 0

/-- The function `ag_cell_fp_diff`: the `CELL_CHG_*` bit field. -/
def ag_cell_fp_diff (a b : ag_cell_fp_t) : Nat :=
  let flags := 0
  let flags := if a.material_id ≠ b.material_id then flags ||| CELL_CHG_MATERIAL else flags
  let flags := if density_changed a.density b.density then flags ||| CELL_CHG_DENSITY else flags
  let flags := if a.tree_hash ≠ b.tree_hash then flags ||| CELL_CHG_REGION else flags
  let flags := if a.universe_id ≠ b.universe_id then flags ||| CELL_CHG_UNIVERSE else flags
  let flags := if a.fill_universe ≠ b.fill_universe then flags ||| CELL_CHG_FILL else flags
  let flags := if a.lattice_hash ≠ b.lattice_hash then flags ||| CELL_CHG_LATTICE else flags
  flags

/-- The function `ag_surface_fp_diff`: the `SURF_CHG_*` bit field. -/
def ag_surface_fp_diff (a b : ag_surface_fp_t) : Nat :=
  let flags := 0
  let flags := if a.primitive_type ≠ b.primitive_type then flags ||| SURF_CHG_TYPE else flags
  let flags := if a.data_hash ≠ b.data_hash then flags ||| SURF_CHG_DATA else flags
  let flags := if a.boundary_type ≠ b.boundary_type then flags ||| SURF_CHG_BOUNDARY else flags
  flags

/-! ## geom_fingerprint.c: FNV-1a hashing -/

def FNV_OFFSET : Nat := 14695981039346656037
def FNV_PRIME : Nat := 1099511628211

/-- The value `UINT32_MAX`, the node id `hash_tree` treats as "no node". -/
def UINT32_MAX : Nat := 4294967295

/-- Modelled from the spec: the constant `ALEA_NODE_ID_INVALID` of the external
geometry library (its header is not in the repository); `hash_tree` tests the
same condition against `UINT32_MAX`. -/
def ALEA_NODE_ID_INVALID : Nat := 4294967295

/-- The function `fnv_init`. -/
def fnv_init : Nat := FNV_OFFSET

/-- The function `fnv_feed`: `data` is the byte sequence `p[0 .. len)`, and the
`uint64_t` product is reduced modulo `2^64`. -/
def fnv_feed (h : Nat) (data : List Nat) : Nat :=
  data.foldl (fun h b => ((h ^^^ b) * FNV_PRIME) % 18446744073709551616) h

/-- The eight bytes of a 64-bit word in memory order (little-endian). -/
def bytes_of_u64 (x : Nat) : List Nat :=
  (List.range 8).map (fun i => (x >>> (8 * i)) % 256)

/-- The two's-complement `int64_t` image of an integer, as a 64-bit word. -/
def int64_bits (v : Int) : Nat := (v % 18446744073709551616).toNat

/-- The function `fnv_int`: feeds the eight bytes of the `int64_t` value. -/
def fnv_int (h : Nat) (v : Int) : Nat :=
  fnv_feed h (bytes_of_u64 (int64_bits v))

/-- The C library `round`: to the nearest integer, halves away from zero. -/
def c_round (x : ℚ) : Int :=
  if 0 ≤ x then Int.floor (x + 1 / 2) else -Int.floor (-x + 1 / 2)

/-- The power of two `2^e` for an integer exponent. -/
def pow2 (e : Int) : ℚ :=
  if 0 ≤ e then ((2 ^ e.toNat : Nat) : ℚ) else 1 / ((2 ^ (-e).toNat : Nat) : ℚ)

/-- For `y ≥ 1`: the number of halvings that bring `y` below 2, at most `fuel`. -/
def log2_up : Nat → ℚ → Int
  | 0, _ => 0
  | fuel + 1, y => if y < 2 then 0 else log2_up fuel (y / 2) + 1

/-- For `0 < y < 1`: minus the number of doublings that bring `y` to 1 or
above, at most `fuel`. -/
def log2_down : Nat → ℚ → Int
  | 0, _ => 0
  | fuel + 1, y => if 1 ≤ y then 0 else log2_down fuel (y * 2) - 1

/-- The binary exponent `e` of a non-zero `x`, with `2^e ≤ |x| < 2^(e+1)`, for
`|x| < 2^1100`; below `2^-1100` the result is `-1100`. -/
def binade (x : ℚ) : Int :=
  if 1 ≤ |x| then log2_up 1100 |x| else log2_down 1100 |x|

/-- Rounding to the nearest integer, a tie going to the even neighbour. -/
def round_half_even (x : ℚ) : Int :=
  let f := Int.floor x
  let r := x - f
  if r < 1 / 2 then f
  else if 1 / 2 < r then f + 1
  else if f % 2 = 0 then f
  else f + 1

/-- The IEEE 754 binary64 value nearest to `x` (round to nearest, ties to
even): 53 significant bits, and a fixed spacing of `2^-1074` below `2^-1022`.
Overflow to infinity is not represented. -/
def round_to_double (x : ℚ) : ℚ :=
  if x = 0 then 0
  else
    let e := max (binade x) (-1022)
    (round_half_even (x / pow2 (e - 52)) : ℚ) * pow2 (e - 52)

/-- The function `fnv_double`: `iv = (int64_t)round(v * 1e6)`, then `fnv_int`.
`v` is the value of the double; the product of the two doubles is rounded to a
double (`round_to_double`) and `round` takes halves away from zero (`c_round`).
The cast to `int64_t` is defined in C only for a value in the `int64_t` range
(`fnv_double_defined`): outside it the behaviour is undefined, and the
reduction modulo `2^64` in `fnv_int` stands in for it. -/
def fnv_double (h : Nat) (v : ℚ) : Nat :=
  let iv := c_round (round_to_double (v * 1000000))
  fnv_int h iv

/-- The cast `(int64_t)round(v * 1e6)` of `fnv_double` is defined in C: the
rounded product lies in the range of `int64_t`. -/
def fnv_double_defined (v : ℚ) : Prop :=
  -9223372036854775808 ≤ c_round (round_to_double (v * 1000000)) ∧
    c_round (round_to_double (v * 1000000)) ≤ 9223372036854775807

/-! ## The external parsed geometry, as far as the fingerprint builder reads it -/

/-- Modelled from the spec: a CSG tree node of the external geometry library,
as `alea_node_operation`, `alea_node_surface_id`, `alea_node_sense`,
`alea_node_left` and `alea_node_right` report it. Either the operation is
`ALEA_OP_PRIMITIVE` and the node is a leaf with a surface id and a sense, or it
is another operation tag `op` and the node has two child ids. -/
inductive alea_node where
  | primitive (surface_id : Int) (sense : Int)
  | operation (op : Int) (left : Nat) (right : Nat)
  deriving DecidableEq

/-- Modelled from the spec: the external struct `alea_bbox_t`, an axis-aligned
bounding box. -/
structure alea_bbox_t where
  min_x : ℚ
  max_x : ℚ
  min_y : ℚ
  max_y : ℚ
  min_z : ℚ
  max_z : ℚ
  deriving DecidableEq

/-- Modelled from the spec: the fields of the external struct
`alea_cell_info_t` that `ag_fingerprint` and `compute_inner_bbox` read. `lat_fill` holds the
`lat_fill_count` entries of the fill array and is empty when the pointer is
null or the count is zero. -/
structure alea_cell_info_t where
  cell_id : Int
  material_id : Int
  density : ℚ
  universe_id : Int
  fill_universe : Int
  lat_type : Int
  root : Nat
  lat_fill_dims : Fin 6 → Int
  lat_pitch : Fin 3 → ℚ
  lat_lower_left : Fin 3 → ℚ
  lat_fill : List Int
  bbox : alea_bbox_t

/-- Modelled from the spec: one surface slot of the external geometry, as the
out-parameters of `alea_surface_get` hold it after the call. -/
structure alea_surface_t where
  surface_id : Int
  ptype : Int
  btype : Int
  pos_node : Nat
  neg_node : Nat

/-- Modelled from the spec: the external parsed geometry `alea_system_t`, seen
through the accessors the fingerprint builder calls. `cells[i]` is `none` when `alea_cell_get_info`
returns a negative status for slot `i`; `primitive_data n` is `none` when
`alea_node_primitive_data` returns non-zero for node `n`, otherwise the
zero-initialised `alea_primitive_data_t` read back as its double slots. -/
structure alea_system_t where
  cells : List (Option alea_cell_info_t)
  surfaces : List alea_surface_t
  node : Nat → alea_node
  primitive_data : Nat → Option (List ℚ)

/-! ## geom_fingerprint.c: tree hash, lattice hash and the builder -/

/-- The function `hash_tree`. The C recursion follows child ids; `fuel` bounds
the number of nested calls on real nodes, and `none` stands for a recursion
that did not finish within it. -/
def hash_tree (sys : alea_system_t) (fuel : Nat) (node : Nat) : Option Nat :=
  if node = UINT32_MAX then some fnv_init
  else
    match fuel with
    | 0 => none
    | fuel + 1 =>
      match sys.node node with
      | .primitive sid sense =>
        let h := fnv_init
        let h := fnv_int h sid
        let h := fnv_int h sense
        some h
      | .operation op left right =>
        let h := fnv_init
        let h := fnv_int h op
        match hash_tree sys fuel left, hash_tree sys fuel right with
        | some lh, some rh =>
          let h := fnv_feed h (bytes_of_u64 lh)
          let h := fnv_feed h (bytes_of_u64 rh)
          some h
        | _, _ => none

/-- The function `hash_lattice`; each fold is one of its `for` loops. -/
def hash_lattice (info : alea_cell_info_t) : Nat :=
  let h := fnv_init
  let h := fnv_int h info.lat_type
  if info.lat_type = 0 then h
  else
    let h := (List.finRange 6).foldl (fun h i => fnv_int h (info.lat_fill_dims i)) h
    let h := (List.finRange 3).foldl
      (fun h i =>
        let h := fnv_double h (info.lat_pitch i)
        let h := fnv_double h (info.lat_lower_left i)
        h) h
    let h := info.lat_fill.foldl fnv_int h
    h

/-- The result of a C `int` subtraction, reduced to the signed 32-bit range. -/
def wrap_int32 (x : Int) : Int := (x + 2147483648) % 4294967296 - 2147483648

/-- The function `cmp_cell_fp`. -/
def cmp_cell_fp (a b : ag_cell_fp_t) : Int := wrap_int32 (a.cell_id - b.cell_id)

/-- The function `cmp_surface_fp`. -/
def cmp_surface_fp (a b : ag_surface_fp_t) : Int := wrap_int32 (a.surface_id - b.surface_id)

/-- The C library `qsort` with comparator `cmp`, modelled as an insertion sort
that places `a` before `b` when `cmp a b ≤ 0`. -/
def qsort {α : Type} (cmp : α → α → Int) (l : List α) : List α :=
  l.insertionSort (fun a b => cmp a b ≤ 0)

/-- The body of the cell loop of `ag_fingerprint` (lines 94-107) for one slot: a
slot whose info cannot be read keeps the zero-filled fingerprint. -/
def cell_fingerprint (sys : alea_system_t) (fuel : Nat) :
    Option alea_cell_info_t → Option ag_cell_fp_t
  | none => some ag_cell_fp_zero
  | some info =>
    match hash_tree sys fuel info.root with
    | none => none
    | some th =>
      some { cell_id := info.cell_id, material_id := info.material_id,
             density := info.density, universe_id := info.universe_id,
             fill_universe := info.fill_universe, lat_type := info.lat_type,
             tree_hash := th, lattice_hash := hash_lattice info }

/-- The cell loop of `ag_fingerprint` over all slots, in slot order. -/
def fingerprint_cells (sys : alea_system_t) (fuel : Nat) :
    List (Option alea_cell_info_t) → Option (List ag_cell_fp_t)
  | [] => some []
  | c :: cs =>
    match cell_fingerprint sys fuel c, fingerprint_cells sys fuel cs with
    | some f, some fs => some (f :: fs)
    | _, _ => none

/-- The body of the surface loop of `ag_fingerprint` (lines 116-143). -/
def surface_fingerprint (sys : alea_system_t) (s : alea_surface_t) : ag_surface_fp_t :=
  let h := fnv_init
  let h := fnv_int h s.ptype
  let h :=
    if s.pos_node ≠ ALEA_NODE_ID_INVALID then
      match sys.primitive_data s.pos_node with
      | some dp => dp.foldl fnv_double h
      | none => h
    else h
  { surface_id := s.surface_id, primitive_type := s.ptype, boundary_type := s.btype,
    data_hash := h }

/-- The function `ag_fingerprint`; `fuel` is the depth allowance of every
`hash_tree` call and `none` means one of them did not finish. -/
def ag_fingerprint (fuel : Nat) (sys : alea_system_t) : Option ag_fingerprint_set_t :=
  match fingerprint_cells sys fuel sys.cells with
  | none => none
  | some cells =>
    some { cells := qsort cmp_cell_fp cells,
           surfaces := qsort cmp_surface_fp (sys.surfaces.map (surface_fingerprint sys)) }

/-! ## geom_diff.h and geom_diff.c -/

/-- The structs `ag_cell_diff_t` and `ag_surface_diff_t`, which differ only in
the fingerprint type `α` of `old_fp` and `new_fp`. -/
structure ag_diff_entry (α : Type) where
  change : diff_change_t
  id : Int
  flags : Nat
  old_fp : α
  new_fp : α
  deriving DecidableEq

abbrev ag_cell_diff_t := ag_diff_entry ag_cell_fp_t
abbrev ag_surface_diff_t := ag_diff_entry ag_surface_fp_t

/-- The struct `ag_diff_result_t`. `cells` and `surfaces` hold the first
`cell_count` and `surface_count` slots of the allocated arrays, the ones the
loops wrote. The six `int` counters are natural numbers here: each grows by one
per emitted entry, and wrap-around past `INT_MAX` is not modelled. -/
structure ag_diff_result_t where
  cells : List ag_cell_diff_t
  cell_count : Nat
  surfaces : List ag_surface_diff_t
  surface_count : Nat
  cells_added : Nat
  cells_removed : Nat
  cells_modified : Nat
  surfs_added : Nat
  surfs_removed : Nat
  surfs_modified : Nat
  deriving DecidableEq

/-- The variables one loop of `ag_diff` updates: the written slots
`r->surfaces[0 .. si)`, the write cursor `si` and the three counters. -/
structure diff_state (α : Type) where
  entries : List (ag_diff_entry α)
  si : Nat
  added : Nat
  removed : Nat
  modified : Nat

/-- The state before a loop: `calloc` zeroes the counters and `si = 0`. -/
def diff_state.init (α : Type) : diff_state α :=
  { entries := [], si := 0, added := 0, removed := 0, modified := 0 }

/-- The entry of the `DIFF_MODIFIED` branch: lines 28-32 and 67-71. -/
def entry_modified {α : Type} (key : α → Int) (mask : α → α → Nat) (o n : α) :
    ag_diff_entry α :=
  { change := .DIFF_MODIFIED, id := key o, flags := mask o n, old_fp := o, new_fp := n }

/-- The entry of the `DIFF_REMOVED` branch: lines 38-40 and 77-79; `flags` and
`new_fp` keep the zero bytes of `calloc`. -/
def entry_removed {α : Type} (key : α → Int) (zero : α) (o : α) : ag_diff_entry α :=
  { change := .DIFF_REMOVED, id := key o, flags := 0, old_fp := o, new_fp := zero }

/-- The entry of the `DIFF_ADDED` branch: lines 45-47 and 84-86; `flags` and
`old_fp` keep the zero bytes of `calloc`. -/
def entry_added {α : Type} (key : α → Int) (zero : α) (n : α) : ag_diff_entry α :=
  { change := .DIFF_ADDED, id := key n, flags := 0, old_fp := zero, new_fp := n }

/-- The `DIFF_MODIFIED` branch: write the entry at `si`, then `si++` and
`modified++`. -/
def emit_modified {α : Type} (key : α → Int) (mask : α → α → Nat) (o n : α)
    (st : diff_state α) : diff_state α :=
  { st with
    entries := st.entries ++ [entry_modified key mask o n]
    si := st.si + 1
    modified := st.modified + 1 }

/-- The `DIFF_REMOVED` branch: write the entry at `si`, then `si++` and
`removed++`. -/
def emit_removed {α : Type} (key : α → Int) (zero : α) (o : α)
    (st : diff_state α) : diff_state α :=
  { st with
    entries := st.entries ++ [entry_removed key zero o]
    si := st.si + 1
    removed := st.removed + 1 }

/-- The `DIFF_ADDED` branch: write the entry at `si`, then `si++` and
`added++`. -/
def emit_added {α : Type} (key : α → Int) (zero : α) (n : α)
    (st : diff_state α) : diff_state α :=
  { st with
    entries := st.entries ++ [entry_added key zero n]
    si := st.si + 1
    added := st.added + 1 }

/-- The two-cursor loop of `ag_diff` (lines 22-52 for surfaces, 61-91 for cells;
the two copies differ only in the element type). `old` and `new` are the parts
of the two arrays at and after the cursors `oi` and `ni`; `key` reads the id,
`cmp` is the comparator and `mask` the change-mask function. Every iteration
advances a cursor, so `fuel` counts the iterations still allowed. -/
def diff_walk {α : Type} (key : α → Int) (cmp : α → α → Int) (mask : α → α → Nat) (zero : α) :
    Nat → List α → List α → diff_state α → diff_state α
  | 0, _, _, st => st
  | fuel + 1, old, new, st =>
    match old, new with
    | [], [] => st
    | o :: os, [] => diff_walk key cmp mask zero fuel os [] (emit_removed key zero o st)
    | [], n :: ns => diff_walk key cmp mask zero fuel [] ns (emit_added key zero n st)
    | o :: os, n :: ns =>
      if key o = key n then
        if cmp o n ≠ 0 then
          diff_walk key cmp mask zero fuel os ns (emit_modified key mask o n st)
        else
          diff_walk key cmp mask zero fuel os ns st
      else if key o < key n then
        diff_walk key cmp mask zero fuel os (n :: ns) (emit_removed key zero o st)
      else
        diff_walk key cmp mask zero fuel (o :: os) ns (emit_added key zero n st)

/-- The function `ag_diff`: the surface loop, then the cell loop, each run for
at most `old count + new count` iterations. -/
def ag_diff (old_fp new_fp : ag_fingerprint_set_t) : ag_diff_result_t :=
  let s := diff_walk ag_surface_fp_t.surface_id ag_surface_fp_compare ag_surface_fp_diff
    ag_surface_fp_zero (old_fp.surfaces.length + new_fp.surfaces.length)
    old_fp.surfaces new_fp.surfaces (diff_state.init ag_surface_fp_t)
  let c := diff_walk ag_cell_fp_t.cell_id ag_cell_fp_compare ag_cell_fp_diff
    ag_cell_fp_zero (old_fp.cells.length + new_fp.cells.length)
    old_fp.cells new_fp.cells (diff_state.init ag_cell_fp_t)
  { cells := c.entries, cell_count := c.si,
    surfaces := s.entries, surface_count := s.si,
    cells_added := c.added, cells_removed := c.removed, cells_modified := c.modified,
    surfs_added := s.added, surfs_removed := s.removed, surfs_modified := s.modified }

/-! ## visual_diff.h and visual_diff.c: bounding boxes, viewport, colours -/

/-- The enum `ag_slice_axis_t`. -/
inductive ag_slice_axis_t where
  | AG_AXIS_X
  | AG_AXIS_Y
  | AG_AXIS_Z
  deriving DecidableEq, Repr

/-- The constant `DBL_MAX` of `float.h`, `2^1024 - 2^971`. -/
def DBL_MAX : ℚ := 179769313486231570814527423731704356798070567525844996598917476803157260780028538760589558632766878171540458953514382464234321326889464182768467546703537516986049910576551282076245490090389328944075868508455133942304583236903222948165808559332123348274797826204144723168738177180919299881250404026184124858368

/-- The function `is_graveyard_cell`. -/
def is_graveyard_cell (info : alea_cell_info_t) : Bool :=
  decide (info.universe_id = 0) && decide (info.material_id = 0) &&
    decide (info.fill_universe = -1)

/-- The six updates `if (info.bbox.min_x < out->min_x) out->min_x = ...` of one
loop iteration of `compute_inner_bbox` (lines 67-72 and 80-85). -/
def bbox_extend (out b : alea_bbox_t) : alea_bbox_t :=
  { min_x := if b.min_x < out.min_x then b.min_x else out.min_x
    max_x := if b.max_x > out.max_x then b.max_x else out.max_x
    min_y := if b.min_y < out.min_y then b.min_y else out.min_y
    max_y := if b.max_y > out.max_y then b.max_y else out.max_y
    min_z := if b.min_z < out.min_z then b.min_z else out.min_z
    max_z := if b.max_z > out.max_z then b.max_z else out.max_z }

/-- One iteration of the first loop of `compute_inner_bbox` (lines 61-73) on
the pair `(out, found)`: unreadable slots and graveyard cells are skipped. -/
def inner_bbox_step (st : alea_bbox_t × Bool) (c : Option alea_cell_info_t) :
    alea_bbox_t × Bool :=
  match c with
  | none => st
  | some info => if is_graveyard_cell info then st else (bbox_extend st.1 info.bbox, true)

/-- One iteration of the fall-back loop of `compute_inner_bbox` (lines 77-86). -/
def full_bbox_step (out : alea_bbox_t) (c : Option alea_cell_info_t) : alea_bbox_t :=
  match c with
  | none => out
  | some info => bbox_extend out info.bbox

/-- The six clamping statements of `compute_inner_bbox` (lines 90-96). -/
def bbox_clamp (out : alea_bbox_t) : alea_bbox_t :=
  let clamp : ℚ := 1000
  { min_x := if out.min_x < -clamp then -clamp else out.min_x
    max_x := if out.max_x > clamp then clamp else out.max_x
    min_y := if out.min_y < -clamp then -clamp else out.min_y
    max_y := if out.max_y > clamp then clamp else out.max_y
    min_z := if out.min_z < -clamp then -clamp else out.min_z
    max_z := if out.max_z > clamp then clamp else out.max_z }

/-- The function `compute_inner_bbox`. -/
def compute_inner_bbox (sys : alea_system_t) : alea_bbox_t :=
  let init : alea_bbox_t :=
    { min_x := DBL_MAX, max_x := -DBL_MAX, min_y := DBL_MAX, max_y := -DBL_MAX,
      min_z := DBL_MAX, max_z := -DBL_MAX }
  let st := sys.cells.foldl inner_bbox_step (init, false)
  let out := if !st.2 then sys.cells.foldl full_bbox_step st.1 else st.1
  bbox_clamp out

/-- The function `bbox_union`; `fmin` and `fmax` on numbers are `min` and `max`. -/
def bbox_union (a b : alea_bbox_t) : alea_bbox_t :=
  { min_x := min a.min_x b.min_x, max_x := max a.max_x b.max_x,
    min_y := min a.min_y b.min_y, max_y := max a.max_y b.max_y,
    min_z := min a.min_z b.min_z, max_z := max a.max_z b.max_z }

/-- The function `bbox_axis_range`: `(lo, hi)`. -/
def bbox_axis_range (bb : alea_bbox_t) : ag_slice_axis_t → ℚ × ℚ
  | .AG_AXIS_X => (bb.min_x, bb.max_x)
  | .AG_AXIS_Y => (bb.min_y, bb.max_y)
  | .AG_AXIS_Z => (bb.min_z, bb.max_z)

/-- The in-plane ranges `bbox_uv_range` writes. -/
structure uv_range_t where
  u_min : ℚ
  u_max : ℚ
  v_min : ℚ
  v_max : ℚ
  deriving DecidableEq

/-- The function `bbox_uv_range`. -/
def bbox_uv_range (bb : alea_bbox_t) : ag_slice_axis_t → uv_range_t
  | .AG_AXIS_Z => { u_min := bb.min_x, u_max := bb.max_x, v_min := bb.min_y, v_max := bb.max_y }
  | .AG_AXIS_Y => { u_min := bb.min_x, u_max := bb.max_x, v_min := bb.min_z, v_max := bb.max_z }
  | .AG_AXIS_X => { u_min := bb.min_y, u_max := bb.max_y, v_min := bb.min_z, v_max := bb.max_z }

/-- The viewport part of the auto mode of `ag_visual_diff` (lines 694-698 and
712-719) for the axis `auto_select` returned: the two inner boxes, their
union, the in-plane ranges, and the padding by a tenth of each extent. -/
def auto_viewport (old_sys new_sys : alea_system_t) (axis : ag_slice_axis_t) : uv_range_t :=
  let bb_old := compute_inner_bbox old_sys
  let bb_new := compute_inner_bbox new_sys
  let inner := bbox_union bb_old bb_new
  let r := bbox_uv_range inner axis
  let du := (r.u_max - r.u_min) * (1 / 10)
  let dv := (r.v_max - r.v_min) * (1 / 10)
  { u_min := r.u_min - du, u_max := r.u_max + du,
    v_min := r.v_min - dv, v_max := r.v_max + dv }

/-- A pixel colour: the `r`, `g`, `b` bytes. -/
structure rgb_t where
  r : Nat
  g : Nat
  b : Nat
  deriving DecidableEq

/-- The function `id_to_color`; `(unsigned)id * 2654435761u` is reduced modulo
`2^32`. -/
def id_to_color (id : Int) : rgb_t :=
  if id ≤ 0 then { r := 40, g := 40, b := 40 }
  else
    let h := ((id % 4294967296).toNat * 2654435761) % 4294967296
    { r := 80 + (h &&& 0x7F), g := 80 + ((h >>> 8) &&& 0x7F), b := 80 + ((h >>> 16) &&& 0x7F) }

def COL_DIFF_ADDED : rgb_t := { r := 50, g := 200, b := 50 }
def COL_DIFF_REMOVED : rgb_t := { r := 200, g := 50, b := 50 }
def COL_DIFF_MATERIAL : rgb_t := { r := 200, g := 200, b := 50 }
def COL_DIFF_STRUCTURE : rgb_t := { r := 50, g := 200, b := 200 }

/-- The body of the loop of `compute_diff_overlay` (lines 540-560) for one
pixel: the colour written to `pix_diff[i*3 .. i*3+2]`. -/
def diff_overlay_pixel (co cn mo mn : Int) : rgb_t :=
  if co = cn ∧ mo = mn then
    let c := id_to_color mo
    { r := c.r / 3, g := c.g / 3, b := c.b / 3 }
  else if co ≤ 0 ∧ cn > 0 then COL_DIFF_ADDED
  else if co > 0 ∧ cn ≤ 0 then COL_DIFF_REMOVED
  else if co ≠ cn ∧ mo ≠ mn then COL_DIFF_MATERIAL
  else if co ≠ cn then COL_DIFF_STRUCTURE
  else COL_DIFF_MATERIAL

/-- The function `compute_diff_overlay`: the four rasters have `npix` entries
each, and the result is the byte buffer `pix_diff[0 .. 3 * npix)`. -/
def compute_diff_overlay :
    List Int → List Int → List Int → List Int → List Nat
  | co :: cells_old, cn :: cells_new, mo :: mats_old, mn :: mats_new =>
    let c := diff_overlay_pixel co cn mo mn
    c.r :: c.g :: c.b :: compute_diff_overlay cells_old cells_new mats_old mats_new
  | _, _, _, _ => []

/-! ## git_helpers.c and cmd_blame.c: history walker and blame -/

/-- Modelled from the spec: one commit of the external revision store, as the
walker and the blame callback see it. `short_oid`, `author` and `date` are the
three strings `blame_walk_cb` derives from the commit (`ag_short_oid`, the
author name cut to 63 bytes, the `%Y-%m-%d` date); `blob` is the blob id
`get_blob_oid` finds for the path, `none` when the path is missing at the
commit; `fp` is what `ag_load_geometry_commit` followed by `ag_fingerprint`
gives, `none` when either fails. -/
structure git_commit_t where
  short_oid : String
  author : String
  date : String
  blob : Option Nat
  fp : Option ag_fingerprint_set_t
  deriving DecidableEq

/-- The loop of `ag_walk_history` (lines 239-252). `commits` is what
`git_revwalk_next` still yields, `none` standing for a commit whose lookup
fails; `prev` is `prev_blob_oid` when `have_prev` holds and `none` otherwise;
the callback returns its status and the updated payload. -/
def walk_loop {σ : Type} (callback : git_commit_t → Nat → σ → Int × σ) :
    List (Option git_commit_t) → Option Nat → σ → σ
  | [], _, payload => payload
  | none :: rest, prev, payload => walk_loop callback rest prev payload
  | some commit :: rest, prev, payload =>
    match commit.blob with
    | none => walk_loop callback rest none payload
    | some blob_oid =>
      if prev ≠ some blob_oid then
        let r := callback commit blob_oid payload
        if r.1 ≠ 0 then r.2
        else walk_loop callback rest (some blob_oid) r.2
      else walk_loop callback rest (some blob_oid) payload

/-- The function `ag_walk_history` on the commits of the time-sorted revwalk:
the payload after the walk. -/
def ag_walk_history {σ : Type} (commits : List (Option git_commit_t))
    (callback : git_commit_t → Nat → σ → Int × σ) (payload : σ) : σ :=
  walk_loop callback commits none payload

/-- The structs `cell_blame_t` and `surface_blame_t` (same fields, the id is
`cell_id` or `surface_id`). -/
structure blame_entry_t where
  id : Int
  sha : String
  author : String
  date : String
  deriving DecidableEq

abbrev cell_blame_t := blame_entry_t
abbrev surface_blame_t := blame_entry_t

/-- The struct `blame_walk_t` without the repository handle and the path. -/
structure blame_walk_t where
  current_fp : ag_fingerprint_set_t
  cell_blames : List cell_blame_t
  surf_blames : List surface_blame_t
  first : Bool
  deriving DecidableEq

/-- The three `strncpy` calls that overwrite one blame entry with the commit. -/
def blame_set (commit : git_commit_t) (e : blame_entry_t) : blame_entry_t :=
  { e with sha := commit.short_oid, author := commit.author, date := commit.date }

/-- The inner loop over `j` (lines 88-100 and 105-117) for one entry: the first
old fingerprint with the entry's id decides, and the entry is overwritten when
the comparator returns 0 on the current and the old fingerprint. -/
def blame_update {α : Type} (key : α → Int) (cmp : α → α → Int) (commit : git_commit_t)
    (old : List α) (e : blame_entry_t) (cur : α) : blame_entry_t :=
  match old.find? (fun o => decide (key o = e.id)) with
  | some o => if cmp cur o = 0 then blame_set commit e else e
  | none => e

/-- The outer loop over `i` (lines 86-101 and 103-118): entry `i` goes with
`current_fp` element `i`. -/
def blame_update_all {α : Type} (key : α → Int) (cmp : α → α → Int) (commit : git_commit_t)
    (old : List α) : List blame_entry_t → List α → List blame_entry_t
  | e :: es, cur :: curs =>
    blame_update key cmp commit old e cur :: blame_update_all key cmp commit old es curs
  | es, _ => es

/-- The function `blame_walk_cb`; it always returns 0. -/
def blame_walk_cb (commit : git_commit_t) (_blob_oid : Nat) (w : blame_walk_t) :
    Int × blame_walk_t :=
  if w.first then
    (0, { w with
          cell_blames := w.cell_blames.map (blame_set commit)
          surf_blames := w.surf_blames.map (blame_set commit)
          first := false })
  else
    match commit.fp with
    | none => (0, w)
    | some old_fp =>
      (0, { w with
            cell_blames := blame_update_all ag_cell_fp_t.cell_id ag_cell_fp_compare commit
              old_fp.cells w.cell_blames w.current_fp.cells
            surf_blames := blame_update_all ag_surface_fp_t.surface_id ag_surface_fp_compare
              commit old_fp.surfaces w.surf_blames w.current_fp.surfaces })

/-- The part of `cmd_blame` between the fingerprint of `HEAD` and the printing
(lines 183-201): zeroed blame arrays with the ids of `head_fp`, then the walk. -/
def cmd_blame_walk (head_fp : ag_fingerprint_set_t) (commits : List (Option git_commit_t)) :
    blame_walk_t :=
  let cell_blames := head_fp.cells.map
    (fun c => { id := c.cell_id, sha := "", author := "", date := "" })
  let surf_blames := head_fp.surfaces.map
    (fun c => { id := c.surface_id, sha := "", author := "", date := "" })
  ag_walk_history commits blame_walk_cb
    { current_fp := head_fp, cell_blames := cell_blames, surf_blames := surf_blames,
      first := true }

/-! ## bmp_writer.c -/

/-- The 54 header bytes of `ag_write_bmp` (lines 18-38): zeroed, then the
assignments in source order. The `int` arithmetic is taken without
wrap-around. -/
def bmp_header (width height file_size : Nat) : List Nat :=
  let header := List.replicate 54 0
  let header := header.set 0 66
  let header := header.set 1 77
  let header := header.set 2 (file_size &&& 0xFF)
  let header := header.set 3 ((file_size >>> 8) &&& 0xFF)
  let header := header.set 4 ((file_size >>> 16) &&& 0xFF)
  let header := header.set 5 ((file_size >>> 24) &&& 0xFF)
  let header := header.set 10 54
  let header := header.set 14 40
  let header := header.set 18 (width &&& 0xFF)
  let header := header.set 19 ((width >>> 8) &&& 0xFF)
  let header := header.set 20 ((width >>> 16) &&& 0xFF)
  let header := header.set 21 ((width >>> 24) &&& 0xFF)
  let header := header.set 22 (height &&& 0xFF)
  let header := header.set 23 ((height >>> 8) &&& 0xFF)
  let header := header.set 24 ((height >>> 16) &&& 0xFF)
  let header := header.set 25 ((height >>> 24) &&& 0xFF)
  let header := header.set 26 1
  let header := header.set 28 24
  header

/-- The row buffer of `ag_write_bmp` after the inner loop (lines 42-50) for
image row `y`: zeroed, then three stores per pixel. -/
def bmp_row (pixels : List Nat) (width row_size y : Nat) : List Nat :=
  (List.range width).foldl
    (fun row x =>
      let src := (y * width + x) * 3
      let dst := x * 3
      let row := row.set (dst + 0) (pixels.getD (src + 2) 0)
      let row := row.set (dst + 1) (pixels.getD (src + 1) 0)
      let row := row.set (dst + 2) (pixels.getD (src + 0) 0)
      row)
    (List.replicate row_size 0)

/-- The function `ag_write_bmp`: the return value and the bytes the `fwrite`
calls append to the file, in order. `fopen_ok` says whether `fopen` succeeds. -/
def ag_write_bmp (fopen_ok : Bool) (pixels : List Nat) (width height : Nat) :
    Int × List Nat :=
  if !fopen_ok then (-1, [])
  else
    let row_size := ((width * 3 + 3) / 4) * 4
    let data_size := row_size * height
    let file_size := 54 + data_size
    let f := bmp_header width height file_size
    let f := (List.range height).reverse.foldl
      (fun f y => f ++ bmp_row pixels width row_size y) f
    (0, f)

/-! ## geom_load.c and util.c: format detection -/

/-- The enum `geom_format_t`. -/
inductive geom_format_t where
  | GEOM_FORMAT_UNKNOWN
  | GEOM_FORMAT_MCNP
  | GEOM_FORMAT_OPENMC
  deriving DecidableEq, Repr

/-- The function `ag_str_ends_with` on C strings given as their characters. -/
def ag_str_ends_with (str suffix : List Char) : Bool :=
  let slen := str.length
  let xlen := suffix.length
  if xlen > slen then false
  else decide (str.drop (slen - xlen) = suffix)

/-- The characters the content sniffing of `ag_detect_format` skips. -/
def is_skipped_char (c : Char) : Bool :=
  c = ' ' || c = '\t' || c = '\n' || c = '\r'

/-- The function `ag_detect_format`. `path` is `none` for a null pointer;
`data` is `none` for a null pointer and otherwise the `len` characters of the
buffer. -/
def ag_detect_format (path : Option (List Char)) (data : Option (List Char)) :
    geom_format_t :=
  let by_extension : Option geom_format_t :=
    match path with
    | some p =>
      if ag_str_ends_with p ".xml".toList then some .GEOM_FORMAT_OPENMC
      else if ag_str_ends_with p ".inp".toList || ag_str_ends_with p ".i".toList ||
          ag_str_ends_with p ".mcnp".toList then some .GEOM_FORMAT_MCNP
      else none
    | none => none
  match by_extension with
  | some fmt => fmt
  | none =>
    match data with
    | some d =>
      if d.length > 5 then
        let p := d.dropWhile is_skipped_char
        if 5 ≤ p.length ∧ p.take 5 = "<?xml".toList then .GEOM_FORMAT_OPENMC
        else if 1 ≤ p.length ∧ p.head? = some '<' then .GEOM_FORMAT_OPENMC
        else .GEOM_FORMAT_MCNP
      else .GEOM_FORMAT_MCNP
    | none => .GEOM_FORMAT_MCNP

/-! ## cmd_commit.c: the Geometry-Change trailer -/

def MAX_DETAIL_LINES : Nat := 30

/-- One line of the trailer text. A detail line is the text the `switch` case
of its entry formats (one or several `sb_appendf` calls up to the newline),
which is a function of the entry; the formatting itself is not modelled. -/
inductive trailer_line where
  | header (path : String)
  | counts (cells_added cells_removed cells_modified : Nat)
      (surfs_added surfs_removed surfs_modified : Nat)
  | surface_detail (d : ag_surface_diff_t)
  | cell_detail (d : ag_cell_diff_t)
  | more (n : Nat)
  deriving DecidableEq

/-- One of the two detail loops of `format_diff_trailer` (lines 131-161 and
164-199) on the remaining entries, the text so far and `detail_count`. An
entry whose `change` is none of the three cases falls to `default` and writes
nothing. -/
def detail_loop {α : Type} (line : ag_diff_entry α → trailer_line) :
    List (ag_diff_entry α) → List trailer_line × Nat → List trailer_line × Nat
  | [], st => st
  | d :: ds, (sb, detail_count) =>
    if detail_count < MAX_DETAIL_LINES then
      match d.change with
      | .DIFF_ADDED => detail_loop line ds (sb ++ [line d], detail_count + 1)
      | .DIFF_REMOVED => detail_loop line ds (sb ++ [line d], detail_count + 1)
      | .DIFF_MODIFIED => detail_loop line ds (sb ++ [line d], detail_count + 1)
      | .DIFF_UNCHANGED => detail_loop line ds (sb, detail_count)
    else (sb, detail_count)

/-- The function `format_diff_trailer`: the lines appended to an empty buffer. -/
def format_diff_trailer (path : String) (diff : ag_diff_result_t) : List trailer_line :=
  let sb := [trailer_line.header path]
  let sb := sb ++ [trailer_line.counts diff.cells_added diff.cells_removed diff.cells_modified
    diff.surfs_added diff.surfs_removed diff.surfs_modified]
  let detail_count := 0
  let total_details := diff.surface_count + diff.cell_count
  let st := detail_loop trailer_line.surface_detail diff.surfaces (sb, detail_count)
  let st := detail_loop trailer_line.cell_detail diff.cells st
  if st.2 < total_details then st.1 ++ [trailer_line.more (total_details - st.2)]
  else st.1

/-! ## cmd_init.c: the .gitattributes step -/

/-- The string `GITATTRIBUTES_CONTENT`. -/
def GITATTRIBUTES_CONTENT : List Char :=
  ("# AleaGit - geometry-aware version control\n" ++
   "*.inp  diff=mcnp\n" ++
   "*.i    diff=mcnp\n" ++
   "*.mcnp diff=mcnp\n" ++
   "*.xml  diff=openmc\n").toList

/-- The C library `strstr(hay, needle) != NULL` on strings given as their
characters (without the terminator). -/
def c_strstr : List Char → List Char → Bool
  | [], needle => needle.isEmpty
  | c :: hay, needle => needle.isPrefixOf (c :: hay) || c_strstr hay needle

/-- The `.gitattributes` step of `cmd_init` (lines 51-80) as a function of the
file content, `none` for a file that `fopen(path, "r")` cannot open. `fread`
fills at most 1023 characters of the zeroed buffer, and `strstr` reads the
buffer up to its first NUL. The `fopen` calls for appending and writing are
taken to succeed. -/
def gitattributes_step (file : Option (List Char)) : Option (List Char) :=
  match file with
  | some content =>
    let buf := content.take 1023
    let str := buf.takeWhile (fun c => c ≠ Char.ofNat 0)
    if c_strstr str "diff=mcnp".toList then some content
    else some (content ++ "\n".toList ++ GITATTRIBUTES_CONTENT)
  | none => some GITATTRIBUTES_CONTENT

/-! ## visual_diff.c: slice selection -/

def SAMPLE_RES : Nat := 32
def N_SAMPLES : Nat := 20

/-- The struct `slice_score_t`. -/
structure slice_score_t where
  pos : ℚ
  diff_count : Int
  geom_count : Int
  deriving DecidableEq

/-- Modelled from the spec: the external rasteriser `alea_find_cells_grid` on
the view `alea_slice_view_axis` builds, as a function of the geometry, the
axis, the slice position and the in-plane ranges; it gives the `cells` and
`mats` arrays of `nu * nv` entries. -/
abbrev grid_finder := alea_system_t → ag_slice_axis_t → ℚ → uv_range_t → List Int × List Int

/-- The pixel loop of `find_best_slice_for_axis` (lines 250-256) on arrays of
`n` entries: `(diff_count, geom_count)`. -/
def count_pixels (n : Nat) (cells_old cells_new mats_old mats_new : List Int) : Int × Int :=
  (List.range n).foldl
    (fun (st : Int × Int) i =>
      let has_geom := decide (cells_old.getD i 0 > 0) || decide (cells_new.getD i 0 > 0)
      let geom_count := if has_geom then st.2 + 1 else st.2
      let diff_count :=
        if cells_old.getD i 0 ≠ cells_new.getD i 0 ∨ mats_old.getD i 0 ≠ mats_new.getD i 0
        then st.1 + 1 else st.1
      (diff_count, geom_count))
    (0, 0)

/-- The sample position and the two counts of sample `s` (lines 237-256). -/
def slice_sample (grid : grid_finder) (old_sys new_sys : alea_system_t)
    (axis : ag_slice_axis_t) (inner_bb : alea_bbox_t) (s : Nat) : slice_score_t :=
  let ax := bbox_axis_range inner_bb axis
  let uv := bbox_uv_range inner_bb axis
  let n := SAMPLE_RES * SAMPLE_RES
  let t : ℚ := if N_SAMPLES = 1 then 1 / 2 else (s : ℚ) / ((N_SAMPLES : ℚ) - 1)
  let pos := ax.1 + t * (ax.2 - ax.1)
  let g_old := grid old_sys axis pos uv
  let g_new := grid new_sys axis pos uv
  let c := count_pixels n g_old.1 g_new.1 g_old.2 g_new.2
  { pos := pos, diff_count := c.1, geom_count := c.2 }

/-- The update of `best` at the end of one sample (lines 258-263). -/
def keep_better (best cand : slice_score_t) : slice_score_t :=
  if cand.diff_count > best.diff_count ∨
      (cand.diff_count = best.diff_count ∧ cand.geom_count > best.geom_count) then cand
  else best

/-- The function `find_best_slice_for_axis` when the four `malloc` calls
succeed: `(out_pos, out_diff, out_geom)` as a `slice_score_t`. -/
def find_best_slice_for_axis (grid : grid_finder) (old_sys new_sys : alea_system_t)
    (axis : ag_slice_axis_t) (inner_bb : alea_bbox_t) : slice_score_t :=
  let ax := bbox_axis_range inner_bb axis
  let best : slice_score_t := { pos := (ax.1 + ax.2) * (1 / 2), diff_count := -1, geom_count := 0 }
  (List.range N_SAMPLES).foldl
    (fun best s => keep_better best (slice_sample grid old_sys new_sys axis inner_bb s)) best

/-- The function `auto_select`: `(out_axis, (out_pos, out_diff, out_geom))`.
The loop runs over the enum values 0, 1, 2, which are X, Y, Z. -/
def auto_select (grid : grid_finder) (old_sys new_sys : alea_system_t)
    (inner_bb : alea_bbox_t) : ag_slice_axis_t × slice_score_t :=
  let best : ag_slice_axis_t × slice_score_t :=
    (.AG_AXIS_Z, { pos := 0, diff_count := -1, geom_count := 0 })
  [ag_slice_axis_t.AG_AXIS_X, .AG_AXIS_Y, .AG_AXIS_Z].foldl
    (fun best axis =>
      let r := find_best_slice_for_axis grid old_sys new_sys axis inner_bb
      if r.diff_count > best.2.diff_count ∨
          (r.diff_count = best.2.diff_count ∧ r.geom_count > best.2.geom_count) then (axis, r)
      else best)
    best

/-! ## Auxiliary definitions for the proofs -/

/-- The entries one loop of `ag_diff` appends, as a function of the two
remaining array parts alone (no running state). -/
def diff_list {α : Type} (key : α → Int) (cmp : α → α → Int) (mask : α → α → Nat) (zero : α) :
    Nat → List α → List α → List (ag_diff_entry α)
  | 0, _, _ => []
  | fuel + 1, old, new =>
    match old, new with
    | [], [] => []
    | o :: os, [] => entry_removed key zero o :: diff_list key cmp mask zero fuel os []
    | [], n :: ns => entry_added key zero n :: diff_list key cmp mask zero fuel [] ns
    | o :: os, n :: ns =>
      if key o = key n then
        if cmp o n ≠ 0 then
          entry_modified key mask o n :: diff_list key cmp mask zero fuel os ns
        else
          diff_list key cmp mask zero fuel os ns
      else if key o < key n then
        entry_removed key zero o :: diff_list key cmp mask zero fuel os (n :: ns)
      else
        entry_added key zero n :: diff_list key cmp mask zero fuel (o :: os) ns

/-- The entry `e` is `mk x` for an element `x` of `xs` whose id no element of
`ys` has. -/
def one_sided {α : Type} (key : α → Int) (mk : α → ag_diff_entry α) (xs ys : List α)
    (e : ag_diff_entry α) : Prop :=
  ∃ x ∈ xs, (∀ y ∈ ys, key y ≠ key x) ∧ e = mk x

/-- The entry `e` is the `DIFF_MODIFIED` entry of an element of `old` and an
element of `new` with the same id that the comparator reports unequal. -/
def two_sided {α : Type} (key : α → Int) (cmp : α → α → Int) (mask : α → α → Nat)
    (old new : List α) (e : ag_diff_entry α) : Prop :=
  ∃ o ∈ old, ∃ n ∈ new, key o = key n ∧ cmp o n ≠ 0 ∧ e = entry_modified key mask o n

/-- Number of entries of a given kind. -/
def count_kind {α : Type} (k : diff_change_t) (l : List (ag_diff_entry α)) : Nat :=
  l.countP (fun e => decide (e.change = k))

/-- An entry read from the other side: `DIFF_ADDED` and `DIFF_REMOVED`
exchanged, `old_fp` and `new_fp` exchanged, id and mask kept. -/
def swap_entry {α : Type} (e : ag_diff_entry α) : ag_diff_entry α :=
  { change :=
      match e.change with
      | .DIFF_ADDED => .DIFF_REMOVED
      | .DIFF_REMOVED => .DIFF_ADDED
      | c => c
    id := e.id
    flags := e.flags
    old_fp := e.new_fp
    new_fp := e.old_fp }

/-- Strictly ascending: every element is smaller than its successor. -/
def strictly_ascending : List Int → Prop
  | [] => True
  | [_] => True
  | a :: b :: l => a < b ∧ strictly_ascending (b :: l)

/-- Deciding `strictly_ascending` by comparing neighbours. -/
def strictly_ascending_dec : (l : List Int) → Decidable (strictly_ascending l)
  | [] => isTrue trivial
  | [_] => isTrue trivial
  | a :: b :: l =>
    have : Decidable (strictly_ascending (b :: l)) := strictly_ascending_dec (b :: l)
    inferInstanceAs (Decidable (a < b ∧ strictly_ascending (b :: l)))

instance (l : List Int) : Decidable (strictly_ascending l) := strictly_ascending_dec l

/-- The key invariant of a fingerprint set: both arrays strictly ascending by id. -/
def id_sorted (s : ag_fingerprint_set_t) : Prop :=
  strictly_ascending (s.surfaces.map ag_surface_fp_t.surface_id) ∧
  strictly_ascending (s.cells.map ag_cell_fp_t.cell_id)

instance (s : ag_fingerprint_set_t) : Decidable (id_sorted s) :=
  inferInstanceAs (Decidable (_ ∧ _))

/-- An entry whose kind is not `DIFF_MODIFIED`. -/
def not_modified {α : Type} (e : ag_diff_entry α) : Bool :=
  decide (e.change ≠ .DIFF_MODIFIED)

/-- Every difference of two ids of the list fits a C `int`, so the subtraction
in the sort comparators is exact on the list. -/
def diffs_fit_int32 {α : Type} (key : α → Int) (l : List α) : Prop :=
  ∀ a ∈ l, ∀ b ∈ l, -2147483648 ≤ key a - key b ∧ key a - key b < 2147483648

/-! ## Auxiliary definitions for the hash, walker and blame statements -/

/-- The shape of a CSG tree without its node ids: no node, a primitive leaf
with surface id and sense, or an operation with its tag and two subtrees. -/
inductive csg_shape where
  | empty
  | leaf (surface_id : Int) (sense : Int)
  | op (tag : Int) (left right : csg_shape)
  deriving DecidableEq

/-- The node `node` of `sys` is the root of a tree of shape `t`. -/
def has_shape (sys : alea_system_t) : csg_shape → Nat → Bool
  | .empty, node => node == UINT32_MAX
  | .leaf sid sense, node => node != UINT32_MAX && sys.node node == .primitive sid sense
  | .op tag l r, node =>
    node != UINT32_MAX &&
      match sys.node node with
      | .operation tag' ln rn => tag' == tag && has_shape sys l ln && has_shape sys r rn
      | .primitive _ _ => false

/-- Number of nested `hash_tree` calls on real nodes a shape needs. -/
def csg_shape.depth : csg_shape → Nat
  | .empty => 0
  | .leaf _ _ => 1
  | .op _ l r => max l.depth r.depth + 1

/-- The tree hash as a function of the shape alone. -/
def hash_shape : csg_shape → Nat
  | .empty => fnv_init
  | .leaf sid sense => fnv_int (fnv_int fnv_init sid) sense
  | .op tag l r =>
    fnv_feed (fnv_feed (fnv_int fnv_init tag) (bytes_of_u64 (hash_shape l)))
      (bytes_of_u64 (hash_shape r))

/-- One input of a hash fold: an integer fed through `fnv_int` or a double fed
through `fnv_double`. -/
inductive hash_input where
  | int (v : Int)
  | dbl (v : ℚ)

/-- Feeding a sequence of inputs into a hash state, from left to right. -/
def feed_inputs (h : Nat) (l : List hash_input) : Nat :=
  l.foldl (fun h x => match x with
    | .int v => fnv_int h v
    | .dbl v => fnv_double h v) h

/-- The inputs of `hash_lattice` for a lattice cell in the order of the source:
`lat_type`, the six dimensions, then `pitch[i]`, `lower_left[i]` for
`i = 0, 1, 2`, then the fill entries. -/
def lattice_inputs (info : alea_cell_info_t) : List hash_input :=
  [.int info.lat_type] ++
  [.int (info.lat_fill_dims 0), .int (info.lat_fill_dims 1), .int (info.lat_fill_dims 2),
   .int (info.lat_fill_dims 3), .int (info.lat_fill_dims 4), .int (info.lat_fill_dims 5)] ++
  [.dbl (info.lat_pitch 0), .dbl (info.lat_lower_left 0),
   .dbl (info.lat_pitch 1), .dbl (info.lat_lower_left 1),
   .dbl (info.lat_pitch 2), .dbl (info.lat_lower_left 2)] ++
  info.lat_fill.map .int

/-- The input order the specification states: `lat_type`, the six dimensions, the three
pitches, then the three lower-left coordinates, then the fill entries. -/
def lattice_inputs_pitches_first (info : alea_cell_info_t) : List hash_input :=
  [.int info.lat_type] ++
  [.int (info.lat_fill_dims 0), .int (info.lat_fill_dims 1), .int (info.lat_fill_dims 2),
   .int (info.lat_fill_dims 3), .int (info.lat_fill_dims 4), .int (info.lat_fill_dims 5)] ++
  [.dbl (info.lat_pitch 0), .dbl (info.lat_pitch 1), .dbl (info.lat_pitch 2)] ++
  [.dbl (info.lat_lower_left 0), .dbl (info.lat_lower_left 1),
   .dbl (info.lat_lower_left 2)] ++
  info.lat_fill.map .int

/-- The visitor that only records its invocations, returning `ret` each time. -/
def record_visit (ret : git_commit_t → Nat → Int) (commit : git_commit_t) (blob_oid : Nat)
    (trace : List (git_commit_t × Nat)) : Int × List (git_commit_t × Nat) :=
  (ret commit blob_oid, trace ++ [(commit, blob_oid)])

/-- The visitor invocations of a walk, in order, for a visitor that returns
`ret`. -/
def visits (ret : git_commit_t → Nat → Int) (commits : List (Option git_commit_t)) :
    List (git_commit_t × Nat) :=
  ag_walk_history commits (record_visit ret) []

/-- The colour the specification states for a pixel, case by case. -/
def overlay_colour_stated (co cn mo mn : Int) : rgb_t :=
  if co = cn ∧ mo = mn then
    { r := (id_to_color mo).r / 3, g := (id_to_color mo).g / 3, b := (id_to_color mo).b / 3 }
  else if co ≤ 0 ∧ cn > 0 then { r := 50, g := 200, b := 50 }
  else if co > 0 ∧ cn ≤ 0 then { r := 200, g := 50, b := 50 }
  else if co ≠ cn ∧ mo = mn then { r := 50, g := 200, b := 200 }
  else { r := 200, g := 200, b := 50 }

/-! ## Sample inputs -/

/-- Two surfaces, ids 1 and 2; cells 7 and 9. -/
def sample_old : ag_fingerprint_set_t :=
  { cells :=
      [{ cell_id := 7, material_id := 3, universe_id := 1, fill_universe := -1, lat_type := 0,
         density := 1, tree_hash := 11, lattice_hash := 22 },
       { cell_id := 9, material_id := 4, universe_id := 1, fill_universe := -1, lat_type := 0,
         density := 2, tree_hash := 12, lattice_hash := 22 }]
    surfaces :=
      [{ surface_id := 1, primitive_type := 1, boundary_type := 0, data_hash := 31 },
       { surface_id := 2, primitive_type := 2, boundary_type := 0, data_hash := 32 }] }

/-- The set `sample_old` after an edit: surface 3 added, the density of cell 7
raised to 1.1, cell 9 replaced by cell 8. -/
def sample_new : ag_fingerprint_set_t :=
  { cells :=
      [{ cell_id := 7, material_id := 3, universe_id := 1, fill_universe := -1, lat_type := 0,
         density := 11 / 10, tree_hash := 11, lattice_hash := 22 },
       { cell_id := 8, material_id := 4, universe_id := 1, fill_universe := -1, lat_type := 0,
         density := 2, tree_hash := 12, lattice_hash := 22 }]
    surfaces :=
      [{ surface_id := 1, primitive_type := 1, boundary_type := 0, data_hash := 31 },
       { surface_id := 2, primitive_type := 2, boundary_type := 0, data_hash := 32 },
       { surface_id := 3, primitive_type := 2, boundary_type := 0, data_hash := 33 }] }

/-- A cell of density `10^6`. -/
def dense_cell_a : ag_cell_fp_t :=
  { cell_id := 1, material_id := 3, universe_id := 1, fill_universe := -1, lat_type := 0,
    density := 1000000, tree_hash := 11, lattice_hash := 22 }

/-- The cell `dense_cell_a` with density `10^6 + 1.0000005`. -/
def dense_cell_b : ag_cell_fp_t :=
  { dense_cell_a with density := 1000001 + 1 / 2000000 }

/-- A lattice cell. -/
def lat_cell_old : ag_cell_fp_t :=
  { cell_id := 7, material_id := 3, universe_id := 1, fill_universe := 2, lat_type := 1,
    density := 1, tree_hash := 11, lattice_hash := 22 }

/-- The cell `lat_cell_old` with another lattice type and every other field,
`lattice_hash` included, unchanged. -/
def lat_cell_new : ag_cell_fp_t :=
  { lat_cell_old with lat_type := 2 }

/-- The info of a cell slot with the given id, without region tree or lattice. -/
def bare_cell (id : Int) : alea_cell_info_t :=
  { cell_id := id, material_id := 1, density := 1, universe_id := 1, fill_universe := -1,
    lat_type := 0, root := UINT32_MAX, lat_fill_dims := fun _ => 0, lat_pitch := fun _ => 0,
    lat_lower_left := fun _ => 0, lat_fill := [],
    bbox := { min_x := 0, max_x := 0, min_y := 0, max_y := 0, min_z := 0, max_z := 0 } }

/-- A geometry with one readable cell slot per id, in the order given, and no
surfaces. -/
def sys_of_cells (ids : List Int) : alea_system_t :=
  { cells := ids.map (fun i => some (bare_cell i)), surfaces := [],
    node := fun _ => .primitive 0 0, primitive_data := fun _ => none }

/-! ## Auxiliary definitions for the bounding box, walker and blame statements -/

/-- The inner cell of the graveyard scenario: not a graveyard cell, box `[-10, 10]^3`. -/
def scenario_inner_cell : alea_cell_info_t :=
  { bare_cell 1 with
    bbox := { min_x := -10, max_x := 10, min_y := -10, max_y := 10, min_z := -10, max_z := 10 } }

/-- The graveyard cell of the scenario: `universe_id = 0`, `material_id = 0`,
`fill_universe = -1`, box of half-width `10^6`. -/
def scenario_graveyard_cell : alea_cell_info_t :=
  { bare_cell 2 with
    universe_id := 0, material_id := 0, fill_universe := -1,
    bbox := { min_x := -1000000, max_x := 1000000, min_y := -1000000, max_y := 1000000,
              min_z := -1000000, max_z := 1000000 } }

/-- The geometry of the graveyard scenario. -/
def scenario_sys : alea_system_t :=
  { sys_of_cells [] with cells := [some scenario_inner_cell, some scenario_graveyard_cell] }

/-- All six coordinates of a box lie in `[-1000, 1000]`. -/
def bbox_in_clamp_range (o : alea_bbox_t) : Prop :=
  (-1000 ≤ o.min_x ∧ o.min_x ≤ 1000) ∧ (-1000 ≤ o.max_x ∧ o.max_x ≤ 1000) ∧
  (-1000 ≤ o.min_y ∧ o.min_y ≤ 1000) ∧ (-1000 ≤ o.max_y ∧ o.max_y ≤ 1000) ∧
  (-1000 ≤ o.min_z ∧ o.min_z ≤ 1000) ∧ (-1000 ≤ o.max_z ∧ o.max_z ≤ 1000)

/-- The min coordinates of a box are at most 1000 and its max coordinates at
least -1000. -/
def bbox_reaches_range (o : alea_bbox_t) : Prop :=
  o.min_x ≤ 1000 ∧ -1000 ≤ o.max_x ∧ o.min_y ≤ 1000 ∧ -1000 ≤ o.max_y ∧
  o.min_z ≤ 1000 ∧ -1000 ≤ o.max_z

/-- What a walk does at one commit, seen from outside: an invocation of the
visitor with a blob id, or a reset of the remembered blob id at a commit that
lacks the path. -/
inductive walk_event where
  | visit (commit : git_commit_t) (blob_oid : Nat)
  | reset

/-- The invocations and resets of a walk, in order, as a function of the
commits and of the remembered blob id alone. -/
def walk_events (ret : git_commit_t → Nat → Int) :
    List (Option git_commit_t) → Option Nat → List walk_event
  | [], _ => []
  | none :: rest, prev => walk_events ret rest prev
  | some commit :: rest, prev =>
    match commit.blob with
    | none => .reset :: walk_events ret rest none
    | some blob_oid =>
      if prev ≠ some blob_oid then
        if ret commit blob_oid ≠ 0 then [.visit commit blob_oid]
        else .visit commit blob_oid :: walk_events ret rest (some blob_oid)
      else walk_events ret rest (some blob_oid)

/-- The invocations among the events. -/
def event_visits : List walk_event → List (git_commit_t × Nat)
  | [] => []
  | .visit c b :: es => (c, b) :: event_visits es
  | .reset :: es => event_visits es

/-- Two events that follow each other are not two invocations with the same
blob id. -/
def events_differ : walk_event → walk_event → Prop
  | .visit _ b₁, .visit _ b₂ => b₁ ≠ b₂
  | _, _ => True

/-- The first event is not an invocation with the remembered blob id. -/
def first_event_differs (prev : Option Nat) : List walk_event → Prop
  | .visit _ b :: _ => prev ≠ some b
  | _ => True

/-- The initial payload of `cmd_blame`. -/
def blame_init (head_fp : ag_fingerprint_set_t) : blame_walk_t :=
  { current_fp := head_fp,
    cell_blames := head_fp.cells.map
      (fun c => { id := c.cell_id, sha := "", author := "", date := "" }),
    surf_blames := head_fp.surfaces.map
      (fun c => { id := c.surface_id, sha := "", author := "", date := "" }),
    first := true }

/-- The old array holds the id, and its first fingerprint with that id
compares equal to the current fingerprint. -/
def elem_matches {α : Type} (key : α → Int) (cmp : α → α → Int) (cur : α) (old : List α) :
    Bool :=
  match old.find? (fun o => decide (key o = key cur)) with
  | some o => decide (cmp cur o = 0)
  | none => false

/-- The commit's geometry loads and holds the cell with an equal fingerprint. -/
def cell_matches (cur : ag_cell_fp_t) (c : git_commit_t) : Bool :=
  match c.fp with
  | some old => elem_matches ag_cell_fp_t.cell_id ag_cell_fp_compare cur old.cells
  | none => false

/-- The commit's geometry loads and holds the surface with an equal fingerprint. -/
def surface_matches (cur : ag_surface_fp_t) (c : git_commit_t) : Bool :=
  match c.fp with
  | some old => elem_matches ag_surface_fp_t.surface_id ag_surface_fp_compare cur old.surfaces
  | none => false

/-- The last commit of `vs` that satisfies `m`, and `seed` when there is none. -/
def last_match (m : git_commit_t → Bool) (seed : git_commit_t) (vs : List git_commit_t) :
    git_commit_t :=
  ((vs.filter m).getLast?).getD seed

/-- The blame entry that names the commit. -/
def attributed (id : Int) (c : git_commit_t) : blame_entry_t :=
  { id := id, sha := c.short_oid, author := c.author, date := c.date }

/-- Applying `blame_walk_cb` to a list of commits in turn. -/
def blame_apply (w : blame_walk_t) (vs : List git_commit_t) : blame_walk_t :=
  vs.foldl (fun w c => (blame_walk_cb c 0 w).2) w

/-- A union of two half-space leaves stored at node ids 0, 1, 2. -/
def tree_sys_low : alea_system_t :=
  { sys_of_cells [] with
    node := fun n =>
      if n = 0 then .operation 2 1 2
      else if n = 1 then .primitive 1 1
      else .primitive 2 (-1) }

/-- The same tree stored at node ids 10, 7, 3. -/
def tree_sys_high : alea_system_t :=
  { sys_of_cells [] with
    node := fun n =>
      if n = 10 then .operation 2 7 3
      else if n = 7 then .primitive 1 1
      else .primitive 2 (-1) }

/-- The shape of the tree of `tree_sys_low` and `tree_sys_high`. -/
def tree_shape : csg_shape := .op 2 (.leaf 1 1) (.leaf 2 (-1))

/-- A lattice cell with pitches `(1, 2, 3)` and lower-left corner `(4, 5, 6)`. -/
def lat_cell_pitch : alea_cell_info_t :=
  { bare_cell 1 with
    lat_type := 1,
    lat_pitch := fun i => (i : Nat) + 1,
    lat_lower_left := fun i => (i : Nat) + 4 }

/-- The cube `[-r, r]^3`. -/
def cube_bbox (r : ℚ) : alea_bbox_t :=
  { min_x := -r, max_x := r, min_y := -r, max_y := r, min_z := -r, max_z := r }

/-- The geometry consists of one non-graveyard cell with box `[-10, 10]^3` and
one graveyard cell with a box of half-width `10^6`, in either slot order. -/
def graveyard_scenario (sys : alea_system_t) : Prop :=
  ∃ c g : alea_cell_info_t,
    is_graveyard_cell c = false ∧ c.bbox = cube_bbox 10 ∧
    g.universe_id = 0 ∧ g.material_id = 0 ∧ g.fill_universe = -1 ∧
    g.bbox = cube_bbox 1000000 ∧
    (sys.cells = [some c, some g] ∨ sys.cells = [some g, some c])

/-- A geometry whose only cell has the box `[5000, 6000]^3`. -/
def far_cell_sys : alea_system_t :=
  { sys_of_cells [] with
    cells := [some { bare_cell 1 with
      bbox := { min_x := 5000, max_x := 6000, min_y := 5000, max_y := 6000,
                min_z := 5000, max_z := 6000 } }] }

/-- A commit named `name` whose path resolves to `blob` and whose geometry
gives `fp`. -/
def commit_of (name : String) (blob : Option Nat) (fp : Option ag_fingerprint_set_t) :
    git_commit_t :=
  { short_oid := name, author := name, date := name, blob := blob, fp := fp }

/-- A history in which the path is missing at the middle commit and resolves
to the same blob before and after. -/
def history_with_gap : List (Option git_commit_t) :=
  [some (commit_of "c3" (some 1) none), some (commit_of "c2" none none),
   some (commit_of "c1" (some 1) none)]

/-- A history in which every commit has the path. -/
def history_present : List (Option git_commit_t) :=
  [some (commit_of "c4" (some 1) none), some (commit_of "c3" (some 1) none),
   some (commit_of "c2" (some 2) none), some (commit_of "c1" (some 1) none)]

/-- A fingerprint of cell 7. -/
def cell_seven : ag_cell_fp_t :=
  { cell_id := 7, material_id := 1, density := 1, universe_id := 0,
    fill_universe := -1, lat_type := 0, tree_hash := 11, lattice_hash := 22 }

/-- A fingerprint set with the single cell 7. -/
def fp_one_cell : ag_fingerprint_set_t :=
  { cells := [cell_seven], surfaces := [] }

/-- The same set with another material for cell 7. -/
def fp_one_cell_changed : ag_fingerprint_set_t :=
  { cells := [{ cell_seven with material_id := 2 }], surfaces := [] }

/-- Three commits, newest first: `c1` introduces the file with another material
for cell 7, `c2` changes the file to the version of the tip, and `c3` leaves
the file as it is (same blob as `c2`). -/
def history_run : List (Option git_commit_t) :=
  [some (commit_of "c3" (some 2) (some fp_one_cell)),
   some (commit_of "c2" (some 2) (some fp_one_cell)),
   some (commit_of "c1" (some 1) (some fp_one_cell_changed))]

/-- Three commits with three blobs; cell 7 is unchanged in the two newest. -/
def history_three : List (Option git_commit_t) :=
  [some (commit_of "c3" (some 3) (some fp_one_cell)),
   some (commit_of "c2" (some 2) (some fp_one_cell)),
   some (commit_of "c1" (some 1) (some fp_one_cell_changed))]

/-- The row the layout description states for image row `y`: per pixel the
blue, green and red byte, then zero bytes up to `row_size`. -/
def bmp_row_stated (pixels : List Nat) (width row_size y : Nat) : List Nat :=
  (List.range width).flatMap
    (fun x => [pixels.getD ((y * width + x) * 3 + 2) 0, pixels.getD ((y * width + x) * 3 + 1) 0,
      pixels.getD ((y * width + x) * 3 + 0) 0]) ++
  List.replicate (row_size - 3 * width) 0

/-- The path has none of the recognised extensions, or there is no path. -/
def no_known_extension (path : Option (List Char)) : Prop :=
  ∀ p, path = some p →
    ag_str_ends_with p ".xml".toList = false ∧ ag_str_ends_with p ".inp".toList = false ∧
    ag_str_ends_with p ".i".toList = false ∧ ag_str_ends_with p ".mcnp".toList = false

/-- The first character of the buffer after the skipped ones is `<`. -/
def starts_with_angle (d : List Char) : Bool :=
  decide ((d.dropWhile is_skipped_char).head? = some '<')

/-- No diff entry has the kind `DIFF_UNCHANGED`, and the two counts are the
lengths of the entry arrays: what every result of `ag_diff` satisfies. -/
def diff_result_wf (diff : ag_diff_result_t) : Prop :=
  (∀ e ∈ diff.surfaces, e.change ≠ .DIFF_UNCHANGED) ∧
  (∀ e ∈ diff.cells, e.change ≠ .DIFF_UNCHANGED) ∧
  diff.surface_count = diff.surfaces.length ∧ diff.cell_count = diff.cells.length

/-- The detail lines of all entries, surfaces before cells, in result order. -/
def all_details (diff : ag_diff_result_t) : List trailer_line :=
  diff.surfaces.map trailer_line.surface_detail ++ diff.cells.map trailer_line.cell_detail

/-- Old set for the overflow case: surfaces 1 to 20 and cells 1 to 15. -/
def many_old : ag_fingerprint_set_t :=
  { cells := (List.range 15).map (fun i => { ag_cell_fp_zero with cell_id := (i : Int) + 1 }),
    surfaces := (List.range 20).map
      (fun i => { ag_surface_fp_zero with surface_id := (i : Int) + 1 }) }

/-- The empty fingerprint set. -/
def empty_set : ag_fingerprint_set_t := { cells := [], surfaces := [] }

/-- An existing `.gitattributes` of 1023 characters without `diff=mcnp`: 33
lines `# local attribute settings ....` of 31 characters each. -/
def long_attributes : List Char :=
  ((List.replicate 33 "# local attribute settings ...\n").foldl (fun a b => a ++ b) "").toList

/-- Lexicographic order on `(diff_count, geom_count)`: strictly smaller. -/
def score_lt (a b : slice_score_t) : Prop :=
  a.diff_count < b.diff_count ∨ (a.diff_count = b.diff_count ∧ a.geom_count < b.geom_count)

/-- Lexicographic order on `(diff_count, geom_count)`: smaller or equal. -/
def score_le (a b : slice_score_t) : Prop :=
  a.diff_count < b.diff_count ∨ (a.diff_count = b.diff_count ∧ a.geom_count ≤ b.geom_count)

/-- The enum value of an axis. -/
def axis_index : ag_slice_axis_t → Nat
  | .AG_AXIS_X => 0
  | .AG_AXIS_Y => 1
  | .AG_AXIS_Z => 2

/-- The update rule of both selection loops on a state type `β` with a score. -/
def keep_better_by {β : Type} (sc : β → slice_score_t) (best cand : β) : β :=
  if (sc cand).diff_count > (sc best).diff_count ∨
      ((sc cand).diff_count = (sc best).diff_count ∧
        (sc cand).geom_count > (sc best).geom_count) then cand
  else best

/-- The diff result with no entries and all counters 0. -/
def ag_diff_result_empty : ag_diff_result_t :=
  { cells := [], cell_count := 0, surfaces := [], surface_count := 0,
    cells_added := 0, cells_removed := 0, cells_modified := 0,
    surfs_added := 0, surfs_removed := 0, surfs_modified := 0 }

/-- The fingerprint set that holds one cell and no surface. -/
def one_cell_set (c : ag_cell_fp_t) : ag_fingerprint_set_t := { cells := [c], surfaces := [] }

/-- The cell of the density scenario: material 3, density 1.0, universe 1. -/
def density_cell : ag_cell_fp_t :=
  { cell_id := 7, material_id := 3, universe_id := 1, fill_universe := -1, lat_type := 0,
    density := 1, tree_hash := 11, lattice_hash := 22 }

/-- The parameter data the surface loop of `ag_fingerprint` hashes for a slot:
`none` when `pos_node` is invalid or the data cannot be read. -/
def surface_data (sys : alea_system_t) (s : alea_surface_t) : Option (List ℚ) :=
  if s.pos_node ≠ ALEA_NODE_ID_INVALID then sys.primitive_data s.pos_node else none

/-- The products of `v` and `w` with `10^6` lie at the same grid point: both
within `1/2 - (|k| + 1) / 2^53` of the same integer `k`, the margin covering
the rounding of the product to a double. -/
def same_grid_point (v w : ℚ) : Prop :=
  ∃ k : Int, |v * 1000000 - k| ≤ 1 / 2 - (|(k : ℚ)| + 1) / 2 ^ 53 ∧
    |w * 1000000 - k| ≤ 1 / 2 - (|(k : ℚ)| + 1) / 2 ^ 53

/-- The payload of `cmd_blame` for the tip `fp_one_cell` after the seed with
the commit `c3`. -/
def seeded_walk : blame_walk_t :=
  (blame_walk_cb (commit_of "c3" (some 3) (some fp_one_cell)) 3 (blame_init fp_one_cell)).2

/-! ## Theorems -/

section walk

variable {α : Type} (key : α → Int) (cmp : α → α → Int) (mask : α → α → Nat) (zero : α)

theorem diff_walk_eq (fuel : Nat) (old new : List α) (st : diff_state α) :
    (diff_walk key cmp mask zero fuel old new st).entries =
        st.entries ++ diff_list key cmp mask zero fuel old new ∧
    (diff_walk key cmp mask zero fuel old new st).si =
        st.si + (diff_list key cmp mask zero fuel old new).length ∧
    (diff_walk key cmp mask zero fuel old new st).added =
        st.added + count_kind .DIFF_ADDED (diff_list key cmp mask zero fuel old new) ∧
    (diff_walk key cmp mask zero fuel old new st).removed =
        st.removed + count_kind .DIFF_REMOVED (diff_list key cmp mask zero fuel old new) ∧
    (diff_walk key cmp mask zero fuel old new st).modified =
        st.modified + count_kind .DIFF_MODIFIED (diff_list key cmp mask zero fuel old new) := by
  induction fuel generalizing old new st with
  | zero => simp [diff_walk, diff_list, count_kind]
  | succ f ih =>
    rcases old with _ | ⟨o, os⟩ <;> rcases new with _ | ⟨n, ns⟩
    · simp [diff_walk, diff_list, count_kind]
    · obtain ⟨h1, h2, h3, h4, h5⟩ := ih [] ns (emit_added key zero n st)
      simp only [diff_walk, diff_list, h1, h2, h3, h4, h5]
      simp [emit_added, entry_added, count_kind, List.countP_cons]
      omega
    · obtain ⟨h1, h2, h3, h4, h5⟩ := ih os [] (emit_removed key zero o st)
      simp only [diff_walk, diff_list, h1, h2, h3, h4, h5]
      simp [emit_removed, entry_removed, count_kind, List.countP_cons]
      omega
    · simp only [diff_walk, diff_list]
      by_cases hk : key o = key n
      · by_cases hc : cmp o n = 0
        · simpa [hk, hc] using ih os ns st
        · obtain ⟨h1, h2, h3, h4, h5⟩ := ih os ns (emit_modified key mask o n st)
          simp only [hk, hc, if_true, if_false, ne_eq, not_false_eq_true, h1, h2, h3, h4, h5]
          simp [emit_modified, entry_modified, count_kind, List.countP_cons]
          omega
      · by_cases hlt : key o < key n
        · obtain ⟨h1, h2, h3, h4, h5⟩ := ih os (n :: ns) (emit_removed key zero o st)
          simp only [hk, hlt, if_true, if_false, h1, h2, h3, h4, h5]
          simp [emit_removed, entry_removed, count_kind, List.countP_cons]
          omega
        · obtain ⟨h1, h2, h3, h4, h5⟩ := ih (o :: os) ns (emit_added key zero n st)
          simp only [hk, hlt, if_true, if_false, h1, h2, h3, h4, h5]
          simp [emit_added, entry_added, count_kind, List.countP_cons]
          omega

theorem diff_list_change (fuel : Nat) (old new : List α) :
    ∀ e ∈ diff_list key cmp mask zero fuel old new,
      e.change = .DIFF_ADDED ∨ e.change = .DIFF_REMOVED ∨ e.change = .DIFF_MODIFIED := by
  induction fuel generalizing old new with
  | zero => simp [diff_list]
  | succ f ih =>
    rcases old with _ | ⟨o, os⟩ <;> rcases new with _ | ⟨n, ns⟩
    · simp [diff_list]
    · intro e he
      simp only [diff_list, List.mem_cons] at he
      rcases he with rfl | he
      · simp [entry_added]
      · exact ih _ _ e he
    · intro e he
      simp only [diff_list, List.mem_cons] at he
      rcases he with rfl | he
      · simp [entry_removed]
      · exact ih _ _ e he
    · intro e he
      simp only [diff_list] at he
      split_ifs at he
      · rcases List.mem_cons.1 he with rfl | he
        · simp [entry_modified]
        · exact ih _ _ e he
      · exact ih _ _ e he
      · rcases List.mem_cons.1 he with rfl | he
        · simp [entry_removed]
        · exact ih _ _ e he
      · rcases List.mem_cons.1 he with rfl | he
        · simp [entry_added]
        · exact ih _ _ e he

theorem diff_list_id_mem (fuel : Nat) (old new : List α) :
    ∀ e ∈ diff_list key cmp mask zero fuel old new,
      e.id ∈ old.map key ∨ e.id ∈ new.map key := by
  induction fuel generalizing old new with
  | zero => simp [diff_list]
  | succ f ih =>
    rcases old with _ | ⟨o, os⟩ <;> rcases new with _ | ⟨n, ns⟩
    · simp [diff_list]
    · intro e he
      simp only [diff_list, List.mem_cons] at he
      rcases he with rfl | he
      · simp [entry_added]
      · rcases ih _ _ e he with h | h
        · exact Or.inl h
        · exact Or.inr (List.mem_cons_of_mem _ h)
    · intro e he
      simp only [diff_list, List.mem_cons] at he
      rcases he with rfl | he
      · simp [entry_removed]
      · rcases ih _ _ e he with h | h
        · exact Or.inl (List.mem_cons_of_mem _ h)
        · exact Or.inr h
    · intro e he
      simp only [diff_list] at he
      have hrest : ∀ os' ns', (∀ x ∈ os', x ∈ o :: os) → (∀ x ∈ ns', x ∈ n :: ns) →
          e ∈ diff_list key cmp mask zero f os' ns' →
          e.id ∈ (o :: os).map key ∨ e.id ∈ (n :: ns).map key := by
        intro os' ns' h1 h2 h
        rcases ih _ _ e h with h | h
        · obtain ⟨x, hx, hxe⟩ := List.mem_map.1 h
          exact Or.inl (List.mem_map.2 ⟨x, h1 x hx, hxe⟩)
        · obtain ⟨x, hx, hxe⟩ := List.mem_map.1 h
          exact Or.inr (List.mem_map.2 ⟨x, h2 x hx, hxe⟩)
      have so : ∀ x ∈ os, x ∈ o :: os := fun x hx => List.mem_cons_of_mem _ hx
      have sn : ∀ x ∈ ns, x ∈ n :: ns := fun x hx => List.mem_cons_of_mem _ hx
      split_ifs at he
      · rcases List.mem_cons.1 he with rfl | he
        · simp [entry_modified]
        · exact hrest _ _ so sn he
      · exact hrest _ _ so sn he
      · rcases List.mem_cons.1 he with rfl | he
        · simp [entry_removed]
        · exact hrest _ _ so (fun _ h => h) he
      · rcases List.mem_cons.1 he with rfl | he
        · simp [entry_added]
        · exact hrest _ _ (fun _ h => h) sn he

theorem diff_list_lower_bound (fuel : Nat) (old new : List α) (b : Int)
    (ho : ∀ k ∈ old.map key, b < k) (hn : ∀ k ∈ new.map key, b < k) :
    ∀ k ∈ (diff_list key cmp mask zero fuel old new).map (fun e => e.id), b < k := by
  intro k hk
  obtain ⟨e, he, rfl⟩ := List.mem_map.1 hk
  rcases diff_list_id_mem key cmp mask zero fuel old new e he with h | h
  · exact ho _ h
  · exact hn _ h

theorem diff_list_sorted (fuel : Nat) (old new : List α)
    (ho : (old.map key).Pairwise (fun a b => a < b))
    (hn : (new.map key).Pairwise (fun a b => a < b)) :
    ((diff_list key cmp mask zero fuel old new).map (fun e => e.id)).Pairwise
      (fun a b => a < b) := by
  induction fuel generalizing old new with
  | zero => simp [diff_list]
  | succ f ih =>
    rcases old with _ | ⟨o, os⟩ <;> rcases new with _ | ⟨n, ns⟩
    · simp [diff_list]
    · rw [List.map_cons, List.pairwise_cons] at hn
      simp only [diff_list, List.map_cons, List.pairwise_cons]
      exact ⟨diff_list_lower_bound key cmp mask zero f [] ns _ (by simp) hn.1,
        ih [] ns ho hn.2⟩
    · rw [List.map_cons, List.pairwise_cons] at ho
      simp only [diff_list, List.map_cons, List.pairwise_cons]
      exact ⟨diff_list_lower_bound key cmp mask zero f os [] _ ho.1 (by simp),
        ih os [] ho.2 hn⟩
    · have ho' := ho
      have hn' := hn
      rw [List.map_cons, List.pairwise_cons] at ho' hn'
      simp only [diff_list]
      split_ifs with hk hc hlt
      · simp only [List.map_cons, List.pairwise_cons]
        refine ⟨diff_list_lower_bound key cmp mask zero f os ns _ ho'.1 ?_, ih os ns ho'.2 hn'.2⟩
        intro k hk'
        simpa [entry_modified, hk] using hn'.1 k hk'
      · exact ih os ns ho'.2 hn'.2
      · simp only [List.map_cons, List.pairwise_cons]
        refine ⟨diff_list_lower_bound key cmp mask zero f os (n :: ns) _ ho'.1 ?_,
          ih os (n :: ns) ho'.2 hn⟩
        intro k hk'
        rcases List.mem_cons.1 hk' with rfl | hk'
        · exact hlt
        · exact lt_trans hlt (hn'.1 k hk')
      · have hgt : key n < key o := lt_of_le_of_ne (not_lt.1 hlt) (Ne.symm hk)
        simp only [List.map_cons, List.pairwise_cons]
        refine ⟨diff_list_lower_bound key cmp mask zero f (o :: os) ns _ ?_ hn'.1,
          ih (o :: os) ns ho hn'.2⟩
        intro k hk'
        rcases List.mem_cons.1 hk' with rfl | hk'
        · exact hgt
        · exact lt_trans hgt (ho'.1 k hk')

theorem one_sided_cons_left_keep (mk : α → ag_diff_entry α) (x : α) (xs ys : List α)
    (e : ag_diff_entry α) (h : ∀ y ∈ ys, key y ≠ key x) :
    one_sided key mk (x :: xs) ys e ↔ e = mk x ∨ one_sided key mk xs ys e := by
  constructor
  · rintro ⟨a, ha, hay, he⟩
    rcases List.mem_cons.1 ha with rfl | ha
    · exact Or.inl he
    · exact Or.inr ⟨a, ha, hay, he⟩
  · rintro (he | ⟨a, ha, hay, he⟩)
    · exact ⟨x, List.mem_cons_self _ _, h, he⟩
    · exact ⟨a, List.mem_cons_of_mem _ ha, hay, he⟩

theorem one_sided_cons_left_skip (mk : α → ag_diff_entry α) (x : α) (xs ys : List α)
    (e : ag_diff_entry α) (h : ∃ y ∈ ys, key y = key x) :
    one_sided key mk (x :: xs) ys e ↔ one_sided key mk xs ys e := by
  constructor
  · rintro ⟨a, ha, hay, he⟩
    rcases List.mem_cons.1 ha with rfl | ha
    · obtain ⟨y, hy, hyx⟩ := h
      exact absurd hyx (hay y hy)
    · exact ⟨a, ha, hay, he⟩
  · rintro ⟨a, ha, hay, he⟩
    exact ⟨a, List.mem_cons_of_mem _ ha, hay, he⟩

theorem one_sided_cons_right (mk : α → ag_diff_entry α) (xs : List α) (y : α) (ys : List α)
    (e : ag_diff_entry α) (h : ∀ x ∈ xs, key y ≠ key x) :
    one_sided key mk xs (y :: ys) e ↔ one_sided key mk xs ys e := by
  constructor
  · rintro ⟨a, ha, hay, he⟩
    exact ⟨a, ha, fun b hb => hay b (List.mem_cons_of_mem _ hb), he⟩
  · rintro ⟨a, ha, hay, he⟩
    refine ⟨a, ha, fun b hb => ?_, he⟩
    rcases List.mem_cons.1 hb with rfl | hb
    · exact h a ha
    · exact hay b hb

theorem two_sided_cons_old_skip (o : α) (os new : List α) (e : ag_diff_entry α)
    (h : ∀ y ∈ new, key o ≠ key y) :
    two_sided key cmp mask (o :: os) new e ↔ two_sided key cmp mask os new e := by
  constructor
  · rintro ⟨a, ha, b, hb, hab, hc, he⟩
    rcases List.mem_cons.1 ha with rfl | ha
    · exact absurd hab (h b hb)
    · exact ⟨a, ha, b, hb, hab, hc, he⟩
  · rintro ⟨a, ha, b, hb, hab, hc, he⟩
    exact ⟨a, List.mem_cons_of_mem _ ha, b, hb, hab, hc, he⟩

theorem two_sided_cons_new_skip (old : List α) (n : α) (ns : List α) (e : ag_diff_entry α)
    (h : ∀ x ∈ old, key x ≠ key n) :
    two_sided key cmp mask old (n :: ns) e ↔ two_sided key cmp mask old ns e := by
  constructor
  · rintro ⟨a, ha, b, hb, hab, hc, he⟩
    rcases List.mem_cons.1 hb with rfl | hb
    · exact absurd hab (h a ha)
    · exact ⟨a, ha, b, hb, hab, hc, he⟩
  · rintro ⟨a, ha, b, hb, hab, hc, he⟩
    exact ⟨a, ha, b, List.mem_cons_of_mem _ hb, hab, hc, he⟩

theorem two_sided_cons_both (o : α) (os : List α) (n : α) (ns : List α) (e : ag_diff_entry α)
    (hk : key o = key n)
    (h1 : ∀ y ∈ ns, key o ≠ key y) (h2 : ∀ x ∈ os, key x ≠ key n) :
    two_sided key cmp mask (o :: os) (n :: ns) e ↔
      (cmp o n ≠ 0 ∧ e = entry_modified key mask o n) ∨ two_sided key cmp mask os ns e := by
  constructor
  · rintro ⟨a, ha, b, hb, hab, hc, he⟩
    rcases List.mem_cons.1 ha with rfl | ha <;> rcases List.mem_cons.1 hb with rfl | hb
    · exact Or.inl ⟨hc, he⟩
    · exact absurd hab (h1 b hb)
    · exact absurd hab (h2 a ha)
    · exact Or.inr ⟨a, ha, b, hb, hab, hc, he⟩
  · rintro (⟨hc, he⟩ | ⟨a, ha, b, hb, hab, hc, he⟩)
    · exact ⟨o, List.mem_cons_self _ _, n, List.mem_cons_self _ _, hk, hc, he⟩
    · exact ⟨a, List.mem_cons_of_mem _ ha, b, List.mem_cons_of_mem _ hb, hab, hc, he⟩

theorem mem_diff_list_iff (fuel : Nat) (old new : List α)
    (hf : old.length + new.length ≤ fuel)
    (ho : (old.map key).Pairwise (fun a b => a < b))
    (hn : (new.map key).Pairwise (fun a b => a < b)) (e : ag_diff_entry α) :
    e ∈ diff_list key cmp mask zero fuel old new ↔
      one_sided key (entry_removed key zero) old new e ∨
      one_sided key (entry_added key zero) new old e ∨
      two_sided key cmp mask old new e := by
  induction fuel generalizing old new with
  | zero =>
    have h1 : old = [] := List.length_eq_zero.1 (by omega)
    have h2 : new = [] := List.length_eq_zero.1 (by omega)
    subst h1 h2
    simp [diff_list, one_sided, two_sided]
  | succ f ih =>
    rcases old with _ | ⟨o, os⟩ <;> rcases new with _ | ⟨n, ns⟩
    · simp [diff_list, one_sided, two_sided]
    · rw [List.map_cons, List.pairwise_cons] at hn
      have := ih [] ns (by simp at hf ⊢; omega) ho hn.2
      simp only [diff_list, List.mem_cons, this]
      rw [one_sided_cons_left_keep key _ n ns [] e (by simp)]
      simp [one_sided, two_sided]
    · rw [List.map_cons, List.pairwise_cons] at ho
      have := ih os [] (by simp at hf ⊢; omega) ho.2 hn
      simp only [diff_list, List.mem_cons, this]
      rw [one_sided_cons_left_keep key _ o os [] e (by simp)]
      simp [one_sided, two_sided]
    · have ho' := ho
      have hn' := hn
      rw [List.map_cons, List.pairwise_cons] at ho' hn'
      have hos : ∀ x ∈ os, key o < key x := fun x hx => ho'.1 _ (List.mem_map_of_mem _ hx)
      have hns : ∀ x ∈ ns, key n < key x := fun x hx => hn'.1 _ (List.mem_map_of_mem _ hx)
      simp only [diff_list]
      split_ifs with hk hc hlt
      · have := ih os ns (by simp at hf ⊢; omega) ho'.2 hn'.2
        rw [List.mem_cons, this,
          one_sided_cons_left_skip key _ o os (n :: ns) e ⟨n, List.mem_cons_self _ _, hk.symm⟩,
          one_sided_cons_right key _ os n ns e (fun x hx h => by have := hos x hx; omega),
          one_sided_cons_left_skip key _ n ns (o :: os) e ⟨o, List.mem_cons_self _ _, hk⟩,
          one_sided_cons_right key _ ns o os e (fun x hx h => by have := hns x hx; omega),
          two_sided_cons_both key cmp mask o os n ns e hk
            (fun x hx h => by have := hns x hx; omega)
            (fun x hx h => by have := hos x hx; omega)]
        tauto
      · have := ih os ns (by simp at hf ⊢; omega) ho'.2 hn'.2
        rw [this,
          one_sided_cons_left_skip key _ o os (n :: ns) e ⟨n, List.mem_cons_self _ _, hk.symm⟩,
          one_sided_cons_right key _ os n ns e (fun x hx h => by have := hos x hx; omega),
          one_sided_cons_left_skip key _ n ns (o :: os) e ⟨o, List.mem_cons_self _ _, hk⟩,
          one_sided_cons_right key _ ns o os e (fun x hx h => by have := hns x hx; omega),
          two_sided_cons_both key cmp mask o os n ns e hk
            (fun x hx h => by have := hns x hx; omega)
            (fun x hx h => by have := hos x hx; omega)]
        tauto
      · have hnn : ∀ y ∈ n :: ns, key o < key y := by
          intro y hy
          rcases List.mem_cons.1 hy with rfl | hy
          · exact hlt
          · exact lt_trans hlt (hns y hy)
        have := ih os (n :: ns) (by simp at hf ⊢; omega) ho'.2 hn
        rw [List.mem_cons, this,
          one_sided_cons_left_keep key _ o os (n :: ns) e
            (fun y hy h => by have := hnn y hy; omega),
          one_sided_cons_right key _ (n :: ns) o os e
            (fun y hy h => by have := hnn y hy; omega),
          two_sided_cons_old_skip key cmp mask o os (n :: ns) e
            (fun y hy h => by have := hnn y hy; omega)]
        tauto
      · have hgt : key n < key o := lt_of_le_of_ne (not_lt.1 hlt) (Ne.symm hk)
        have hoo : ∀ y ∈ o :: os, key n < key y := by
          intro y hy
          rcases List.mem_cons.1 hy with rfl | hy
          · exact hgt
          · exact lt_trans hgt (hos y hy)
        have := ih (o :: os) ns (by simp at hf ⊢; omega) ho hn'.2
        rw [List.mem_cons, this,
          one_sided_cons_left_keep key _ n ns (o :: os) e
            (fun y hy h => by have := hoo y hy; omega),
          one_sided_cons_right key _ (o :: os) n ns e
            (fun y hy h => by have := hoo y hy; omega),
          two_sided_cons_new_skip key cmp mask (o :: os) n ns e
            (fun y hy h => by have := hoo y hy; omega)]
        tauto

theorem diff_list_self (hrefl : ∀ x, cmp x x = 0) (fuel : Nat) (l : List α) :
    diff_list key cmp mask zero fuel l l = [] := by
  induction fuel generalizing l with
  | zero => simp [diff_list]
  | succ f ih =>
    rcases l with _ | ⟨x, xs⟩
    · simp [diff_list]
    · simp [diff_list, hrefl, ih]

end walk

theorem length_eq_count_kinds {α : Type} (l : List (ag_diff_entry α))
    (h : ∀ e ∈ l, e.change = .DIFF_ADDED ∨ e.change = .DIFF_REMOVED ∨
      e.change = .DIFF_MODIFIED) :
    count_kind .DIFF_ADDED l + count_kind .DIFF_REMOVED l + count_kind .DIFF_MODIFIED l
      = l.length := by
  induction l with
  | nil => simp [count_kind]
  | cons e es ih =>
    have ih := ih (fun x hx => h x (List.mem_cons_of_mem _ hx))
    simp only [count_kind] at ih ⊢
    rcases h e (List.mem_cons_self _ _) with he | he | he <;>
      simp [List.countP_cons, he] <;> omega

theorem ag_diff_surfaces_eq (old new : ag_fingerprint_set_t) :
    (ag_diff old new).surfaces =
      diff_list ag_surface_fp_t.surface_id ag_surface_fp_compare ag_surface_fp_diff
        ag_surface_fp_zero (old.surfaces.length + new.surfaces.length)
        old.surfaces new.surfaces := by
  simp [ag_diff, diff_walk_eq, diff_state.init]

theorem ag_diff_cells_eq (old new : ag_fingerprint_set_t) :
    (ag_diff old new).cells =
      diff_list ag_cell_fp_t.cell_id ag_cell_fp_compare ag_cell_fp_diff
        ag_cell_fp_zero (old.cells.length + new.cells.length) old.cells new.cells := by
  simp [ag_diff, diff_walk_eq, diff_state.init]

theorem density_changed_eq_false_iff (a b : ℚ) :
    density_changed a b = false ↔
      abs (a - b) ≤ max (1 / 1000000) (1 / 1000000 * abs a) := by
  simp only [density_changed, Bool.and_eq_false_iff, decide_eq_false_iff_not, not_lt, le_max_iff,
    mul_comm (abs a)]

theorem density_changed_self (a : ℚ) : density_changed a a = false := by
  simp [density_changed]

theorem ag_cell_fp_compare_self (x : ag_cell_fp_t) : ag_cell_fp_compare x x = 0 := by
  simp [ag_cell_fp_compare, density_changed_self]

theorem ag_surface_fp_compare_self (x : ag_surface_fp_t) : ag_surface_fp_compare x x = 0 := by
  simp [ag_surface_fp_compare]

/-- C2: for every fingerprint set `S`, sorted or not, `ag_diff S S` has empty
surface and cell entry arrays, `surface_count = cell_count = 0`, and all six
counters equal to 0. -/
theorem ag_diff_self_empty (S : ag_fingerprint_set_t) :
    ag_diff S S =
      { cells := [], cell_count := 0, surfaces := [], surface_count := 0,
        cells_added := 0, cells_removed := 0, cells_modified := 0,
        surfs_added := 0, surfs_removed := 0, surfs_modified := 0 } := by
  simp [ag_diff, diff_walk_eq, diff_state.init,
    diff_list_self _ _ _ _ ag_cell_fp_compare_self,
    diff_list_self _ _ _ _ ag_surface_fp_compare_self, count_kind]

/-- C5: for every pair of fingerprint sets, each of the six counters of
`ag_diff` equals the number of entries of its kind in the corresponding entry
array, the three surface counters sum to `surface_count` and the three cell
counters to `cell_count` (which are the lengths of the entry arrays), and no
entry has kind `DIFF_UNCHANGED`. -/
theorem ag_diff_counters (old new : ag_fingerprint_set_t) :
    (ag_diff old new).surfs_added = count_kind .DIFF_ADDED (ag_diff old new).surfaces ∧
    (ag_diff old new).surfs_removed = count_kind .DIFF_REMOVED (ag_diff old new).surfaces ∧
    (ag_diff old new).surfs_modified = count_kind .DIFF_MODIFIED (ag_diff old new).surfaces ∧
    (ag_diff old new).surfs_added + (ag_diff old new).surfs_removed +
      (ag_diff old new).surfs_modified = (ag_diff old new).surface_count ∧
    (ag_diff old new).surface_count = (ag_diff old new).surfaces.length ∧
    (ag_diff old new).cells_added = count_kind .DIFF_ADDED (ag_diff old new).cells ∧
    (ag_diff old new).cells_removed = count_kind .DIFF_REMOVED (ag_diff old new).cells ∧
    (ag_diff old new).cells_modified = count_kind .DIFF_MODIFIED (ag_diff old new).cells ∧
    (ag_diff old new).cells_added + (ag_diff old new).cells_removed +
      (ag_diff old new).cells_modified = (ag_diff old new).cell_count ∧
    (ag_diff old new).cell_count = (ag_diff old new).cells.length ∧
    (∀ e ∈ (ag_diff old new).surfaces, e.change ≠ .DIFF_UNCHANGED) ∧
    (∀ e ∈ (ag_diff old new).cells, e.change ≠ .DIFF_UNCHANGED) := by
  have hs := diff_list_change ag_surface_fp_t.surface_id ag_surface_fp_compare
    ag_surface_fp_diff ag_surface_fp_zero (old.surfaces.length + new.surfaces.length)
    old.surfaces new.surfaces
  have hc := diff_list_change ag_cell_fp_t.cell_id ag_cell_fp_compare
    ag_cell_fp_diff ag_cell_fp_zero (old.cells.length + new.cells.length)
    old.cells new.cells
  have ls := length_eq_count_kinds _ hs
  have lc := length_eq_count_kinds _ hc
  simp only [ag_diff, diff_walk_eq, diff_state.init, List.nil_append, Nat.zero_add]
  refine ⟨trivial, trivial, trivial, ls, trivial, trivial, trivial, trivial, lc, trivial, ?_, ?_⟩
  · intro e he h
    rcases hs e he with h' | h' | h' <;> rw [h] at h' <;> cases h'
  · intro e he h
    rcases hc e he with h' | h' | h' <;> rw [h] at h' <;> cases h'

theorem ag_cell_fp_compare_zero_iff_fields (a b : ag_cell_fp_t) :
    ag_cell_fp_compare a b = 0 ↔
      a.material_id = b.material_id ∧ a.universe_id = b.universe_id ∧
      a.fill_universe = b.fill_universe ∧ a.lat_type = b.lat_type ∧
      a.tree_hash = b.tree_hash ∧ a.lattice_hash = b.lattice_hash ∧
      density_changed a.density b.density = false := by
  unfold ag_cell_fp_compare
  split_ifs <;> simp_all

theorem ag_surface_fp_compare_zero_iff_fields (s t : ag_surface_fp_t) :
    ag_surface_fp_compare s t = 0 ↔
      s.primitive_type = t.primitive_type ∧ s.boundary_type = t.boundary_type ∧
      s.data_hash = t.data_hash := by
  unfold ag_surface_fp_compare
  split_ifs <;> simp_all

theorem ag_cell_fp_diff_density_bit (x y : ag_cell_fp_t) :
    ag_cell_fp_diff x y &&& CELL_CHG_DENSITY =
      if density_changed x.density y.density then CELL_CHG_DENSITY else 0 := by
  unfold ag_cell_fp_diff
  split_ifs <;> rfl

/-- C7: with densities taken as exact rationals, the density test of
`ag_cell_fp_compare` and `ag_cell_fp_diff` treats `a` and `b` as equal iff
`|a - b| ≤ max(10^-6, 10^-6 * |a|)`, where `a` is the density of the first
argument: two fingerprints that differ in density only compare equal exactly
then, and the `CELL_CHG_DENSITY` bit of the change mask of any two
fingerprints is clear exactly then. -/
theorem density_test_tolerance (x y : ag_cell_fp_t) (a b : ℚ) :
    (density_changed a b = false ↔
      abs (a - b) ≤ max (1 / 1000000) (1 / 1000000 * abs a)) ∧
    (ag_cell_fp_compare { x with density := a } { x with density := b } = 0 ↔
      abs (a - b) ≤ max (1 / 1000000) (1 / 1000000 * abs a)) ∧
    (ag_cell_fp_diff x y &&& CELL_CHG_DENSITY = 0 ↔
      abs (x.density - y.density) ≤
        max (1 / 1000000) (1 / 1000000 * abs x.density)) := by
  refine ⟨density_changed_eq_false_iff a b, ?_, ?_⟩
  · rw [← density_changed_eq_false_iff]
    simp [ag_cell_fp_compare]
  · rw [← density_changed_eq_false_iff, ag_cell_fp_diff_density_bit]
    cases density_changed x.density y.density <;> simp [CELL_CHG_DENSITY]

theorem strictly_ascending_iff_chain (l : List Int) :
    strictly_ascending l ↔ l.Chain' (fun a b => a < b) := by
  induction l with
  | nil => simp [strictly_ascending]
  | cons a l ih =>
    cases l with
    | nil => simp [strictly_ascending]
    | cons b l => simp [strictly_ascending, ih]

theorem pairwise_of_ascending (l : List Int) (h : strictly_ascending l) :
    l.Pairwise (fun a b => a < b) :=
  List.chain'_iff_pairwise.1 ((strictly_ascending_iff_chain l).1 h)

theorem countP_id_le_one {α : Type} (L : List (ag_diff_entry α)) (id : Int)
    (h : (L.map (fun e => e.id)).Pairwise (fun a b => a < b)) :
    L.countP (fun e => decide (e.id = id)) ≤ 1 := by
  have hnd : (L.map (fun e => e.id)).Nodup := h.imp (fun hab => ne_of_lt hab)
  have := List.nodup_iff_count_le_one.1 hnd id
  rw [List.count, List.countP_map] at this
  refine le_trans (le_of_eq ?_) this
  apply List.countP_congr
  intro e _
  simp only [Function.comp, beq_iff_eq, decide_eq_true_eq]

theorem countP_eq_one_iff {α : Type} (L : List (ag_diff_entry α)) (id : Int) (k : diff_change_t)
    (h : L.countP (fun e => decide (e.id = id)) ≤ 1) :
    L.countP (fun e => decide (e.id = id ∧ e.change = k)) = 1 ↔
      ∃ e ∈ L, e.id = id ∧ e.change = k := by
  have hle : L.countP (fun e => decide (e.id = id ∧ e.change = k)) ≤
      L.countP (fun e => decide (e.id = id)) := by
    apply List.countP_mono_left
    intro e _ he
    simp only [decide_eq_true_eq] at he ⊢
    exact he.1
  have hpos : 0 < L.countP (fun e => decide (e.id = id ∧ e.change = k)) ↔
      ∃ e ∈ L, e.id = id ∧ e.change = k := by
    rw [List.countP_pos_iff]
    simp only [decide_eq_true_eq]
  rw [← hpos]
  omega

section classify

variable {α : Type} (key : α → Int) (cmp : α → α → Int) (mask : α → α → Nat) (zero : α)

theorem key_inj_of_sorted (l : List α) (h : (l.map key).Pairwise (fun a b => a < b))
    (x y : α) (hx : x ∈ l) (hy : y ∈ l) (hxy : key x = key y) : x = y :=
  List.inj_on_of_nodup_map (h.imp (fun hab => ne_of_lt hab)) hx hy hxy

theorem exists_removed_iff (old new : List α)
    (ho : (old.map key).Pairwise (fun a b => a < b))
    (hn : (new.map key).Pairwise (fun a b => a < b)) (id : Int) :
    (∃ e ∈ diff_list key cmp mask zero (old.length + new.length) old new,
        e.id = id ∧ e.change = .DIFF_REMOVED) ↔
      id ∈ old.map key ∧ id ∉ new.map key := by
  constructor
  · rintro ⟨e, he, hid, hch⟩
    rw [mem_diff_list_iff key cmp mask zero _ old new le_rfl ho hn] at he
    rcases he with ⟨o, ho', hno, rfl⟩ | ⟨n, _, _, rfl⟩ | ⟨o, _, n, _, _, _, rfl⟩
    · refine ⟨List.mem_map.2 ⟨o, ho', hid⟩, fun hmem => ?_⟩
      obtain ⟨n, hn', hnid⟩ := List.mem_map.1 hmem
      exact hno n hn' (hnid.trans hid.symm)
    · simp [entry_added] at hch
    · simp [entry_modified] at hch
  · rintro ⟨hin, hout⟩
    obtain ⟨o, ho', hoid⟩ := List.mem_map.1 hin
    refine ⟨entry_removed key zero o, ?_, hoid, rfl⟩
    rw [mem_diff_list_iff key cmp mask zero _ old new le_rfl ho hn]
    refine Or.inl ⟨o, ho', fun n hn' h => hout (List.mem_map.2 ⟨n, hn', h.trans hoid⟩), rfl⟩

theorem exists_added_iff (old new : List α)
    (ho : (old.map key).Pairwise (fun a b => a < b))
    (hn : (new.map key).Pairwise (fun a b => a < b)) (id : Int) :
    (∃ e ∈ diff_list key cmp mask zero (old.length + new.length) old new,
        e.id = id ∧ e.change = .DIFF_ADDED) ↔
      id ∈ new.map key ∧ id ∉ old.map key := by
  constructor
  · rintro ⟨e, he, hid, hch⟩
    rw [mem_diff_list_iff key cmp mask zero _ old new le_rfl ho hn] at he
    rcases he with ⟨o, _, _, rfl⟩ | ⟨n, hn', hon, rfl⟩ | ⟨o, _, n, _, _, _, rfl⟩
    · simp [entry_removed] at hch
    · refine ⟨List.mem_map.2 ⟨n, hn', hid⟩, fun hmem => ?_⟩
      obtain ⟨o, ho', hoid⟩ := List.mem_map.1 hmem
      exact hon o ho' (hoid.trans hid.symm)
    · simp [entry_modified] at hch
  · rintro ⟨hin, hout⟩
    obtain ⟨n, hn', hnid⟩ := List.mem_map.1 hin
    refine ⟨entry_added key zero n, ?_, hnid, rfl⟩
    rw [mem_diff_list_iff key cmp mask zero _ old new le_rfl ho hn]
    refine Or.inr (Or.inl ⟨n, hn', fun o ho' h => hout (List.mem_map.2 ⟨o, ho', h.trans hnid⟩), rfl⟩)

theorem exists_modified_iff (old new : List α)
    (ho : (old.map key).Pairwise (fun a b => a < b))
    (hn : (new.map key).Pairwise (fun a b => a < b)) (id : Int) :
    (∃ e ∈ diff_list key cmp mask zero (old.length + new.length) old new,
        e.id = id ∧ e.change = .DIFF_MODIFIED) ↔
      ∃ o ∈ old, ∃ n ∈ new, key o = id ∧ key n = id ∧ cmp o n ≠ 0 := by
  constructor
  · rintro ⟨e, he, hid, hch⟩
    rw [mem_diff_list_iff key cmp mask zero _ old new le_rfl ho hn] at he
    rcases he with ⟨o, _, _, rfl⟩ | ⟨n, _, _, rfl⟩ | ⟨o, ho', n, hn', hk, hc, rfl⟩
    · simp [entry_removed] at hch
    · simp [entry_added] at hch
    · exact ⟨o, ho', n, hn', hid, hk.symm.trans hid, hc⟩
  · rintro ⟨o, ho', n, hn', hoid, hnid, hc⟩
    refine ⟨entry_modified key mask o n, ?_, hoid, rfl⟩
    rw [mem_diff_list_iff key cmp mask zero _ old new le_rfl ho hn]
    exact Or.inr (Or.inr ⟨o, ho', n, hn', hoid.trans hnid.symm, hc, rfl⟩)

theorem no_entry_iff (old new : List α)
    (ho : (old.map key).Pairwise (fun a b => a < b))
    (hn : (new.map key).Pairwise (fun a b => a < b)) (id : Int) :
    (∀ e ∈ diff_list key cmp mask zero (old.length + new.length) old new, e.id ≠ id) ↔
      (id ∉ old.map key ∧ id ∉ new.map key) ∨
      ∃ o ∈ old, ∃ n ∈ new, key o = id ∧ key n = id ∧ cmp o n = 0 := by
  constructor
  · intro h
    by_cases hio : id ∈ old.map key <;> by_cases hin : id ∈ new.map key
    · obtain ⟨o, ho', hoid⟩ := List.mem_map.1 hio
      obtain ⟨n, hn', hnid⟩ := List.mem_map.1 hin
      refine Or.inr ⟨o, ho', n, hn', hoid, hnid, ?_⟩
      by_contra hc
      obtain ⟨e, he, hid, _⟩ := (exists_modified_iff key cmp mask zero old new ho hn id).2
        ⟨o, ho', n, hn', hoid, hnid, hc⟩
      exact h e he hid
    · obtain ⟨e, he, hid, _⟩ := (exists_removed_iff key cmp mask zero old new ho hn id).2
        ⟨hio, hin⟩
      exact absurd hid (h e he)
    · obtain ⟨e, he, hid, _⟩ := (exists_added_iff key cmp mask zero old new ho hn id).2
        ⟨hin, hio⟩
      exact absurd hid (h e he)
    · exact Or.inl ⟨hio, hin⟩
  · rintro (⟨hio, hin⟩ | ⟨o, ho', n, hn', hoid, hnid, hc⟩) e he hid
    · rcases diff_list_id_mem key cmp mask zero _ old new e he with h | h
      · exact hio (hid ▸ h)
      · exact hin (hid ▸ h)
    · rw [mem_diff_list_iff key cmp mask zero _ old new le_rfl ho hn] at he
      rcases he with ⟨o', _, hno, rfl⟩ | ⟨n', _, hon, rfl⟩ | ⟨o', ho'', n', hn'', hk, hc', rfl⟩
      · exact hno n hn' (hnid.trans hid.symm)
      · exact hon o ho' (hoid.trans hid.symm)
      · have e1 : o' = o := key_inj_of_sorted key old ho o' o ho'' ho' (hid.trans hoid.symm)
        have e2 : n' = n := key_inj_of_sorted key new hn n' n hn'' hn'
          ((hk.symm.trans hid).trans hnid.symm)
        subst e1 e2
        exact hc' hc

theorem diff_list_classifies (old new : List α)
    (ho : (old.map key).Pairwise (fun a b => a < b))
    (hn : (new.map key).Pairwise (fun a b => a < b)) (id : Int) :
    (diff_list key cmp mask zero (old.length + new.length) old new).countP
        (fun e => decide (e.id = id)) ≤ 1 ∧
    ((diff_list key cmp mask zero (old.length + new.length) old new).countP
        (fun e => decide (e.id = id ∧ e.change = .DIFF_REMOVED)) = 1 ↔
      id ∈ old.map key ∧ id ∉ new.map key) ∧
    ((diff_list key cmp mask zero (old.length + new.length) old new).countP
        (fun e => decide (e.id = id ∧ e.change = .DIFF_ADDED)) = 1 ↔
      id ∈ new.map key ∧ id ∉ old.map key) ∧
    ((diff_list key cmp mask zero (old.length + new.length) old new).countP
        (fun e => decide (e.id = id ∧ e.change = .DIFF_MODIFIED)) = 1 ↔
      ∃ o ∈ old, ∃ n ∈ new, key o = id ∧ key n = id ∧ cmp o n ≠ 0) ∧
    ((diff_list key cmp mask zero (old.length + new.length) old new).countP
        (fun e => decide (e.id = id)) = 0 ↔
      (id ∉ old.map key ∧ id ∉ new.map key) ∨
      ∃ o ∈ old, ∃ n ∈ new, key o = id ∧ key n = id ∧ cmp o n = 0) := by
  have h1 := countP_id_le_one (diff_list key cmp mask zero (old.length + new.length) old new) id
    (diff_list_sorted key cmp mask zero _ old new ho hn)
  refine ⟨h1, ?_, ?_, ?_, ?_⟩
  · rw [countP_eq_one_iff _ id _ h1]
    exact exists_removed_iff key cmp mask zero old new ho hn id
  · rw [countP_eq_one_iff _ id _ h1]
    exact exists_added_iff key cmp mask zero old new ho hn id
  · rw [countP_eq_one_iff _ id _ h1]
    exact exists_modified_iff key cmp mask zero old new ho hn id
  · rw [List.countP_eq_zero, ← no_entry_iff key cmp mask zero old new ho hn id]
    simp only [decide_eq_true_eq]

end classify

/-- C4: for fingerprint sets whose arrays are strictly ascending by id, the
surface entries and the cell entries of `ag_diff` are each strictly ascending
by their `id` field: every entry's id is smaller than the id of every later
entry, so no id appears twice. -/
theorem ag_diff_entries_ascending (old new : ag_fingerprint_set_t)
    (ho : id_sorted old) (hn : id_sorted new) :
    ((ag_diff old new).surfaces.map (fun e => e.id)).Pairwise (fun a b => a < b) ∧
    ((ag_diff old new).surfaces.map (fun e => e.id)).Nodup ∧
    ((ag_diff old new).cells.map (fun e => e.id)).Pairwise (fun a b => a < b) ∧
    ((ag_diff old new).cells.map (fun e => e.id)).Nodup := by
  have hs := diff_list_sorted ag_surface_fp_t.surface_id ag_surface_fp_compare
    ag_surface_fp_diff ag_surface_fp_zero (old.surfaces.length + new.surfaces.length)
    old.surfaces new.surfaces (pairwise_of_ascending _ ho.1) (pairwise_of_ascending _ hn.1)
  have hc := diff_list_sorted ag_cell_fp_t.cell_id ag_cell_fp_compare
    ag_cell_fp_diff ag_cell_fp_zero (old.cells.length + new.cells.length)
    old.cells new.cells (pairwise_of_ascending _ ho.2) (pairwise_of_ascending _ hn.2)
  rw [ag_diff_surfaces_eq, ag_diff_cells_eq]
  exact ⟨hs, hs.imp (fun h => ne_of_lt h), hc, hc.imp (fun h => ne_of_lt h)⟩

/-- C1: for fingerprint sets whose surface and cell arrays are strictly
ascending by id, `ag_diff` classifies every id exactly once. For surfaces and
for cells alike, and for every id: at most one entry carries the id; there is
one `DIFF_REMOVED` entry for it iff it occurs in `old` but not in `new`; one
`DIFF_ADDED` entry iff it occurs in `new` but not in `old`; one
`DIFF_MODIFIED` entry iff it occurs in both and the comparator reports the two
fingerprints unequal; and no entry iff it occurs in neither, or in both with
fingerprints that compare equal. -/
theorem ag_diff_classifies (old new : ag_fingerprint_set_t)
    (ho : id_sorted old) (hn : id_sorted new) (id : Int) :
    ((ag_diff old new).surfaces.countP (fun e => decide (e.id = id)) ≤ 1 ∧
     ((ag_diff old new).surfaces.countP
          (fun e => decide (e.id = id ∧ e.change = .DIFF_REMOVED)) = 1 ↔
        id ∈ old.surfaces.map ag_surface_fp_t.surface_id ∧
        id ∉ new.surfaces.map ag_surface_fp_t.surface_id) ∧
     ((ag_diff old new).surfaces.countP
          (fun e => decide (e.id = id ∧ e.change = .DIFF_ADDED)) = 1 ↔
        id ∈ new.surfaces.map ag_surface_fp_t.surface_id ∧
        id ∉ old.surfaces.map ag_surface_fp_t.surface_id) ∧
     ((ag_diff old new).surfaces.countP
          (fun e => decide (e.id = id ∧ e.change = .DIFF_MODIFIED)) = 1 ↔
        ∃ o ∈ old.surfaces, ∃ n ∈ new.surfaces,
          o.surface_id = id ∧ n.surface_id = id ∧ ag_surface_fp_compare o n ≠ 0) ∧
     ((ag_diff old new).surfaces.countP (fun e => decide (e.id = id)) = 0 ↔
        (id ∉ old.surfaces.map ag_surface_fp_t.surface_id ∧
         id ∉ new.surfaces.map ag_surface_fp_t.surface_id) ∨
        ∃ o ∈ old.surfaces, ∃ n ∈ new.surfaces,
          o.surface_id = id ∧ n.surface_id = id ∧ ag_surface_fp_compare o n = 0)) ∧
    ((ag_diff old new).cells.countP (fun e => decide (e.id = id)) ≤ 1 ∧
     ((ag_diff old new).cells.countP
          (fun e => decide (e.id = id ∧ e.change = .DIFF_REMOVED)) = 1 ↔
        id ∈ old.cells.map ag_cell_fp_t.cell_id ∧
        id ∉ new.cells.map ag_cell_fp_t.cell_id) ∧
     ((ag_diff old new).cells.countP
          (fun e => decide (e.id = id ∧ e.change = .DIFF_ADDED)) = 1 ↔
        id ∈ new.cells.map ag_cell_fp_t.cell_id ∧
        id ∉ old.cells.map ag_cell_fp_t.cell_id) ∧
     ((ag_diff old new).cells.countP
          (fun e => decide (e.id = id ∧ e.change = .DIFF_MODIFIED)) = 1 ↔
        ∃ o ∈ old.cells, ∃ n ∈ new.cells,
          o.cell_id = id ∧ n.cell_id = id ∧ ag_cell_fp_compare o n ≠ 0) ∧
     ((ag_diff old new).cells.countP (fun e => decide (e.id = id)) = 0 ↔
        (id ∉ old.cells.map ag_cell_fp_t.cell_id ∧
         id ∉ new.cells.map ag_cell_fp_t.cell_id) ∨
        ∃ o ∈ old.cells, ∃ n ∈ new.cells,
          o.cell_id = id ∧ n.cell_id = id ∧ ag_cell_fp_compare o n = 0)) := by
  rw [ag_diff_surfaces_eq, ag_diff_cells_eq]
  exact ⟨diff_list_classifies ag_surface_fp_t.surface_id ag_surface_fp_compare
      ag_surface_fp_diff ag_surface_fp_zero old.surfaces new.surfaces
      (pairwise_of_ascending _ ho.1) (pairwise_of_ascending _ hn.1) id,
    diff_list_classifies ag_cell_fp_t.cell_id ag_cell_fp_compare
      ag_cell_fp_diff ag_cell_fp_zero old.cells new.cells
      (pairwise_of_ascending _ ho.2) (pairwise_of_ascending _ hn.2) id⟩

section swap

variable {α : Type} (key : α → Int) (cmp : α → α → Int) (mask : α → α → Nat) (zero : α)

theorem swap_entry_removed (o : α) :
    swap_entry (entry_removed key zero o) = entry_added key zero o := rfl

theorem swap_entry_added (n : α) :
    swap_entry (entry_added key zero n) = entry_removed key zero n := rfl

theorem diff_list_swap (fuel : Nat) (old new : List α)
    (hsym : ∀ o ∈ old, ∀ n ∈ new, key o = key n →
      (cmp n o = 0 ↔ cmp o n = 0) ∧ mask n o = mask o n) :
    diff_list key cmp mask zero fuel new old =
      (diff_list key cmp mask zero fuel old new).map swap_entry := by
  induction fuel generalizing old new with
  | zero => simp [diff_list]
  | succ f ih =>
    rcases old with _ | ⟨o, os⟩ <;> rcases new with _ | ⟨n, ns⟩
    · simp [diff_list]
    · simp only [diff_list, List.map_cons, swap_entry_added]
      rw [ih [] ns (by simp)]
    · simp only [diff_list, List.map_cons, swap_entry_removed]
      rw [ih os [] (by simp)]
    · have hs1 : ∀ o' ∈ os, ∀ n' ∈ ns, key o' = key n' →
          (cmp n' o' = 0 ↔ cmp o' n' = 0) ∧ mask n' o' = mask o' n' :=
        fun o' ho' n' hn' => hsym o' (List.mem_cons_of_mem _ ho') n' (List.mem_cons_of_mem _ hn')
      have hs2 : ∀ o' ∈ os, ∀ n' ∈ n :: ns, key o' = key n' →
          (cmp n' o' = 0 ↔ cmp o' n' = 0) ∧ mask n' o' = mask o' n' :=
        fun o' ho' n' hn' => hsym o' (List.mem_cons_of_mem _ ho') n' hn'
      have hs3 : ∀ o' ∈ o :: os, ∀ n' ∈ ns, key o' = key n' →
          (cmp n' o' = 0 ↔ cmp o' n' = 0) ∧ mask n' o' = mask o' n' :=
        fun o' ho' n' hn' => hsym o' ho' n' (List.mem_cons_of_mem _ hn')
      simp only [diff_list]
      by_cases hk : key o = key n
      · obtain ⟨hc, hm⟩ := hsym o (List.mem_cons_self _ _) n (List.mem_cons_self _ _) hk
        by_cases hcz : cmp o n = 0
        · simp [hk, hcz, hc.2 hcz, ih os ns hs1]
        · have hcz' : cmp n o ≠ 0 := fun h => hcz (hc.1 h)
          simp [hk, hcz, hcz', ih os ns hs1, entry_modified, swap_entry, hm]
      · have hk' : ¬ key n = key o := fun h => hk h.symm
        by_cases hlt : key o < key n
        · have hlt' : ¬ key n < key o := not_lt.2 (le_of_lt hlt)
          simp [hk, hk', hlt, hlt', ih os (n :: ns) hs2, swap_entry_removed]
        · have hlt' : key n < key o := lt_of_le_of_ne (not_lt.1 hlt) hk'
          simp [hk, hk', hlt, hlt', ih (o :: os) ns hs3, swap_entry_added]

theorem not_modified_removed (o : α) : not_modified (entry_removed key zero o) = true := rfl

theorem not_modified_added (n : α) : not_modified (entry_added key zero n) = true := rfl

theorem not_modified_modified (o n : α) :
    not_modified (entry_modified key mask o n) = false := rfl

theorem diff_list_swap_unmodified (fuel : Nat) (old new : List α) :
    (diff_list key cmp mask zero fuel new old).filter not_modified =
      ((diff_list key cmp mask zero fuel old new).filter not_modified).map swap_entry := by
  induction fuel generalizing old new with
  | zero => simp [diff_list]
  | succ f ih =>
    rcases old with _ | ⟨o, os⟩ <;> rcases new with _ | ⟨n, ns⟩
    · simp [diff_list]
    · simp [diff_list, List.filter_cons, not_modified_added, not_modified_removed,
        swap_entry_added, ih [] ns]
    · simp [diff_list, List.filter_cons, not_modified_added, not_modified_removed,
        swap_entry_removed, ih os []]
    · simp only [diff_list]
      by_cases hk : key o = key n
      · by_cases hcz : cmp o n = 0 <;> by_cases hcz' : cmp n o = 0 <;>
          simp [hk, hcz, hcz', ih os ns, List.filter_cons, not_modified_modified]
      · have hk' : ¬ key n = key o := fun h => hk h.symm
        by_cases hlt : key o < key n
        · have hlt' : ¬ key n < key o := not_lt.2 (le_of_lt hlt)
          simp [hk, hk', hlt, hlt', ih os (n :: ns), List.filter_cons, not_modified_added,
            not_modified_removed, swap_entry_removed]
        · have hlt' : key n < key o := lt_of_le_of_ne (not_lt.1 hlt) hk'
          simp [hk, hk', hlt, hlt', ih (o :: os) ns, List.filter_cons, not_modified_added,
            not_modified_removed, swap_entry_added]

end swap

theorem ag_surface_fp_compare_symm (a b : ag_surface_fp_t) :
    ag_surface_fp_compare b a = 0 ↔ ag_surface_fp_compare a b = 0 := by
  rw [ag_surface_fp_compare_zero_iff_fields, ag_surface_fp_compare_zero_iff_fields]
  constructor <;> rintro ⟨h, h', h''⟩ <;> exact ⟨h.symm, h'.symm, h''.symm⟩

theorem ag_surface_fp_diff_symm (a b : ag_surface_fp_t) :
    ag_surface_fp_diff b a = ag_surface_fp_diff a b := by
  simp only [ag_surface_fp_diff, ne_comm]

theorem ag_cell_fp_compare_symm (a b : ag_cell_fp_t)
    (h : density_changed b.density a.density = density_changed a.density b.density) :
    ag_cell_fp_compare b a = 0 ↔ ag_cell_fp_compare a b = 0 := by
  simp only [ag_cell_fp_compare, h, @ne_comm _ b.material_id, @ne_comm _ b.universe_id,
    @ne_comm _ b.fill_universe, @ne_comm _ b.lat_type, @ne_comm _ b.tree_hash,
    @ne_comm _ b.lattice_hash]

theorem ag_cell_fp_diff_symm (a b : ag_cell_fp_t)
    (h : density_changed b.density a.density = density_changed a.density b.density) :
    ag_cell_fp_diff b a = ag_cell_fp_diff a b := by
  simp only [ag_cell_fp_diff, h, @ne_comm _ b.material_id, @ne_comm _ b.universe_id,
    @ne_comm _ b.fill_universe, @ne_comm _ b.tree_hash,
    @ne_comm _ b.lattice_hash]

/-- Witness of `ag_diff_entries_ascending` on `sample_old`, `sample_new`. -/
theorem ag_diff_entries_ascending_witness :
    ((ag_diff sample_old sample_new).surfaces.map (fun e => e.id)).Pairwise
      (fun a b => a < b) ∧
    ((ag_diff sample_old sample_new).surfaces.map (fun e => e.id)).Nodup ∧
    ((ag_diff sample_old sample_new).cells.map (fun e => e.id)).Pairwise
      (fun a b => a < b) ∧
    ((ag_diff sample_old sample_new).cells.map (fun e => e.id)).Nodup :=
  ag_diff_entries_ascending sample_old sample_new (by decide) (by decide)

/-- Witness of `ag_diff_classifies` on `sample_old`, `sample_new` and id 7. -/
theorem ag_diff_classifies_witness :
    id_sorted sample_old ∧ id_sorted sample_new ∧
    (ag_diff sample_old sample_new).cells.countP (fun e => decide (e.id = 7)) ≤ 1 ∧
    ((ag_diff sample_old sample_new).cells.countP
        (fun e => decide (e.id = 7 ∧ e.change = .DIFF_MODIFIED)) = 1 ↔
      ∃ o ∈ sample_old.cells, ∃ n ∈ sample_new.cells,
        o.cell_id = 7 ∧ n.cell_id = 7 ∧ ag_cell_fp_compare o n ≠ 0) :=
  ⟨by decide, by decide,
    (ag_diff_classifies sample_old sample_new (by decide) (by decide) 7).2.1,
    (ag_diff_classifies sample_old sample_new (by decide) (by decide) 7).2.2.2.2.1⟩

/-- C3 (as amended): for every pair of fingerprint sets `a`, `b`, the surface
entries of `ag_diff b a` are the surface entries of `ag_diff a b`, in the same
order, with `DIFF_ADDED` and `DIFF_REMOVED` exchanged and `old_fp`, `new_fp`
swapped, `DIFF_MODIFIED` entries keeping id and mask; the cell entries other
than `DIFF_MODIFIED` correspond in the same way; and all cell entries do,
`DIFF_MODIFIED` ones with identical mask, when the density test gives the same
verdict in both directions on every pair of cells with the same id. -/
theorem ag_diff_swap (a b : ag_fingerprint_set_t) :
    (ag_diff b a).surfaces = (ag_diff a b).surfaces.map swap_entry ∧
    (ag_diff b a).cells.filter not_modified =
      ((ag_diff a b).cells.filter not_modified).map swap_entry ∧
    ((∀ o ∈ a.cells, ∀ n ∈ b.cells, o.cell_id = n.cell_id →
        density_changed n.density o.density = density_changed o.density n.density) →
      (ag_diff b a).cells = (ag_diff a b).cells.map swap_entry) := by
  simp only [ag_diff_surfaces_eq, ag_diff_cells_eq]
  rw [Nat.add_comm b.surfaces.length, Nat.add_comm b.cells.length]
  refine ⟨?_, ?_, fun h => ?_⟩
  · exact diff_list_swap _ _ _ _ _ _ _
      (fun o _ n _ _ => ⟨ag_surface_fp_compare_symm o n, ag_surface_fp_diff_symm o n⟩)
  · exact diff_list_swap_unmodified _ _ _ _ _ _ _
  · exact diff_list_swap _ _ _ _ _ _ _
      (fun o ho n hn hk =>
        ⟨ag_cell_fp_compare_symm o n (h o ho n hn hk), ag_cell_fp_diff_symm o n (h o ho n hn hk)⟩)

/-- Witness of `ag_diff_swap` on `sample_old`, `sample_new`, whose only
common cell id is 7, with densities 1 and 1.1. -/
theorem ag_diff_swap_witness :
    (ag_diff sample_new sample_old).cells =
      (ag_diff sample_old sample_new).cells.map swap_entry :=
  (ag_diff_swap sample_old sample_new).2.2 (by decide!)

/-- C3 fails as stated: cell 1 has density `10^6` in `a` and `10^6 + 1.0000005`
in `b`. The difference exceeds `10^-6 * 10^6 = 1` but not
`10^-6 * (10^6 + 1.0000005)`, so `ag_diff a b` reports the cell `DIFF_MODIFIED`
and `ag_diff b a` reports nothing. -/
theorem ag_diff_swap_counterexample :
    id_sorted { cells := [dense_cell_a], surfaces := [] } ∧
    id_sorted { cells := [dense_cell_b], surfaces := [] } ∧
    (ag_diff { cells := [dense_cell_a], surfaces := [] }
        { cells := [dense_cell_b], surfaces := [] }).cells =
      [{ change := .DIFF_MODIFIED, id := 1, flags := CELL_CHG_DENSITY,
         old_fp := dense_cell_a, new_fp := dense_cell_b }] ∧
    (ag_diff { cells := [dense_cell_b], surfaces := [] }
        { cells := [dense_cell_a], surfaces := [] }).cells = [] := by
  refine ⟨by decide, by decide, by decide!, by decide!⟩

theorem ag_surface_fp_diff_ne_zero_iff (a b : ag_surface_fp_t) :
    ag_surface_fp_diff a b ≠ 0 ↔ ag_surface_fp_compare a b ≠ 0 := by
  unfold ag_surface_fp_diff ag_surface_fp_compare
  split_ifs <;> simp [SURF_CHG_TYPE, SURF_CHG_DATA, SURF_CHG_BOUNDARY]

theorem ag_cell_fp_diff_eq_zero_iff (a b : ag_cell_fp_t) :
    ag_cell_fp_diff a b = 0 ↔
      ag_cell_fp_compare { a with lat_type := b.lat_type } b = 0 := by
  unfold ag_cell_fp_diff ag_cell_fp_compare
  split_ifs <;> simp_all [CELL_CHG_MATERIAL, CELL_CHG_DENSITY, CELL_CHG_REGION,
    CELL_CHG_UNIVERSE, CELL_CHG_FILL, CELL_CHG_LATTICE]

/-- C8 as stated fails for a pair of cell fingerprints written down field by
field: `lat_cell_old` and `lat_cell_new` differ in `lat_type` only, with the
same `lattice_hash`. `ag_cell_fp_compare` reports them unequal,
`ag_cell_fp_diff` returns the empty mask, and `ag_diff` emits a
`DIFF_MODIFIED` entry whose `flags` is 0. -/
theorem ag_cell_fp_diff_misses_lat_type :
    ag_cell_fp_compare lat_cell_old lat_cell_new = 1 ∧
    ag_cell_fp_diff lat_cell_old lat_cell_new = 0 ∧
    ag_diff { cells := [lat_cell_old], surfaces := [] }
        { cells := [lat_cell_new], surfaces := [] } =
      { cells := [{ change := .DIFF_MODIFIED, id := 7, flags := 0,
                    old_fp := lat_cell_old, new_fp := lat_cell_new }],
        cell_count := 1, surfaces := [], surface_count := 0,
        cells_added := 0, cells_removed := 0, cells_modified := 1,
        surfs_added := 0, surfs_removed := 0, surfs_modified := 0 } := by
  refine ⟨by decide!, by decide!, by decide!⟩

theorem wrap_int32_of_bounded (x : Int) (h1 : -2147483648 ≤ x) (h2 : x < 2147483648) :
    wrap_int32 x = x := by
  unfold wrap_int32
  omega

section sort

variable {α : Type} (key : α → Int)

theorem qsort_eq_sort_by_key (l : List α) (hb : diffs_fit_int32 key l) :
    qsort (fun a b => wrap_int32 (key a - key b)) l =
      l.insertionSort (fun a b => key a ≤ key b) := by
  have h := List.map_insertionSort (fun a b => wrap_int32 (key a - key b) ≤ 0)
    (fun a b => key a ≤ key b) (fun x : α => x) l
    (fun a ha b hb' => by
      show wrap_int32 (key a - key b) ≤ 0 ↔ key a ≤ key b
      rw [wrap_int32_of_bounded _ (hb a ha b hb').1 (hb a ha b hb').2]
      omega)
  simpa [qsort] using h

theorem sort_by_key_ascending (l : List α) (hnd : (l.map key).Nodup) :
    (l.insertionSort (fun a b => key a ≤ key b)).Pairwise (fun a b => key a < key b) := by
  haveI : IsTotal α (fun a b => key a ≤ key b) := ⟨fun a b => le_total (key a) (key b)⟩
  haveI : IsTrans α (fun a b => key a ≤ key b) := ⟨fun a b c h1 h2 => le_trans h1 h2⟩
  have hs : (l.insertionSort (fun a b => key a ≤ key b)).Pairwise (fun a b => key a ≤ key b) :=
    List.sorted_insertionSort (fun a b => key a ≤ key b) l
  have hn : ((l.insertionSort (fun a b => key a ≤ key b)).map key).Nodup :=
    ((List.perm_insertionSort _ l).map key).nodup_iff.2 hnd
  have hn' : (l.insertionSort (fun a b => key a ≤ key b)).Pairwise
      (fun a b => key a ≠ key b) := by
    simpa [List.Nodup, List.pairwise_map] using hn
  exact (hs.and hn').imp (fun h => lt_of_le_of_ne h.1 h.2)

theorem qsort_ascending (l : List α) (hb : diffs_fit_int32 key l)
    (hnd : (l.map key).Nodup) :
    ((qsort (fun a b => wrap_int32 (key a - key b)) l).map key).Pairwise
      (fun a b => a < b) := by
  rw [qsort_eq_sort_by_key key l hb, List.pairwise_map]
  exact sort_by_key_ascending key l hnd

theorem qsort_perm_invariant (l l' : List α) (hp : l'.Perm l) (hb : diffs_fit_int32 key l)
    (hnd : (l.map key).Nodup) :
    qsort (fun a b => wrap_int32 (key a - key b)) l' =
      qsort (fun a b => wrap_int32 (key a - key b)) l := by
  have hb' : diffs_fit_int32 key l' :=
    fun a ha b hb'' => hb a (hp.mem_iff.1 ha) b (hp.mem_iff.1 hb'')
  have hnd' : (l'.map key).Nodup := (hp.map key).nodup_iff.2 hnd
  rw [qsort_eq_sort_by_key key l hb, qsort_eq_sort_by_key key l' hb']
  haveI : IsAntisymm α (fun a b => key a < key b) :=
    ⟨fun a b h1 h2 => absurd h1 (not_lt.2 (le_of_lt h2))⟩
  exact List.eq_of_perm_of_sorted
    (((List.perm_insertionSort _ l').trans hp).trans (List.perm_insertionSort _ l).symm)
    (sort_by_key_ascending key l' hnd') (sort_by_key_ascending key l hnd)

end sort

theorem fingerprint_cells_perm (sys : alea_system_t) (fuel : Nat)
    (l l' : List (Option alea_cell_info_t)) (hp : l'.Perm l) (cs : List ag_cell_fp_t)
    (h : fingerprint_cells sys fuel l = some cs) :
    ∃ cs', fingerprint_cells sys fuel l' = some cs' ∧ cs'.Perm cs := by
  induction hp generalizing cs with
  | nil => exact ⟨cs, h, List.Perm.refl _⟩
  | @cons x l₁ l₂ _ ih =>
    simp only [fingerprint_cells] at h ⊢
    cases hx : cell_fingerprint sys fuel x with
    | none => simp [hx] at h
    | some f =>
      cases hl : fingerprint_cells sys fuel l₂ with
      | none => simp [hx, hl] at h
      | some fs =>
        obtain ⟨fs', h1, h2⟩ := ih fs hl
        simp only [hx, hl, Option.some.injEq] at h
        subst h
        exact ⟨f :: fs', by simp [h1], h2.cons f⟩
  | @swap x y l₁ =>
    simp only [fingerprint_cells] at h ⊢
    cases hx : cell_fingerprint sys fuel x with
    | none => cases hy : cell_fingerprint sys fuel y <;> simp [hx, hy] at h
    | some f =>
      cases hy : cell_fingerprint sys fuel y with
      | none => simp [hx, hy] at h
      | some g =>
        cases hl : fingerprint_cells sys fuel l₁ with
        | none => simp [hx, hy, hl] at h
        | some fs =>
          simp only [hx, hy, hl, Option.some.injEq] at h
          subst h
          exact ⟨g :: f :: fs, by simp, List.Perm.swap _ _ _⟩
  | @trans l₁ l₂ l₃ _ _ ih₁ ih₂ =>
    obtain ⟨cs₂, h2, p2⟩ := ih₂ cs h
    obtain ⟨cs₁, h1, p1⟩ := ih₁ cs₂ h2
    exact ⟨cs₁, h1, p1.trans p2⟩

/-- When the fingerprints of all slots have pairwise distinct ids whose
differences fit a C `int`, `ag_fingerprint` returns a set that is strictly
ascending by id. -/
theorem ag_fingerprint_id_sorted_of_fit (fuel : Nat) (sys : alea_system_t)
    (cells : List ag_cell_fp_t)
    (hc : fingerprint_cells sys fuel sys.cells = some cells)
    (hcb : diffs_fit_int32 ag_cell_fp_t.cell_id cells)
    (hcn : (cells.map ag_cell_fp_t.cell_id).Nodup)
    (hsb : diffs_fit_int32 ag_surface_fp_t.surface_id
      (sys.surfaces.map (surface_fingerprint sys)))
    (hsn : ((sys.surfaces.map (surface_fingerprint sys)).map
      ag_surface_fp_t.surface_id).Nodup) :
    ∃ fp, ag_fingerprint fuel sys = some fp ∧
      (fp.cells.map ag_cell_fp_t.cell_id).Pairwise (fun a b => a < b) ∧
      (fp.surfaces.map ag_surface_fp_t.surface_id).Pairwise (fun a b => a < b) := by
  have hfp : ag_fingerprint fuel sys =
      some { cells := qsort cmp_cell_fp cells,
             surfaces := qsort cmp_surface_fp (sys.surfaces.map (surface_fingerprint sys)) } := by
    simp only [ag_fingerprint, hc]
  exact ⟨_, hfp, qsort_ascending ag_cell_fp_t.cell_id cells hcb hcn,
    qsort_ascending ag_surface_fp_t.surface_id _ hsb hsn⟩

theorem hash_tree_congr (sys sys' : alea_system_t) (h : sys'.node = sys.node)
    (fuel node : Nat) : hash_tree sys' fuel node = hash_tree sys fuel node := by
  induction fuel generalizing node with
  | zero => simp only [hash_tree]
  | succ f ih => simp only [hash_tree, h, ih]

theorem fingerprint_cells_congr (sys sys' : alea_system_t) (h : sys'.node = sys.node)
    (fuel : Nat) (l : List (Option alea_cell_info_t)) :
    fingerprint_cells sys' fuel l = fingerprint_cells sys fuel l := by
  induction l with
  | nil => rfl
  | cons c cs ih =>
    cases c with
    | none => simp only [fingerprint_cells, cell_fingerprint, ih]
    | some info =>
      simp only [fingerprint_cells, cell_fingerprint, ih, hash_tree_congr sys sys' h]

/-- Under the same condition, reordering the cell slots and the surface slots
of the geometry does not change the set `ag_fingerprint` returns. -/
theorem ag_fingerprint_perm_of_fit (fuel : Nat) (sys : alea_system_t)
    (cells' : List (Option alea_cell_info_t)) (surfaces' : List alea_surface_t)
    (cells : List ag_cell_fp_t)
    (hpc : cells'.Perm sys.cells) (hps : surfaces'.Perm sys.surfaces)
    (hc : fingerprint_cells sys fuel sys.cells = some cells)
    (hcb : diffs_fit_int32 ag_cell_fp_t.cell_id cells)
    (hcn : (cells.map ag_cell_fp_t.cell_id).Nodup)
    (hsb : diffs_fit_int32 ag_surface_fp_t.surface_id
      (sys.surfaces.map (surface_fingerprint sys)))
    (hsn : ((sys.surfaces.map (surface_fingerprint sys)).map
      ag_surface_fp_t.surface_id).Nodup) :
    ag_fingerprint fuel { sys with cells := cells', surfaces := surfaces' } =
      ag_fingerprint fuel sys := by
  obtain ⟨cs', h1, h2⟩ := fingerprint_cells_perm sys fuel sys.cells cells' hpc cells hc
  have h1' : fingerprint_cells { sys with cells := cells', surfaces := surfaces' } fuel cells' =
      some cs' := by
    rw [fingerprint_cells_congr sys { sys with cells := cells', surfaces := surfaces' } rfl]
    exact h1
  have hsf : surface_fingerprint { sys with cells := cells', surfaces := surfaces' } =
      surface_fingerprint sys := rfl
  simp only [ag_fingerprint, h1', hc, hsf]
  rw [show cmp_cell_fp = (fun a b => wrap_int32 (a.cell_id - b.cell_id)) from rfl,
    show cmp_surface_fp = (fun a b => wrap_int32 (a.surface_id - b.surface_id)) from rfl,
    qsort_perm_invariant ag_cell_fp_t.cell_id cells cs' h2 hcb hcn,
    qsort_perm_invariant ag_surface_fp_t.surface_id _ _ (hps.map (surface_fingerprint sys))
      hsb hsn]

/-- Whatever sorting algorithm `qsort` uses: two cell fingerprints with ids
2147483647 and -2 have exactly one arrangement in which `cmp_cell_fp` reports
every neighbour pair as ordered, and it puts 2147483647 first. -/
theorem cmp_cell_fp_forces_descending (a b : ag_cell_fp_t)
    (ha : a.cell_id = 2147483647) (hb : b.cell_id = -2) (l : List ag_cell_fp_t)
    (hp : l.Perm [a, b]) (hc : l.Chain' (fun x y => cmp_cell_fp x y ≤ 0)) :
    l = [a, b] := by
  have hab : a ≠ b := fun h => by rw [h, hb] at ha; omega
  have hl : l.length = 2 := hp.length_eq
  obtain ⟨x, y, rfl⟩ := List.length_eq_two.1 hl
  have hx : x = a ∨ x = b := by simpa using hp.mem_iff.1 (List.mem_cons_self _ _)
  have hy : y = a ∨ y = b := by
    simpa using hp.mem_iff.1 (List.mem_cons_of_mem _ (List.mem_cons_self _ _))
  have hnd : [x, y].Nodup := hp.nodup_iff.2 (by simp [hab])
  have hxy : x ≠ y := by simpa using hnd
  have hcmp : cmp_cell_fp x y ≤ 0 := by simpa using hc
  rcases hx with rfl | rfl <;> rcases hy with rfl | rfl
  · exact absurd rfl hxy
  · rfl
  · exfalso
    simp only [cmp_cell_fp, ha, hb, wrap_int32] at hcmp
    omega
  · exact absurd rfl hxy

/-- C9 at the failing input: two cells with ids 2147483647 and -2. The 32-bit
difference `2147483647 - (-2)` wraps to a negative number, so `cmp_cell_fp`
orders 2147483647 before -2 and the set `ag_fingerprint` returns is not
ascending. -/
theorem ag_fingerprint_not_ascending :
    cmp_cell_fp { ag_cell_fp_zero with cell_id := 2147483647 }
        { ag_cell_fp_zero with cell_id := -2 } = -2147483647 ∧
    cmp_cell_fp { ag_cell_fp_zero with cell_id := -2 }
        { ag_cell_fp_zero with cell_id := 2147483647 } = 2147483647 ∧
    (ag_fingerprint 1 (sys_of_cells [2147483647, -2])).map
        (fun s => s.cells.map ag_cell_fp_t.cell_id) = some [2147483647, -2] ∧
    (ag_fingerprint 1 (sys_of_cells [-2, 2147483647])).map
        (fun s => s.cells.map ag_cell_fp_t.cell_id) = some [2147483647, -2] ∧
    ¬ strictly_ascending [2147483647, -2] := by
  refine ⟨by decide, by decide, by decide!, by decide!, by decide⟩

/-- C10 at the failing input: two cells with ids 2147483647 and -1. Both
`2147483647 - (-1)` and `-1 - 2147483647` come out as `-2147483648` in 32-bit
arithmetic, so `cmp_cell_fp` calls either slot order sorted and the two slot
orders give different fingerprint sets. -/
theorem ag_fingerprint_slot_order_dependent :
    cmp_cell_fp { ag_cell_fp_zero with cell_id := 2147483647 }
        { ag_cell_fp_zero with cell_id := -1 } = -2147483648 ∧
    cmp_cell_fp { ag_cell_fp_zero with cell_id := -1 }
        { ag_cell_fp_zero with cell_id := 2147483647 } = -2147483648 ∧
    (ag_fingerprint 1 (sys_of_cells [2147483647, -1])).map
        (fun s => s.cells.map ag_cell_fp_t.cell_id) = some [2147483647, -1] ∧
    (ag_fingerprint 1 (sys_of_cells [-1, 2147483647])).map
        (fun s => s.cells.map ag_cell_fp_t.cell_id) = some [-1, 2147483647] ∧
    ag_fingerprint 1 (sys_of_cells [2147483647, -1]) ≠
      ag_fingerprint 1 (sys_of_cells [-1, 2147483647]) := by
  refine ⟨by decide, by decide, by decide!, by decide!, by decide!⟩

/-! ### FNV-1a and the tree hash -/

theorem fnv_feed_nil (h : Nat) : fnv_feed h [] = h := rfl

theorem fnv_feed_cons (h b : Nat) (d : List Nat) :
    fnv_feed h (b :: d) = fnv_feed (((h ^^^ b) * FNV_PRIME) % 18446744073709551616) d := rfl

theorem fnv_feed_append (h : Nat) (d e : List Nat) :
    fnv_feed h (d ++ e) = fnv_feed (fnv_feed h d) e := by
  simp [fnv_feed, List.foldl_append]

theorem fnv_feed_lt (h : Nat) (d : List Nat) (hd : d ≠ []) :
    fnv_feed h d < 18446744073709551616 := by
  induction d using List.reverseRecOn with
  | nil => exact absurd rfl hd
  | append_singleton d b _ =>
    rw [fnv_feed_append]
    simp only [fnv_feed, List.foldl_cons, List.foldl_nil]
    exact Nat.mod_lt _ (by norm_num)

theorem bytes_of_u64_eq (x : Nat) :
    bytes_of_u64 x =
      [x % 256, x / 256 % 256, x / 65536 % 256, x / 16777216 % 256,
       x / 4294967296 % 256, x / 1099511627776 % 256, x / 281474976710656 % 256,
       x / 72057594037927936 % 256] := by
  simp [bytes_of_u64, List.range, List.range.loop, Nat.shiftRight_eq_div_pow]

theorem hash_tree_of_shape (sys : alea_system_t) (t : csg_shape) :
    ∀ (node fuel : Nat), has_shape sys t node = true → t.depth ≤ fuel →
      hash_tree sys fuel node = some (hash_shape t) := by
  induction t with
  | empty =>
    intro node fuel h _
    simp only [has_shape, beq_iff_eq] at h
    cases fuel <;> simp [hash_tree, h, hash_shape]
  | leaf sid sense =>
    intro node fuel h hf
    simp only [has_shape, Bool.and_eq_true, bne_iff_ne, ne_eq, beq_iff_eq] at h
    cases fuel with
    | zero => simp [csg_shape.depth] at hf
    | succ f => simp [hash_tree, h.1, h.2, hash_shape]
  | op tag l r ihl ihr =>
    intro node fuel h hf
    simp only [has_shape, Bool.and_eq_true, bne_iff_ne, ne_eq] at h
    cases fuel with
    | zero => simp [csg_shape.depth] at hf
    | succ f =>
      simp only [csg_shape.depth, Nat.add_le_add_iff_right, max_le_iff] at hf
      cases hn : sys.node node with
      | primitive a b => simp [hn] at h
      | operation tag' ln rn =>
        simp only [hn, Bool.and_eq_true, beq_iff_eq] at h
        obtain ⟨hne, ⟨htag, hl⟩, hr⟩ := h
        simp [hash_tree, hne, hn, ihl ln f hl hf.1, ihr rn f hr hf.2, hash_shape, htag]

theorem hash_shape_lt (t : csg_shape) : hash_shape t < 18446744073709551616 := by
  cases t with
  | empty => simp [hash_shape, fnv_init, FNV_OFFSET]
  | leaf sid sense =>
    simp only [hash_shape, fnv_int]
    exact fnv_feed_lt _ _ (by simp [bytes_of_u64_eq])
  | op tag l r =>
    simp only [hash_shape]
    exact fnv_feed_lt _ _ (by simp [bytes_of_u64_eq])

/-! ### Discretisation, lattice hash and overlay colours -/

theorem c_round_eq_of_near (x : ℚ) (k : Int) (h : |x - k| < 1 / 2) : c_round x = k := by
  rw [abs_lt] at h
  obtain ⟨h1, h2⟩ := h
  unfold c_round
  split_ifs with hx
  · rw [Int.floor_eq_iff]
    constructor <;> linarith
  · rw [neg_eq_iff_eq_neg, Int.floor_eq_iff]
    push_cast
    constructor <;> linarith

theorem pow2_eq_zpow (e : Int) : pow2 e = (2 : ℚ) ^ e := by
  unfold pow2
  split_ifs with h
  · obtain ⟨n, rfl⟩ := Int.eq_ofNat_of_zero_le h
    simp
  · obtain ⟨n, hn⟩ : ∃ n : Nat, -e = n := ⟨(-e).toNat, by omega⟩
    have he : e = -(n : Int) := by omega
    rw [hn, he]
    simp [zpow_neg]

theorem pow2_pos (e : Int) : 0 < pow2 e := by
  rw [pow2_eq_zpow]
  positivity

theorem pow2_succ (e : Int) : pow2 (e + 1) = pow2 e * 2 := by
  rw [pow2_eq_zpow, pow2_eq_zpow, zpow_add_one₀ (by norm_num)]

theorem pow2_pred (e : Int) : pow2 (e - 1) = pow2 e / 2 := by
  rw [pow2_eq_zpow, pow2_eq_zpow, zpow_sub_one₀ (by norm_num)]
  rfl

theorem pow2_zero : pow2 0 = 1 := by
  rw [pow2_eq_zpow, zpow_zero]

theorem log2_up_le (fuel : Nat) (y : ℚ) (hy : 1 ≤ y) : pow2 (log2_up fuel y) ≤ y := by
  induction fuel generalizing y with
  | zero => simpa [log2_up, pow2_zero] using hy
  | succ f ih =>
    unfold log2_up
    split_ifs with h
    · simpa [pow2_zero] using hy
    · have h2 : 1 ≤ y / 2 := by rw [le_div_iff₀ (by norm_num)]; linarith
      have := ih (y / 2) h2
      rw [pow2_succ]
      linarith

theorem log2_down_le (fuel : Nat) (y : ℚ) (hy : 0 < y) :
    pow2 (log2_down fuel y) ≤ y ∨ log2_down fuel y = -(fuel : Int) := by
  induction fuel generalizing y with
  | zero => right; simp [log2_down]
  | succ f ih =>
    unfold log2_down
    split_ifs with h
    · left; simpa [pow2_zero] using h
    · rcases ih (y * 2) (by linarith) with h1 | h1
      · left
        rw [pow2_pred]
        linarith
      · right
        rw [h1]
        push_cast
        ring

theorem binade_le (x : ℚ) (hx : x ≠ 0) (hb : -1022 ≤ binade x) : pow2 (binade x) ≤ |x| := by
  unfold binade at hb ⊢
  split_ifs with h
  · exact log2_up_le _ _ h
  · rw [if_neg h] at hb
    rcases log2_down_le 1100 |x| (abs_pos.2 hx) with h1 | h1
    · exact h1
    · rw [h1] at hb
      norm_num at hb

theorem round_half_even_err (x : ℚ) : |(round_half_even x : ℚ) - x| ≤ 1 / 2 := by
  have h1 := Int.floor_le x
  have h2 := Int.lt_floor_add_one x
  unfold round_half_even
  rw [abs_le]
  dsimp only
  split_ifs <;> push_cast <;> constructor <;> linarith

theorem round_to_double_err (x : ℚ) :
    |round_to_double x - x| ≤ |x| / 2 ^ 53 + 1 / 2 ^ 1075 := by
  unfold round_to_double
  split_ifs with hx
  · rw [hx]; norm_num
  · dsimp only
    have hq := pow2_pos (max (binade x) (-1022) - 52)
    have herr := round_half_even_err (x / pow2 (max (binade x) (-1022) - 52))
    have h1 : |(round_half_even (x / pow2 (max (binade x) (-1022) - 52)) : ℚ) *
        pow2 (max (binade x) (-1022) - 52) - x| ≤ pow2 (max (binade x) (-1022) - 52) / 2 := by
      have e : (round_half_even (x / pow2 (max (binade x) (-1022) - 52)) : ℚ) *
          pow2 (max (binade x) (-1022) - 52) - x =
          ((round_half_even (x / pow2 (max (binade x) (-1022) - 52)) : ℚ) -
            x / pow2 (max (binade x) (-1022) - 52)) * pow2 (max (binade x) (-1022) - 52) := by
        field_simp
      rw [e, abs_mul, abs_of_pos hq]
      calc _ ≤ 1 / 2 * pow2 (max (binade x) (-1022) - 52) :=
            mul_le_mul_of_nonneg_right herr hq.le
        _ = _ := by ring
    refine h1.trans ?_
    have hsplit : pow2 (max (binade x) (-1022) - 52) / 2 =
        pow2 (max (binade x) (-1022)) / 2 ^ 53 := by
      rw [pow2_eq_zpow, pow2_eq_zpow, zpow_sub₀ (by norm_num)]
      norm_num
      ring
    rw [hsplit]
    by_cases hb : -1022 ≤ binade x
    · rw [max_eq_left hb]
      have := binade_le x hx hb
      have h53 : (0 : ℚ) < 2 ^ 53 := by positivity
      have : pow2 (binade x) / 2 ^ 53 ≤ |x| / 2 ^ 53 := div_le_div_of_nonneg_right this h53.le
      have : (0 : ℚ) ≤ 1 / 2 ^ 1075 := by positivity
      linarith
    · rw [max_eq_right (by omega)]
      have e : pow2 (-1022) / 2 ^ 53 = 1 / 2 ^ 1075 := by
        have e1 : pow2 (-1022) = 1 / 2 ^ 1022 := by
          rw [pow2_eq_zpow, zpow_neg, one_div, zpow_ofNat]
        rw [e1, div_div, ← pow_add]
      rw [e]
      have : (0 : ℚ) ≤ |x| / 2 ^ 53 := by positivity
      linarith

theorem c_round_double_near (p : ℚ) (k : Int)
    (h : |p - k| ≤ 1 / 2 - (|(k : ℚ)| + 1) / 2 ^ 53) : c_round (round_to_double p) = k := by
  apply c_round_eq_of_near
  have herr := round_to_double_err p
  have hp : |p| ≤ |(k : ℚ)| + |p - k| := by
    have := abs_add (k : ℚ) (p - k)
    simpa using this
  have h53 : (0 : ℚ) < 2 ^ 53 := by positivity
  have hk0 : (0 : ℚ) ≤ |(k : ℚ)| := abs_nonneg _
  have hpk0 : 0 ≤ |p - k| := abs_nonneg _
  have hp2 : |p| ≤ |(k : ℚ)| + 1 / 2 := by
    have : (0 : ℚ) ≤ (|(k : ℚ)| + 1) / 2 ^ 53 := by positivity
    linarith
  have h3 : |p| / 2 ^ 53 ≤ (|(k : ℚ)| + 1 / 2) / 2 ^ 53 := div_le_div_of_nonneg_right hp2 h53.le
  have h4 : (1 : ℚ) / 2 ^ 1075 < (1 / 2) / 2 ^ 53 := by norm_num
  have h5 : (|(k : ℚ)| + 1) / 2 ^ 53 = (|(k : ℚ)| + 1 / 2) / 2 ^ 53 + (1 / 2) / 2 ^ 53 := by ring
  calc |round_to_double p - k| = |(round_to_double p - p) + (p - k)| := by ring_nf
    _ ≤ |round_to_double p - p| + |p - k| := abs_add _ _
    _ < 1 / 2 := by linarith

theorem finRange_six : List.finRange 6 = [0, 1, 2, 3, 4, 5] := by decide
theorem finRange_three : List.finRange 3 = [0, 1, 2] := by decide

theorem feed_inputs_append (h : Nat) (a b : List hash_input) :
    feed_inputs h (a ++ b) = feed_inputs (feed_inputs h a) b := by
  simp [feed_inputs, List.foldl_append]

theorem feed_inputs_ints (h : Nat) (l : List Int) :
    feed_inputs h (l.map .int) = l.foldl fnv_int h := by
  induction l generalizing h with
  | nil => rfl
  | cons a l ih => simpa [feed_inputs] using ih (fnv_int h a)

theorem hash_lattice_eq (info : alea_cell_info_t) :
    hash_lattice info =
      if info.lat_type = 0 then fnv_int fnv_init 0
      else feed_inputs fnv_init (lattice_inputs info) := by
  unfold hash_lattice
  split_ifs with h
  · simp [h]
  · simp only [lattice_inputs, feed_inputs_append, feed_inputs_ints, finRange_six,
      finRange_three]
    simp [feed_inputs]

theorem diff_overlay_pixel_eq (co cn mo mn : Int) :
    diff_overlay_pixel co cn mo mn = overlay_colour_stated co cn mo mn := by
  unfold diff_overlay_pixel overlay_colour_stated
  simp only [COL_DIFF_ADDED, COL_DIFF_REMOVED, COL_DIFF_MATERIAL, COL_DIFF_STRUCTURE]
  split_ifs <;> first | rfl | (exfalso; omega)

theorem compute_diff_overlay_at (cells_old cells_new mats_old mats_new : List Int) (i : Nat)
    (co cn mo mn : Int)
    (h1 : cells_old[i]? = some co) (h2 : cells_new[i]? = some cn)
    (h3 : mats_old[i]? = some mo) (h4 : mats_new[i]? = some mn) :
    ((compute_diff_overlay cells_old cells_new mats_old mats_new).drop (3 * i)).take 3 =
      [(diff_overlay_pixel co cn mo mn).r, (diff_overlay_pixel co cn mo mn).g,
       (diff_overlay_pixel co cn mo mn).b] := by
  induction i generalizing cells_old cells_new mats_old mats_new with
  | zero =>
    rcases cells_old with _ | ⟨a, as⟩ <;> rcases cells_new with _ | ⟨b, bs⟩ <;>
      rcases mats_old with _ | ⟨c, cs⟩ <;> rcases mats_new with _ | ⟨d, ds⟩ <;>
      simp at h1 h2 h3 h4
    subst h1 h2 h3 h4
    simp [compute_diff_overlay]
  | succ j ih =>
    rcases cells_old with _ | ⟨a, as⟩ <;> rcases cells_new with _ | ⟨b, bs⟩ <;>
      rcases mats_old with _ | ⟨c, cs⟩ <;> rcases mats_new with _ | ⟨d, ds⟩ <;>
      simp at h1 h2 h3 h4
    have := ih as bs cs ds h1 h2 h3 h4
    simpa [compute_diff_overlay, Nat.mul_succ] using this

theorem compute_diff_overlay_length (cells_old cells_new mats_old mats_new : List Int)
    (npix : Nat) (h1 : cells_old.length = npix) (h2 : cells_new.length = npix)
    (h3 : mats_old.length = npix) (h4 : mats_new.length = npix) :
    (compute_diff_overlay cells_old cells_new mats_old mats_new).length = 3 * npix := by
  induction npix generalizing cells_old cells_new mats_old mats_new with
  | zero =>
    rw [List.length_eq_zero] at h1
    subst h1
    simp [compute_diff_overlay]
  | succ n ih =>
    rcases cells_old with _ | ⟨a, as⟩ <;> rcases cells_new with _ | ⟨b, bs⟩ <;>
      rcases mats_old with _ | ⟨c, cs⟩ <;> rcases mats_new with _ | ⟨d, ds⟩ <;>
      simp at h1 h2 h3 h4
    simp [compute_diff_overlay, ih as bs cs ds h1 h2 h3 h4]
    omega

/-! ### Inner bounding box -/

theorem bbox_clamp_one_sided (o : alea_bbox_t) :
    -1000 ≤ (bbox_clamp o).min_x ∧ (bbox_clamp o).max_x ≤ 1000 ∧
    -1000 ≤ (bbox_clamp o).min_y ∧ (bbox_clamp o).max_y ≤ 1000 ∧
    -1000 ≤ (bbox_clamp o).min_z ∧ (bbox_clamp o).max_z ≤ 1000 := by
  simp only [bbox_clamp]
  refine ⟨?_, ?_, ?_, ?_, ?_, ?_⟩ <;> split_ifs <;> linarith

theorem bbox_clamp_in_range (o : alea_bbox_t) (h : bbox_reaches_range o) :
    bbox_in_clamp_range (bbox_clamp o) := by
  obtain ⟨h1, h2, h3, h4, h5, h6⟩ := h
  simp only [bbox_clamp, bbox_in_clamp_range]
  refine ⟨⟨?_, ?_⟩, ⟨?_, ?_⟩, ⟨?_, ?_⟩, ⟨?_, ?_⟩, ⟨?_, ?_⟩, ⟨?_, ?_⟩⟩ <;>
    split_ifs <;> linarith

theorem bbox_extend_reaches_of_box (out b : alea_bbox_t) (h : bbox_reaches_range b) :
    bbox_reaches_range (bbox_extend out b) := by
  obtain ⟨h1, h2, h3, h4, h5, h6⟩ := h
  simp only [bbox_extend, bbox_reaches_range]
  refine ⟨?_, ?_, ?_, ?_, ?_, ?_⟩ <;> split_ifs <;> linarith

theorem bbox_extend_reaches_of_out (out b : alea_bbox_t) (h : bbox_reaches_range out) :
    bbox_reaches_range (bbox_extend out b) := by
  obtain ⟨h1, h2, h3, h4, h5, h6⟩ := h
  simp only [bbox_extend, bbox_reaches_range]
  refine ⟨?_, ?_, ?_, ?_, ?_, ?_⟩ <;> split_ifs <;> linarith

theorem full_fold_keeps (cells : List (Option alea_cell_info_t)) (out : alea_bbox_t)
    (h : bbox_reaches_range out) : bbox_reaches_range (cells.foldl full_bbox_step out) := by
  induction cells generalizing out with
  | nil => exact h
  | cons c cs ih =>
    cases c with
    | none => exact ih out h
    | some info => exact ih _ (bbox_extend_reaches_of_out out info.bbox h)

theorem full_fold_reaches (cells : List (Option alea_cell_info_t)) (out : alea_bbox_t)
    (hex : ∃ info, some info ∈ cells)
    (hall : ∀ info, some info ∈ cells → bbox_reaches_range info.bbox) :
    bbox_reaches_range (cells.foldl full_bbox_step out) := by
  induction cells generalizing out with
  | nil => obtain ⟨_, h⟩ := hex; cases h
  | cons c cs ih =>
    cases c with
    | none =>
      refine ih out ?_ (fun info hi => hall info (List.mem_cons_of_mem _ hi))
      obtain ⟨info, hi⟩ := hex
      rcases List.mem_cons.1 hi with h | h
      · cases h
      · exact ⟨info, h⟩
    | some info =>
      exact full_fold_keeps cs _
        (bbox_extend_reaches_of_box out info.bbox (hall info (List.mem_cons_self _ _)))

theorem inner_fold_reaches (cells : List (Option alea_cell_info_t)) (st : alea_bbox_t × Bool)
    (hall : ∀ info, some info ∈ cells → bbox_reaches_range info.bbox)
    (hst : st.2 = true → bbox_reaches_range st.1) :
    (cells.foldl inner_bbox_step st).2 = true →
      bbox_reaches_range (cells.foldl inner_bbox_step st).1 := by
  induction cells generalizing st with
  | nil => exact hst
  | cons c cs ih =>
    refine ih _ (fun info hi => hall info (List.mem_cons_of_mem _ hi)) ?_
    cases c with
    | none => exact hst
    | some info =>
      simp only [inner_bbox_step]
      split_ifs
      · exact hst
      · intro _
        exact bbox_extend_reaches_of_box st.1 info.bbox (hall info (List.mem_cons_self _ _))

theorem compute_inner_bbox_bounds_aux (sys : alea_system_t) :
    (-1000 ≤ (compute_inner_bbox sys).min_x ∧ (compute_inner_bbox sys).max_x ≤ 1000 ∧
     -1000 ≤ (compute_inner_bbox sys).min_y ∧ (compute_inner_bbox sys).max_y ≤ 1000 ∧
     -1000 ≤ (compute_inner_bbox sys).min_z ∧ (compute_inner_bbox sys).max_z ≤ 1000) ∧
    ((∃ info, some info ∈ sys.cells) →
      (∀ info, some info ∈ sys.cells → bbox_reaches_range info.bbox) →
      bbox_in_clamp_range (compute_inner_bbox sys)) := by
  refine ⟨bbox_clamp_one_sided _, fun hex hall => ?_⟩
  simp only [compute_inner_bbox]
  apply bbox_clamp_in_range
  split_ifs with hf
  · exact full_fold_reaches _ _ hex hall
  · refine inner_fold_reaches sys.cells _ hall (by simp) ?_
    simpa using hf

/-! ### History walker -/

theorem walk_loop_record (ret : git_commit_t → Nat → Int)
    (commits : List (Option git_commit_t)) (prev : Option Nat)
    (trace : List (git_commit_t × Nat)) :
    walk_loop (record_visit ret) commits prev trace =
      trace ++ event_visits (walk_events ret commits prev) := by
  induction commits generalizing prev trace with
  | nil => simp [walk_loop, walk_events, event_visits]
  | cons c cs ih =>
    cases c with
    | none => simpa [walk_loop, walk_events] using ih prev trace
    | some commit =>
      cases hb : commit.blob with
      | none => simp [walk_loop, walk_events, hb, ih, event_visits]
      | some b =>
        by_cases hp : prev = some b
        · simp [walk_loop, walk_events, hb, hp, ih]
        · by_cases hr : ret commit b = 0
          · simp [walk_loop, walk_events, hb, hp, hr, ih, record_visit, event_visits]
          · simp [walk_loop, walk_events, hb, hp, hr, record_visit, event_visits]

theorem visits_eq_events (ret : git_commit_t → Nat → Int)
    (commits : List (Option git_commit_t)) :
    visits ret commits = event_visits (walk_events ret commits none) := by
  simp [visits, ag_walk_history, walk_loop_record]

theorem walk_events_chain (ret : git_commit_t → Nat → Int)
    (commits : List (Option git_commit_t)) (prev : Option Nat) :
    (walk_events ret commits prev).Chain' events_differ ∧
    first_event_differs prev (walk_events ret commits prev) := by
  induction commits generalizing prev with
  | nil => simp [walk_events, first_event_differs]
  | cons c cs ih =>
    cases c with
    | none => simpa [walk_events] using ih prev
    | some commit =>
      cases hb : commit.blob with
      | none =>
        simp only [walk_events, hb, first_event_differs, and_true]
        refine List.Chain'.cons' (ih none).1 ?_
        intro y hy
        cases y <;> simp [events_differ]
      | some b =>
        by_cases hp : prev = some b
        · simp only [walk_events, hb, hp, ne_eq, not_true_eq_false, if_false]
          exact ih (some b)
        · by_cases hr : ret commit b = 0
          · simp only [walk_events, hb, hp, hr, ne_eq, not_false_eq_true, if_true,
              not_true_eq_false, if_false, first_event_differs, and_true]
            refine List.Chain'.cons' (ih (some b)).1 ?_
            intro y hy
            have h2 := (ih (some b)).2
            cases hw : walk_events ret cs (some b) with
            | nil => rw [hw] at hy; cases hy
            | cons e es =>
              rw [hw] at hy h2
              simp only [List.head?_cons, Option.mem_def, Option.some.injEq] at hy
              subst hy
              cases e with
              | visit c' b' =>
                simp only [first_event_differs, ne_eq, Option.some.injEq] at h2
                simpa [events_differ] using h2
              | reset => simp [events_differ]
          · simp [walk_events, hb, hp, hr, first_event_differs]

theorem visits_chain_of_present (ret : git_commit_t → Nat → Int)
    (commits : List (Option git_commit_t)) (prev : Option Nat)
    (hall : ∀ c, some c ∈ commits → c.blob ≠ none) :
    ((event_visits (walk_events ret commits prev)).map Prod.snd).Chain' (fun a b => a ≠ b) ∧
    ∀ b, prev = some b →
      ((event_visits (walk_events ret commits prev)).map Prod.snd).head? ≠ some b := by
  induction commits generalizing prev with
  | nil => simp [walk_events, event_visits]
  | cons c cs ih =>
    have hall' : ∀ c, some c ∈ cs → c.blob ≠ none :=
      fun c hc => hall c (List.mem_cons_of_mem _ hc)
    cases c with
    | none => simpa [walk_events] using ih prev hall'
    | some commit =>
      cases hb : commit.blob with
      | none => exact absurd hb (hall commit (List.mem_cons_self _ _))
      | some b =>
        by_cases hp : prev = some b
        · simp only [walk_events, hb, hp, ne_eq, not_true_eq_false, if_false]
          have := ih (some b) hall'
          exact ⟨this.1, fun b' hb' => by
            simp only [Option.some.injEq] at hb'
            subst hb'
            exact this.2 b rfl⟩
        · by_cases hr : ret commit b = 0
          · simp only [walk_events, hb, hp, hr, ne_eq, not_false_eq_true, if_true,
              not_true_eq_false, if_false, event_visits, List.map_cons]
            have := ih (some b) hall'
            refine ⟨List.Chain'.cons' this.1 ?_, ?_⟩
            · intro y hy hby
              subst hby
              exact this.2 b rfl hy
            · intro b' hb' h
              simp only [List.head?_cons, Option.some.injEq] at h
              exact hp (by rw [hb', h])
          · simp only [walk_events, hb, hp, hr, ne_eq, not_false_eq_true, if_true,
              event_visits, List.map_cons, List.map_nil, List.chain'_singleton, true_and]
            intro b' hb' h
            simp only [List.head?_cons, Option.some.injEq] at h
            exact hp (by rw [hb', h])

/-! ### Blame -/

theorem last_match_cons (m : git_commit_t → Bool) (seed c : git_commit_t)
    (vs : List git_commit_t) :
    last_match m seed (c :: vs) = last_match m (if m c then c else seed) vs := by
  unfold last_match
  by_cases h : m c = true
  · simp only [List.filter_cons, h, if_true]
    cases hl : vs.filter m with
    | nil => simp
    | cons a l =>
      have h1 : (a :: l).getLast? = some ((a :: l).getLast (by simp)) :=
        List.getLast?_eq_getLast _ _
      have h2 : (c :: a :: l).getLast? = (a :: l).getLast? := List.getLast?_cons_cons
      simp [h1, h2]
  · simp [List.filter_cons, h]

section blame

variable {α : Type} (key : α → Int) (cmp : α → α → Int)

theorem blame_update_attributed (c : git_commit_t) (old : List α) (x : git_commit_t)
    (cur : α) :
    blame_update key cmp c old (attributed (key cur) x) cur =
      attributed (key cur) (if elem_matches key cmp cur old then c else x) := by
  unfold blame_update elem_matches
  have hid : (attributed (key cur) x).id = key cur := rfl
  rw [hid]
  split
  · rename_i o heq
    by_cases h : cmp cur o = 0
    · simp [heq, h, blame_set, attributed]
    · simp [heq, h]
  · rename_i heq
    simp [heq]

theorem blame_update_all_map (c : git_commit_t) (old : List α) (X : α → git_commit_t)
    (curs : List α) :
    blame_update_all key cmp c old (curs.map (fun cur => attributed (key cur) (X cur))) curs =
      curs.map (fun cur =>
        attributed (key cur) (if elem_matches key cmp cur old then c else X cur)) := by
  induction curs with
  | nil => rfl
  | cons cur curs ih =>
    simp only [List.map_cons, blame_update_all, ih, blame_update_attributed]

end blame

theorem blame_apply_seeded (H : ag_fingerprint_set_t) (vs : List git_commit_t)
    (X : ag_cell_fp_t → git_commit_t) (Y : ag_surface_fp_t → git_commit_t) :
    blame_apply
        { current_fp := H,
          cell_blames := H.cells.map (fun cur => attributed cur.cell_id (X cur)),
          surf_blames := H.surfaces.map (fun cur => attributed cur.surface_id (Y cur)),
          first := false } vs =
      { current_fp := H,
        cell_blames := H.cells.map
          (fun cur => attributed cur.cell_id (last_match (cell_matches cur) (X cur) vs)),
        surf_blames := H.surfaces.map
          (fun cur => attributed cur.surface_id
            (last_match (surface_matches cur) (Y cur) vs)),
        first := false } := by
  induction vs generalizing X Y with
  | nil => simp [blame_apply, last_match]
  | cons c vs ih =>
    simp only [blame_apply, List.foldl_cons] at ih ⊢
    simp only [last_match_cons]
    cases hfp : c.fp with
    | none =>
      have : (blame_walk_cb c 0
          { current_fp := H,
            cell_blames := H.cells.map (fun cur => attributed cur.cell_id (X cur)),
            surf_blames := H.surfaces.map (fun cur => attributed cur.surface_id (Y cur)),
            first := false }).2 =
          { current_fp := H,
            cell_blames := H.cells.map (fun cur => attributed cur.cell_id (X cur)),
            surf_blames := H.surfaces.map (fun cur => attributed cur.surface_id (Y cur)),
            first := false } := by
        simp [blame_walk_cb, hfp]
      rw [this, ih X Y]
      simp [cell_matches, surface_matches, hfp]
    | some old =>
      have : (blame_walk_cb c 0
          { current_fp := H,
            cell_blames := H.cells.map (fun cur => attributed cur.cell_id (X cur)),
            surf_blames := H.surfaces.map (fun cur => attributed cur.surface_id (Y cur)),
            first := false }).2 =
          { current_fp := H,
            cell_blames := H.cells.map (fun cur => attributed cur.cell_id
              (if cell_matches cur c then c else X cur)),
            surf_blames := H.surfaces.map (fun cur => attributed cur.surface_id
              (if surface_matches cur c then c else Y cur)),
            first := false } := by
        simp only [blame_walk_cb, hfp, Bool.false_eq_true, if_false, cell_matches,
          surface_matches]
        rw [blame_update_all_map ag_cell_fp_t.cell_id ag_cell_fp_compare,
          blame_update_all_map ag_surface_fp_t.surface_id ag_surface_fp_compare]
      rw [this, ih]

theorem blame_seed (H : ag_fingerprint_set_t) (tip : git_commit_t) (b : Nat) :
    (blame_walk_cb tip b (blame_init H)).2 =
      { current_fp := H,
        cell_blames := H.cells.map (fun cur => attributed cur.cell_id tip),
        surf_blames := H.surfaces.map (fun cur => attributed cur.surface_id tip),
        first := false } := by
  simp [blame_walk_cb, blame_init, blame_set, attributed, Function.comp_def]

theorem blame_walk_cb_blob (c : git_commit_t) (b b' : Nat) (w : blame_walk_t) :
    blame_walk_cb c b w = blame_walk_cb c b' w := rfl

theorem blame_walk_cb_ret (c : git_commit_t) (b : Nat) (w : blame_walk_t) :
    (blame_walk_cb c b w).1 = 0 := by
  unfold blame_walk_cb
  split_ifs
  · rfl
  · cases c.fp <;> rfl

/-! ### Tree hash -/

/-- C11: for any two systems and root nodes whose CSG trees have the same
shape (same operation tag at each internal node, same surface id and sense at
each leaf, same left and right subtrees), `hash_tree` finishes with the same
value below `2^64`, whatever the node ids and whatever the recursion budget at
least the depth of the tree. -/
theorem hash_tree_structural (sys₁ sys₂ : alea_system_t) (t : csg_shape)
    (n₁ n₂ fuel₁ fuel₂ : Nat)
    (h₁ : has_shape sys₁ t n₁ = true) (h₂ : has_shape sys₂ t n₂ = true)
    (hf₁ : t.depth ≤ fuel₁) (hf₂ : t.depth ≤ fuel₂) :
    hash_tree sys₁ fuel₁ n₁ = hash_tree sys₂ fuel₂ n₂ ∧
    ∃ v, hash_tree sys₁ fuel₁ n₁ = some v ∧ v < 2 ^ 64 := by
  rw [hash_tree_of_shape sys₁ t n₁ fuel₁ h₁ hf₁, hash_tree_of_shape sys₂ t n₂ fuel₂ h₂ hf₂]
  exact ⟨rfl, hash_shape t, rfl, by simpa using hash_shape_lt t⟩

theorem hash_tree_structural_witness :
    has_shape tree_sys_low tree_shape 0 = true ∧ has_shape tree_sys_high tree_shape 10 = true ∧
    hash_tree tree_sys_low 2 0 = hash_tree tree_sys_high 5 10 ∧
    ∃ v, hash_tree tree_sys_low 2 0 = some v ∧ v < 2 ^ 64 :=
  ⟨by decide, by decide,
   hash_tree_structural tree_sys_low tree_sys_high tree_shape 0 10 2 5 (by decide) (by decide)
     (by decide) (by decide)⟩

/-! ### FNV-1a and the lattice hash order -/

/-- C13: the hash is 64-bit FNV-1a. The seed is 14695981039346656037;
`fnv_feed` is the left fold of `h ↦ ((h XOR byte) * 1099511628211) mod 2^64`;
the byte 0x61 fed to the seed gives 0xaf63dc4c8601ec8c; `fnv_int` feeds the
eight little-endian bytes of the value modulo `2^64`, whose upper four bytes
are 0 for a non-negative `int` and 255 for a negative one (sign extension). -/
theorem fnv_is_fnv1a_64 :
    fnv_init = 14695981039346656037 ∧
    (∀ (h : Nat) (d : List Nat),
      fnv_feed h d = d.foldl (fun h b => ((h ^^^ b) * 1099511628211) % 2 ^ 64) h) ∧
    fnv_feed fnv_init [0x61] = 0xaf63dc4c8601ec8c ∧
    (∀ (h : Nat) (v : Int),
      fnv_int h v = fnv_feed h
        ((List.range 8).map (fun i => ((v % 2 ^ 64).toNat / 256 ^ i) % 256))) ∧
    (∀ (h : Nat) (v : Int), 0 ≤ v → v < 2 ^ 31 →
      fnv_int h v = fnv_feed h
        ((List.range 4).map (fun i => (v.toNat / 256 ^ i) % 256) ++ [0, 0, 0, 0])) ∧
    (∀ (h : Nat) (v : Int), -(2 ^ 31) ≤ v → v < 0 →
      fnv_int h v = fnv_feed h
        ((List.range 4).map (fun i => ((v + 2 ^ 32).toNat / 256 ^ i) % 256) ++
          [255, 255, 255, 255])) := by
  refine ⟨rfl, fun h d => rfl, by decide, ?_, ?_, ?_⟩
  · intro h v
    simp only [fnv_int, int64_bits, bytes_of_u64_eq]
    simp [List.range, List.range.loop]
  · intro h v h0 h1
    simp only [fnv_int, int64_bits, bytes_of_u64_eq]
    have hv : (v % 18446744073709551616).toNat = v.toNat := by
      rw [Int.emod_eq_of_lt h0 (by omega)]
    rw [hv]
    have : v.toNat < 2147483648 := by omega
    congr 1
    simp [List.range, List.range.loop]
    omega
  · intro h v h0 h1
    simp only [fnv_int, int64_bits, bytes_of_u64_eq]
    obtain ⟨m, hm⟩ : ∃ m : Nat, v + 4294967296 = m := ⟨(v + 4294967296).toNat, by omega⟩
    have hv : (v % 18446744073709551616).toNat = m + 18446744069414584320 := by
      have : v % 18446744073709551616 = v + 18446744073709551616 := by
        rw [← Int.add_emod_self]
        exact Int.emod_eq_of_lt (by omega) (by omega)
      omega
    have hm2 : ((v + 2 ^ 32).toNat) = m := by norm_num; omega
    rw [hv, hm2]
    have : m < 4294967296 := by omega
    have : 2147483648 ≤ m := by omega
    congr 1
    simp [List.range, List.range.loop]
    omega

/-- C14 (amended): for a lattice cell `hash_lattice` folds `lat_type`, the six
dimensions, then `pitch[0]`, `lower_left[0]`, `pitch[1]`, `lower_left[1]`,
`pitch[2]`, `lower_left[2]` (pitch and lower-left coordinate interleaved per
axis), then the fill entries in index order; for `lat_type = 0` the result is
`fnv_int(seed, 0)` whatever the other lattice fields. -/
theorem hash_lattice_input_order (info : alea_cell_info_t) :
    (info.lat_type ≠ 0 →
      hash_lattice info =
        feed_inputs fnv_init
          ([.int info.lat_type] ++
           [.int (info.lat_fill_dims 0), .int (info.lat_fill_dims 1),
            .int (info.lat_fill_dims 2), .int (info.lat_fill_dims 3),
            .int (info.lat_fill_dims 4), .int (info.lat_fill_dims 5)] ++
           [.dbl (info.lat_pitch 0), .dbl (info.lat_lower_left 0),
            .dbl (info.lat_pitch 1), .dbl (info.lat_lower_left 1),
            .dbl (info.lat_pitch 2), .dbl (info.lat_lower_left 2)] ++
           info.lat_fill.map .int)) ∧
    (info.lat_type = 0 → hash_lattice info = fnv_int fnv_init 0) := by
  rw [hash_lattice_eq]
  constructor
  · intro h
    rw [if_neg h]
    rfl
  · intro h
    rw [if_pos h]

/-- C14 as stated fails: with pitches `(1, 2, 3)` and lower-left corner
`(4, 5, 6)` the hash is not the fold that takes the three pitches before the
three lower-left coordinates. -/
theorem hash_lattice_order_counterexample :
    lat_cell_pitch.lat_type ≠ 0 ∧
    hash_lattice lat_cell_pitch ≠
      feed_inputs fnv_init (lattice_inputs_pitches_first lat_cell_pitch) := by
  refine ⟨by decide, by decide!⟩

/-! ### Viewport and clamping -/

theorem compute_inner_bbox_scenario (sys : alea_system_t) (h : graveyard_scenario sys) :
    compute_inner_bbox sys = cube_bbox 10 := by
  obtain ⟨c, g, hc, hcb, hu, hm, hf, hgb, hcells⟩ := h
  have hg : is_graveyard_cell g = true := by simp [is_graveyard_cell, hu, hm, hf]
  rcases hcells with hcells | hcells <;>
    simp only [compute_inner_bbox, hcells, List.foldl_cons, List.foldl_nil, inner_bbox_step, hg,
      hc, if_true, Bool.false_eq_true, if_false, Bool.not_true, hcb, bbox_extend, cube_bbox,
      bbox_clamp, DBL_MAX] <;>
    norm_num

/-- C19 (amended): in the graveyard scenario the auto-mode viewport is
`[-12, 12]` in both directions for every axis: the union of the inner boxes is
`[-10, 10]`, and the padding is a tenth of the full extent 20 on each side. -/
theorem auto_viewport_graveyard_scenario (old_sys new_sys : alea_system_t)
    (axis : ag_slice_axis_t) (ho : graveyard_scenario old_sys)
    (hn : graveyard_scenario new_sys) :
    auto_viewport old_sys new_sys axis =
      { u_min := -12, u_max := 12, v_min := -12, v_max := 12 } := by
  simp only [auto_viewport, compute_inner_bbox_scenario _ ho, compute_inner_bbox_scenario _ hn]
  cases axis <;> simp [bbox_union, bbox_uv_range, cube_bbox] <;> norm_num

theorem scenario_sys_is_scenario : graveyard_scenario scenario_sys :=
  ⟨scenario_inner_cell, scenario_graveyard_cell, by decide, by decide!, rfl, rfl, rfl,
    by decide!, Or.inl rfl⟩

theorem auto_viewport_graveyard_scenario_witness :
    graveyard_scenario scenario_sys ∧
    auto_viewport scenario_sys scenario_sys .AG_AXIS_X =
      { u_min := -12, u_max := 12, v_min := -12, v_max := 12 } :=
  ⟨scenario_sys_is_scenario,
   auto_viewport_graveyard_scenario scenario_sys scenario_sys .AG_AXIS_X
     scenario_sys_is_scenario scenario_sys_is_scenario⟩

/-- C19 as stated fails: in the scenario the viewport reaches 12 on every
axis, outside `[-11, 11]`. -/
theorem auto_viewport_counterexample :
    ¬ ((auto_viewport scenario_sys scenario_sys .AG_AXIS_X).u_max ≤ 11) ∧
    ¬ ((auto_viewport scenario_sys scenario_sys .AG_AXIS_Y).u_max ≤ 11) ∧
    ¬ ((auto_viewport scenario_sys scenario_sys .AG_AXIS_Z).u_max ≤ 11) ∧
    ¬ (-11 ≤ (auto_viewport scenario_sys scenario_sys .AG_AXIS_Z).v_min) := by
  refine ⟨by decide!, by decide!, by decide!, by decide!⟩

/-- C18 (amended): `compute_inner_bbox` clamps each min coordinate from below
at -1000 and each max coordinate from above at 1000, for every system; all six
coordinates lie in `[-1000, 1000]` when the system has a readable cell and
every readable cell has its min coordinates at most 1000 and its max
coordinates at least -1000. -/
theorem compute_inner_bbox_clamped (sys : alea_system_t) :
    (-1000 ≤ (compute_inner_bbox sys).min_x ∧ (compute_inner_bbox sys).max_x ≤ 1000 ∧
     -1000 ≤ (compute_inner_bbox sys).min_y ∧ (compute_inner_bbox sys).max_y ≤ 1000 ∧
     -1000 ≤ (compute_inner_bbox sys).min_z ∧ (compute_inner_bbox sys).max_z ≤ 1000) ∧
    ((∃ info, some info ∈ sys.cells) →
      (∀ info, some info ∈ sys.cells → bbox_reaches_range info.bbox) →
      bbox_in_clamp_range (compute_inner_bbox sys)) :=
  compute_inner_bbox_bounds_aux sys

theorem compute_inner_bbox_clamped_witness :
    bbox_in_clamp_range (compute_inner_bbox scenario_sys) :=
  (compute_inner_bbox_clamped scenario_sys).2 ⟨scenario_inner_cell, by simp [scenario_sys]⟩
    (by
      intro info h
      simp only [scenario_sys, List.mem_cons, Option.some.injEq, List.mem_nil_iff,
        or_false] at h
      rcases h with h | h <;> subst h <;>
        simp only [bbox_reaches_range, scenario_inner_cell, scenario_graveyard_cell] <;>
        norm_num)

/-- C18 as stated fails: a single cell with box `[5000, 6000]^3` leaves the min
coordinates at 5000, and a system without cells leaves them at `DBL_MAX`. -/
theorem compute_inner_bbox_counterexample :
    (compute_inner_bbox far_cell_sys).min_x = 5000 ∧
    ¬ ((compute_inner_bbox far_cell_sys).min_x ≤ 1000) ∧
    (compute_inner_bbox (sys_of_cells [])).min_x = DBL_MAX ∧
    ¬ ((compute_inner_bbox (sys_of_cells [])).min_x ≤ 1000) := by
  refine ⟨by decide!, by decide!, by decide!, by decide!⟩

/-! ### Walker invocations and overlay colours -/

/-- C17 (amended): in the sequence of visitor invocations and of resets at
commits that lack the path, no two neighbours are invocations with the same
blob id, whatever the visitor returns; the invocations are the visits among
these events; and when every commit has the path, no two successive visitor
invocations carry the same blob id. -/
theorem ag_walk_history_no_repeat (ret : git_commit_t → Nat → Int)
    (commits : List (Option git_commit_t)) :
    visits ret commits = event_visits (walk_events ret commits none) ∧
    (walk_events ret commits none).Chain' events_differ ∧
    ((∀ c, some c ∈ commits → c.blob ≠ none) →
      ((visits ret commits).map Prod.snd).Chain' (fun a b => a ≠ b)) := by
  refine ⟨visits_eq_events ret commits, (walk_events_chain ret commits none).1, fun h => ?_⟩
  rw [visits_eq_events]
  exact (visits_chain_of_present ret commits none h).1

/-- C17 as stated fails: when the path is missing at a commit between two
commits that hold the same blob, the visitor is invoked at both, with the same
blob id twice in succession. -/
theorem ag_walk_history_counterexample :
    (visits (fun _ _ => 0) history_with_gap).map Prod.snd = [1, 1] := by
  decide

theorem ag_walk_history_no_repeat_witness :
    (visits (fun _ _ => 0) history_present).map Prod.snd = [1, 2, 1] ∧
    ((visits (fun _ _ => 0) history_present).map Prod.snd).Chain' (fun a b => a ≠ b) :=
  ⟨by decide,
   (ag_walk_history_no_repeat (fun _ _ => 0) history_present).2.2
     (by
       intro c h
       simp only [history_present, List.mem_cons, Option.some.injEq, List.mem_nil_iff,
         or_false] at h
       rcases h with h | h | h | h <;> subst h <;> decide)⟩

/-- C20: for pixel `i` with old (cell, material) = `(co, mo)` and new =
`(cn, mn)`, the three bytes `compute_diff_overlay` writes at `3 * i` are: the
channels of `id_to_color(mo)` divided by 3 when `co = cn` and `mo = mn`;
otherwise (50,200,50) when `co ≤ 0` and `cn > 0`; otherwise (200,50,50) when
`co > 0` and `cn ≤ 0`; otherwise (50,200,200) when the cell ids differ and the
materials agree; and (200,200,50) in every remaining case. -/
theorem compute_diff_overlay_colours (cells_old cells_new mats_old mats_new : List Int)
    (i : Nat) (co cn mo mn : Int)
    (h1 : cells_old[i]? = some co) (h2 : cells_new[i]? = some cn)
    (h3 : mats_old[i]? = some mo) (h4 : mats_new[i]? = some mn) :
    ((compute_diff_overlay cells_old cells_new mats_old mats_new).drop (3 * i)).take 3 =
      if co = cn ∧ mo = mn then
        [(id_to_color mo).r / 3, (id_to_color mo).g / 3, (id_to_color mo).b / 3]
      else if co ≤ 0 ∧ cn > 0 then [50, 200, 50]
      else if co > 0 ∧ cn ≤ 0 then [200, 50, 50]
      else if co ≠ cn ∧ mo = mn then [50, 200, 200]
      else [200, 200, 50] := by
  rw [compute_diff_overlay_at cells_old cells_new mats_old mats_new i co cn mo mn h1 h2 h3 h4,
    diff_overlay_pixel_eq]
  unfold overlay_colour_stated
  split_ifs <;> rfl

theorem compute_diff_overlay_colours_witness :
    ((compute_diff_overlay [1, 0, 4, 2, 3] [1, 5, 0, 7, 8] [9, 0, 6, 6, 1] [9, 2, 0, 6, 2]).drop
        (3 * 3)).take 3 = [50, 200, 200] :=
  compute_diff_overlay_colours [1, 0, 4, 2, 3] [1, 5, 0, 7, 8] [9, 0, 6, 6, 1] [9, 2, 0, 6, 2]
    3 2 7 6 6 rfl rfl rfl rfl

/-! ### Blame attribution -/

theorem walk_loop_fold {σ : Type} (cb : git_commit_t → Nat → σ → Int × σ)
    (hcb : ∀ c b st, (cb c b st).1 = 0) (commits : List (Option git_commit_t))
    (prev : Option Nat) (st : σ) :
    walk_loop cb commits prev st =
      (event_visits (walk_events (fun _ _ => 0) commits prev)).foldl
        (fun st v => (cb v.1 v.2 st).2) st := by
  induction commits generalizing prev st with
  | nil => simp [walk_loop, walk_events, event_visits]
  | cons c cs ih =>
    cases c with
    | none => simpa [walk_loop, walk_events] using ih prev st
    | some commit =>
      cases hb : commit.blob with
      | none => simp [walk_loop, walk_events, hb, ih, event_visits]
      | some b =>
        by_cases hp : prev = some b
        · simp [walk_loop, walk_events, hb, hp, ih]
        · simp [walk_loop, walk_events, hb, hp, hcb, ih, event_visits]

theorem blame_fold_eq_apply (vs : List (git_commit_t × Nat)) (w : blame_walk_t) :
    vs.foldl (fun st v => (blame_walk_cb v.1 v.2 st).2) w = blame_apply w (vs.map Prod.fst) := by
  simp [blame_apply, List.foldl_map, blame_walk_cb_blob _ _ 0]

theorem cmd_blame_walk_eq (head_fp : ag_fingerprint_set_t)
    (commits : List (Option git_commit_t)) :
    cmd_blame_walk head_fp commits =
      blame_apply (blame_init head_fp) ((visits (fun _ _ => 0) commits).map Prod.fst) := by
  rw [visits_eq_events, ← blame_fold_eq_apply]
  exact walk_loop_fold blame_walk_cb blame_walk_cb_ret commits none (blame_init head_fp)

theorem blame_apply_cons (w : blame_walk_t) (c : git_commit_t) (vs : List git_commit_t) :
    blame_apply w (c :: vs) = blame_apply (blame_walk_cb c 0 w).2 vs := rfl

/-- What `cmd_blame` computes: when the walk invokes the visitor at `v0` first
and at `vs` afterwards, blame names for every cell and surface of the tip the
oldest invoked commit among `vs` whose geometry loads and holds the id with a
fingerprint equal to the tip's, and `v0` when there is none. -/
theorem cmd_blame_names_oldest_visited (head_fp : ag_fingerprint_set_t)
    (commits : List (Option git_commit_t)) (v0 : git_commit_t × Nat)
    (vs : List (git_commit_t × Nat)) (hv : visits (fun _ _ => 0) commits = v0 :: vs) :
    (cmd_blame_walk head_fp commits).cell_blames =
      head_fp.cells.map (fun cur =>
        attributed cur.cell_id (last_match (cell_matches cur) v0.1 (vs.map Prod.fst))) ∧
    (cmd_blame_walk head_fp commits).surf_blames =
      head_fp.surfaces.map (fun cur =>
        attributed cur.surface_id (last_match (surface_matches cur) v0.1 (vs.map Prod.fst))) := by
  rw [cmd_blame_walk_eq, hv, List.map_cons, blame_apply_cons, blame_seed, blame_apply_seeded]
  exact ⟨rfl, rfl⟩

theorem cmd_blame_names_oldest_visited_witness :
    (cmd_blame_walk fp_one_cell history_three).cell_blames =
      [{ id := 7, sha := "c2", author := "c2", date := "c2" }] :=
  (cmd_blame_names_oldest_visited fp_one_cell history_three
    (commit_of "c3" (some 3) (some fp_one_cell), 3)
    [(commit_of "c2" (some 2) (some fp_one_cell), 2),
     (commit_of "c1" (some 1) (some fp_one_cell_changed), 1)] (by decide)).1.trans
    (by decide!)

/-- C15 at the failing input `history_run`: `ag_walk_history` invokes the
visitor at `c3` and `c1` only, although `c3` did not change the file and `c2`
did; `c2` is the oldest commit of the history that holds cell 7 with the
fingerprint of the tip (`c1` holds another one), and blame names `c3`. -/
theorem cmd_blame_names_newest_of_run :
    (visits (fun _ _ => 0) history_run).map (fun v => v.1.short_oid) = ["c3", "c1"] ∧
    history_run.filterMap (Option.map (fun c => (c.short_oid, cell_matches cell_seven c))) =
      [("c3", true), ("c2", true), ("c1", false)] ∧
    (last_match (cell_matches cell_seven) (commit_of "c3" (some 2) (some fp_one_cell))
      (history_run.filterMap id)).short_oid = "c2" ∧
    (cmd_blame_walk fp_one_cell history_run).cell_blames =
      [{ id := 7, sha := "c3", author := "c3", date := "c3" }] := by
  refine ⟨by decide!, by decide!, by decide!, by decide!⟩

/-- C16 (amended): after the seed with the tip, applying `blame_walk_cb` to a
list of older versions attributes every cell and surface to the last version of
the list whose geometry loads and holds the id with a fingerprint equal to the
tip's, and to the tip when there is none; the result depends on the order of
the list through that last matching version. -/
theorem blame_apply_last_match (head_fp : ag_fingerprint_set_t) (tip : git_commit_t)
    (b : Nat) (olds : List git_commit_t) :
    blame_apply (blame_walk_cb tip b (blame_init head_fp)).2 olds =
      { current_fp := head_fp,
        cell_blames := head_fp.cells.map (fun cur =>
          attributed cur.cell_id (last_match (cell_matches cur) tip olds)),
        surf_blames := head_fp.surfaces.map (fun cur =>
          attributed cur.surface_id (last_match (surface_matches cur) tip olds)),
        first := false } := by
  rw [blame_seed, blame_apply_seeded]

/-- C16 as stated fails: two older versions that both match cell 7 give
different attributions in the two orders. -/
theorem blame_order_counterexample :
    (blame_apply (blame_walk_cb (commit_of "tip" (some 3) (some fp_one_cell)) 3
        (blame_init fp_one_cell)).2
      [commit_of "a" (some 2) (some fp_one_cell),
       commit_of "b" (some 1) (some fp_one_cell)]).cell_blames =
      [{ id := 7, sha := "b", author := "b", date := "b" }] ∧
    (blame_apply (blame_walk_cb (commit_of "tip" (some 3) (some fp_one_cell)) 3
        (blame_init fp_one_cell)).2
      [commit_of "b" (some 1) (some fp_one_cell),
       commit_of "a" (some 2) (some fp_one_cell)]).cell_blames =
      [{ id := 7, sha := "a", author := "a", date := "a" }] := by
  refine ⟨by decide!, by decide!⟩

/-! ### Bitmap layout -/

theorem bmp_header_eq (width height file_size : Nat) :
    bmp_header width height file_size =
      [66, 77, file_size &&& 0xFF, (file_size >>> 8) &&& 0xFF, (file_size >>> 16) &&& 0xFF,
       (file_size >>> 24) &&& 0xFF, 0, 0, 0, 0, 54, 0, 0, 0, 40, 0, 0, 0,
       width &&& 0xFF, (width >>> 8) &&& 0xFF, (width >>> 16) &&& 0xFF, (width >>> 24) &&& 0xFF,
       height &&& 0xFF, (height >>> 8) &&& 0xFF, (height >>> 16) &&& 0xFF,
       (height >>> 24) &&& 0xFF, 1, 0, 24, 0,
       0, 0, 0, 0, 0, 0, 0, 0, 0, 0, 0, 0, 0, 0, 0, 0, 0, 0, 0, 0, 0, 0, 0, 0] := by
  simp [bmp_header, List.replicate]

theorem bmp_header_length (width height file_size : Nat) :
    (bmp_header width height file_size).length = 54 := by
  rw [bmp_header_eq]
  rfl

theorem le_bytes_value (n : Nat) (h : n < 4294967296) :
    (n &&& 0xFF) + 256 * ((n >>> 8) &&& 0xFF) + 65536 * ((n >>> 16) &&& 0xFF) +
      16777216 * ((n >>> 24) &&& 0xFF) = n := by
  have e : ∀ m : Nat, m &&& 0xFF = m % 256 := fun m => Nat.and_pow_two_sub_one_eq_mod m 8
  simp only [e, Nat.shiftRight_eq_div_pow]
  omega

theorem set3_append_replicate (A : List Nat) (k b g r : Nat) :
    (((A ++ List.replicate (k + 3) 0).set A.length b).set (A.length + 1) g).set
        (A.length + 2) r =
      A ++ [b, g, r] ++ List.replicate k 0 := by
  induction A with
  | nil => simp [List.replicate_succ]
  | cons a A ih =>
    simp only [List.cons_append, List.length_cons] at ih ⊢
    have e1 : A.length + 1 + 1 = (A.length + 1) + 1 := by omega
    have e2 : A.length + 1 + 2 = (A.length + 2) + 1 := by omega
    rw [e1, e2, List.set_cons_succ, List.set_cons_succ, List.set_cons_succ, ih]

theorem flatMap_triple_length {α : Type} (f : Nat → α × α × α) (n : Nat) :
    ((List.range n).flatMap (fun x => [(f x).1, (f x).2.1, (f x).2.2])).length = 3 * n := by
  induction n with
  | zero => rfl
  | succ n ih =>
    rw [List.range_succ, List.flatMap_append, List.length_append, ih]
    simp
    omega

theorem bmp_row_fold (pixels : List Nat) (w row_size y n : Nat) (hn : 3 * n ≤ row_size) :
    (List.range n).foldl
        (fun row x =>
          let src := (y * w + x) * 3
          let dst := x * 3
          let row := row.set (dst + 0) (pixels.getD (src + 2) 0)
          let row := row.set (dst + 1) (pixels.getD (src + 1) 0)
          let row := row.set (dst + 2) (pixels.getD (src + 0) 0)
          row)
        (List.replicate row_size 0) =
      (List.range n).flatMap
        (fun x => [pixels.getD ((y * w + x) * 3 + 2) 0, pixels.getD ((y * w + x) * 3 + 1) 0,
          pixels.getD ((y * w + x) * 3 + 0) 0]) ++
      List.replicate (row_size - 3 * n) 0 := by
  induction n with
  | zero => simp
  | succ n ih =>
    rw [List.range_succ, List.foldl_append, ih (by omega), List.flatMap_append]
    simp only [List.foldl_cons, List.foldl_nil, List.flatMap_cons, List.flatMap_nil,
      List.append_nil]
    have hl := flatMap_triple_length
      (fun x => (pixels.getD ((y * w + x) * 3 + 2) 0, pixels.getD ((y * w + x) * 3 + 1) 0,
        pixels.getD ((y * w + x) * 3 + 0) 0)) n
    simp only at hl
    have hk : row_size - 3 * n = (row_size - 3 * (n + 1)) + 3 := by omega
    have hx : n * 3 = ((List.range n).flatMap
        (fun x => [pixels.getD ((y * w + x) * 3 + 2) 0, pixels.getD ((y * w + x) * 3 + 1) 0,
          pixels.getD ((y * w + x) * 3 + 0) 0])).length := by
      rw [hl]; omega
    rw [hk, hx]
    exact set3_append_replicate _ _ _ _ _

theorem bmp_row_eq (pixels : List Nat) (width row_size y : Nat) (h : 3 * width ≤ row_size) :
    bmp_row pixels width row_size y = bmp_row_stated pixels width row_size y :=
  bmp_row_fold pixels width row_size y width h

theorem bmp_row_stated_length (pixels : List Nat) (width row_size y : Nat)
    (h : 3 * width ≤ row_size) : (bmp_row_stated pixels width row_size y).length = row_size := by
  have hl := flatMap_triple_length
    (fun x => (pixels.getD ((y * width + x) * 3 + 2) 0, pixels.getD ((y * width + x) * 3 + 1) 0,
      pixels.getD ((y * width + x) * 3 + 0) 0)) width
  simp only at hl
  rw [bmp_row_stated, List.length_append, hl, List.length_replicate]
  omega

theorem foldl_append_rows {α β : Type} (row : β → List α) (l : List β) (f : List α) :
    l.foldl (fun f y => f ++ row y) f = f ++ (l.map row).flatten := by
  induction l generalizing f with
  | nil => simp
  | cons y l ih => simp [ih, List.append_assoc]

theorem flatten_drop_take {α : Type} (m : Nat) (L : List (List α))
    (hL : ∀ l ∈ L, l.length = m) (r : Nat) (row : List α) (hr : L[r]? = some row) :
    (L.flatten.drop (r * m)).take m = row := by
  induction L generalizing r with
  | nil => simp at hr
  | cons l L ih =>
    have hl : l.length = m := hL l (List.mem_cons_self _ _)
    cases r with
    | zero =>
      simp only [List.getElem?_cons_zero, Option.some.injEq] at hr
      subst hr
      simp [← hl]
    | succ r =>
      simp only [List.getElem?_cons_succ] at hr
      have e : (r + 1) * m = l.length + r * m := by rw [hl]; ring
      rw [List.flatten_cons, e, List.drop_append]
      exact ih (fun x hx => hL x (List.mem_cons_of_mem _ hx)) r hr

theorem flatten_length_const {α : Type} (m : Nat) (L : List (List α))
    (hL : ∀ l ∈ L, l.length = m) : L.flatten.length = m * L.length := by
  induction L with
  | nil => simp
  | cons l L ih =>
    rw [List.flatten_cons, List.length_append, ih (fun x hx => hL x (List.mem_cons_of_mem _ hx)),
      hL l (List.mem_cons_self _ _), List.length_cons]
    ring

theorem row_size_least (width : Nat) :
    ((width * 3 + 3) / 4 * 4) % 4 = 0 ∧ 3 * width ≤ (width * 3 + 3) / 4 * 4 ∧
    (width * 3 + 3) / 4 * 4 < 3 * width + 4 := by
  omega

theorem ag_write_bmp_eq (pixels : List Nat) (width height : Nat) :
    (ag_write_bmp true pixels width height).2 =
      bmp_header width height (54 + (width * 3 + 3) / 4 * 4 * height) ++
      ((List.range height).reverse.map
        (bmp_row_stated pixels width ((width * 3 + 3) / 4 * 4))).flatten := by
  have hrow : ∀ y, bmp_row pixels width ((width * 3 + 3) / 4 * 4) y =
      bmp_row_stated pixels width ((width * 3 + 3) / 4 * 4) y :=
    fun y => bmp_row_eq _ _ _ _ (row_size_least width).2.1
  simp only [ag_write_bmp, Bool.not_true, Bool.false_eq_true, if_false, foldl_append_rows, hrow]

theorem reversed_range_get (h r : Nat) (hr : r < h) :
    (List.range h).reverse[r]? = some (h - 1 - r) := by
  rw [List.getElem?_reverse (by simpa using hr)]
  simp only [List.length_range]
  rw [List.getElem?_range (by omega)]

theorem take_append_of_length {α : Type} (a b : List α) (n : Nat) (h : a.length = n) :
    (a ++ b).take n = a := by
  rw [← h, List.take_left]

theorem drop_append_of_length {α : Type} (a b : List α) (n k : Nat) (h : a.length = n) :
    (a ++ b).drop (n + k) = b.drop k := by
  rw [← h, List.drop_append]

/-- C22: when `fopen` succeeds `ag_write_bmp` returns 0 and writes a 54-byte
header followed by `height` rows of `row_size` bytes, `row_size` being the
least multiple of 4 that is at least `3 * width`; the little-endian value of
header bytes 2..5 is the total length `54 + row_size * height`; row `r` of the
file holds image row `height - 1 - r`, pixel `x` at row offset `3 * x` as blue,
green, red, followed by `row_size - 3 * width` zero bytes; every pixel byte read
lies inside the buffer. The `int` arithmetic is taken without overflow. -/
theorem ag_write_bmp_layout (pixels : List Nat) (width height : Nat)
    (hlen : pixels.length = width * height * 3)
    (hfit : 54 + (width * 3 + 3) / 4 * 4 * height < 2147483648) :
    (ag_write_bmp true pixels width height).1 = 0 ∧
    (((width * 3 + 3) / 4 * 4) % 4 = 0 ∧ 3 * width ≤ (width * 3 + 3) / 4 * 4 ∧
      (width * 3 + 3) / 4 * 4 < 3 * width + 4) ∧
    (ag_write_bmp true pixels width height).2.length = 54 + (width * 3 + 3) / 4 * 4 * height ∧
    (ag_write_bmp true pixels width height).2.take 54 =
      bmp_header width height (54 + (width * 3 + 3) / 4 * 4 * height) ∧
    (ag_write_bmp true pixels width height).2.getD 2 0 +
        256 * (ag_write_bmp true pixels width height).2.getD 3 0 +
        65536 * (ag_write_bmp true pixels width height).2.getD 4 0 +
        16777216 * (ag_write_bmp true pixels width height).2.getD 5 0 =
      54 + (width * 3 + 3) / 4 * 4 * height ∧
    (∀ r, r < height →
      ((ag_write_bmp true pixels width height).2.drop
          (54 + r * ((width * 3 + 3) / 4 * 4))).take ((width * 3 + 3) / 4 * 4) =
        (List.range width).flatMap
          (fun x =>
            [pixels.getD (((height - 1 - r) * width + x) * 3 + 2) 0,
             pixels.getD (((height - 1 - r) * width + x) * 3 + 1) 0,
             pixels.getD (((height - 1 - r) * width + x) * 3 + 0) 0]) ++
        List.replicate ((width * 3 + 3) / 4 * 4 - 3 * width) 0) ∧
    (∀ r x, r < height → x < width →
      ((height - 1 - r) * width + x) * 3 + 2 < pixels.length) := by
  have hrs := row_size_least width
  have hrows : ∀ l ∈ (List.range height).reverse.map
      (bmp_row_stated pixels width ((width * 3 + 3) / 4 * 4)),
      l.length = (width * 3 + 3) / 4 * 4 := by
    intro l hl
    obtain ⟨y, _, rfl⟩ := List.mem_map.1 hl
    exact bmp_row_stated_length _ _ _ _ hrs.2.1
  have hhl := bmp_header_length width height (54 + (width * 3 + 3) / 4 * 4 * height)
  refine ⟨rfl, hrs, ?_, ?_, ?_, ?_, ?_⟩
  · rw [ag_write_bmp_eq, List.length_append, hhl, flatten_length_const _ _ hrows]
    simp
  · rw [ag_write_bmp_eq, take_append_of_length _ _ _ hhl]
  · rw [ag_write_bmp_eq, bmp_header_eq]
    simp only [List.cons_append, List.getD_cons_succ, List.getD_cons_zero]
    exact le_bytes_value _ (by omega)
  · intro r hr
    rw [ag_write_bmp_eq, drop_append_of_length _ _ _ _ hhl,
      flatten_drop_take _ _ hrows r (bmp_row_stated pixels width ((width * 3 + 3) / 4 * 4)
        (height - 1 - r))]
    · rfl
    · rw [List.getElem?_map, reversed_range_get height r hr]
      rfl
  · intro r x hr hx
    rw [hlen]
    have h1 : (height - 1 - r) * width + x < height * width := by
      have : (height - 1 - r) + 1 ≤ height := by omega
      calc (height - 1 - r) * width + x < (height - 1 - r) * width + width := by omega
        _ = ((height - 1 - r) + 1) * width := by ring
        _ ≤ height * width := Nat.mul_le_mul_right _ this
    have h2 : width * height * 3 = (height * width) * 3 := by ring
    omega

theorem ag_write_bmp_layout_witness :
    (ag_write_bmp true [1, 2, 3, 4, 5, 6, 7, 8, 9, 10, 11, 12] 1 4).2.length = 54 + 4 * 4 ∧
    ((ag_write_bmp true [1, 2, 3, 4, 5, 6, 7, 8, 9, 10, 11, 12] 1 4).2.drop
      (54 + 0 * 4)).take 4 = [12, 11, 10, 0] ∧
    ((ag_write_bmp true [1, 2, 3, 4, 5, 6, 7, 8, 9, 10, 11, 12] 1 4).2.drop
      (54 + 3 * 4)).take 4 = [3, 2, 1, 0] :=
  ⟨(ag_write_bmp_layout [1, 2, 3, 4, 5, 6, 7, 8, 9, 10, 11, 12] 1 4 rfl (by decide)).2.2.1,
   (ag_write_bmp_layout [1, 2, 3, 4, 5, 6, 7, 8, 9, 10, 11, 12] 1 4 rfl
     (by decide)).2.2.2.2.2.1 0 (by decide),
   (ag_write_bmp_layout [1, 2, 3, 4, 5, 6, 7, 8, 9, 10, 11, 12] 1 4 rfl
     (by decide)).2.2.2.2.2.1 3 (by decide)⟩

/-! ### Format detection -/

theorem ag_str_ends_with_iff (str suffix : List Char) :
    ag_str_ends_with str suffix = true ↔ suffix <:+ str := by
  unfold ag_str_ends_with
  by_cases h : suffix.length > str.length
  · simp only [h, if_true, Bool.false_eq_true, false_iff]
    intro hs
    have := hs.length_le
    omega
  · simp only [h, if_false, decide_eq_true_eq]
    constructor
    · intro he
      rw [← he]
      exact List.drop_suffix _ _
    · intro hs
      obtain ⟨t, rfl⟩ := hs
      simp

theorem ends_with_getLast (str suffix : List Char) (c : Char)
    (h : ag_str_ends_with str suffix = true) (hc : suffix.getLast? = some c) :
    str.getLast? = some c := by
  obtain ⟨t, rfl⟩ := (ag_str_ends_with_iff str suffix).1 h
  cases suffix with
  | nil => simp at hc
  | cons a l => rw [List.getLast?_append_of_ne_nil _ (by simp)]; exact hc

theorem not_xml_of_mcnp_extension (p : List Char)
    (h : ag_str_ends_with p ".inp".toList = true ∨ ag_str_ends_with p ".i".toList = true ∨
      ag_str_ends_with p ".mcnp".toList = true) :
    ag_str_ends_with p ".xml".toList = false := by
  by_contra hx
  have hx : ag_str_ends_with p ".xml".toList = true := by simpa using hx
  have hl := ends_with_getLast p _ 'l' hx (by decide)
  rcases h with h | h | h
  · have := ends_with_getLast p _ 'p' h (by decide)
    rw [hl] at this
    exact absurd this (by decide)
  · have := ends_with_getLast p _ 'i' h (by decide)
    rw [hl] at this
    exact absurd this (by decide)
  · have := ends_with_getLast p _ 'p' h (by decide)
    rw [hl] at this
    exact absurd this (by decide)

theorem sniff_eq (d : List Char) :
    (if d.length > 5 then
        if 5 ≤ (d.dropWhile is_skipped_char).length ∧
            (d.dropWhile is_skipped_char).take 5 = "<?xml".toList then
          geom_format_t.GEOM_FORMAT_OPENMC
        else if 1 ≤ (d.dropWhile is_skipped_char).length ∧
            (d.dropWhile is_skipped_char).head? = some '<' then .GEOM_FORMAT_OPENMC
        else .GEOM_FORMAT_MCNP
      else .GEOM_FORMAT_MCNP) =
      if 5 < d.length ∧ starts_with_angle d = true then .GEOM_FORMAT_OPENMC
      else .GEOM_FORMAT_MCNP := by
  simp only [starts_with_angle, gt_iff_lt, decide_eq_true_eq]
  by_cases hlen : 5 < d.length
  · simp only [hlen, if_true, true_and]
    by_cases hang : (d.dropWhile is_skipped_char).head? = some '<'
    · have hne : 1 ≤ (d.dropWhile is_skipped_char).length := by
        cases hd : d.dropWhile is_skipped_char with
        | nil => rw [hd] at hang; simp at hang
        | cons a l => simp
      simp only [hang, hne, and_self, if_true]
      split_ifs <;> rfl
    · have hx : ¬ (5 ≤ (d.dropWhile is_skipped_char).length ∧
          (d.dropWhile is_skipped_char).take 5 = "<?xml".toList) := by
        rintro ⟨_, h5⟩
        apply hang
        cases hd : d.dropWhile is_skipped_char with
        | nil => rw [hd] at h5; simp at h5
        | cons a l =>
          rw [hd] at h5
          have : a = '<' := by
            have := congrArg List.head? h5
            simpa using this
          simp [this]
      simp only [hx, hang, and_false, if_false]
  · simp only [hlen, if_false, false_and]

theorem ag_detect_format_no_extension (path : Option (List Char)) (data : Option (List Char))
    (h : no_known_extension path) :
    ag_detect_format path data =
      match data with
      | some d =>
        if 5 < d.length ∧ starts_with_angle d = true then .GEOM_FORMAT_OPENMC
        else .GEOM_FORMAT_MCNP
      | none => .GEOM_FORMAT_MCNP := by
  cases path with
  | none =>
    cases data with
    | none => rfl
    | some d => exact sniff_eq d
  | some p =>
    obtain ⟨h1, h2, h3, h4⟩ := h p rfl
    cases data with
    | none =>
      simp only [ag_detect_format, h1, h2, h3, h4, Bool.false_eq_true, if_false, Bool.or_false]
    | some d =>
      simp only [ag_detect_format, h1, h2, h3, h4, Bool.false_eq_true, if_false, Bool.or_false]
      exact sniff_eq d

/-- C23 (amended): a path ending in `.xml` gives OpenMC and a path ending in
`.inp`, `.i` or `.mcnp` gives MCNP, whatever the content; for a path with none
of these extensions, or no path, the result is OpenMC exactly when there is a
content buffer of more than 5 characters whose first character after leading
spaces, tabs, CR and LF is `<`, and MCNP in all other cases. -/
theorem ag_detect_format_cases (path : Option (List Char)) (data : Option (List Char)) :
    (∀ p, path = some p → ag_str_ends_with p ".xml".toList = true →
      ag_detect_format path data = .GEOM_FORMAT_OPENMC) ∧
    (∀ p, path = some p →
      (ag_str_ends_with p ".inp".toList = true ∨ ag_str_ends_with p ".i".toList = true ∨
        ag_str_ends_with p ".mcnp".toList = true) →
      ag_detect_format path data = .GEOM_FORMAT_MCNP) ∧
    (no_known_extension path →
      (ag_detect_format path data = .GEOM_FORMAT_OPENMC ↔
        ∃ d, data = some d ∧ 5 < d.length ∧ starts_with_angle d = true) ∧
      (ag_detect_format path data ≠ .GEOM_FORMAT_OPENMC →
        ag_detect_format path data = .GEOM_FORMAT_MCNP)) := by
  refine ⟨?_, ?_, ?_⟩
  · intro p hp hx
    subst hp
    simp only [ag_detect_format, hx, if_true]
  · intro p hp hm
    have hx := not_xml_of_mcnp_extension p hm
    have hm2 : (ag_str_ends_with p ".inp".toList || ag_str_ends_with p ".i".toList ||
        ag_str_ends_with p ".mcnp".toList) = true := by
      rcases hm with h | h | h <;> simp only [h, Bool.true_or, Bool.or_true]
    subst hp
    simp only [ag_detect_format, hx, hm2, Bool.false_eq_true, if_false, if_true]
  · intro h
    rw [ag_detect_format_no_extension path data h]
    cases data with
    | none => simp
    | some d =>
      by_cases hc : 5 < d.length ∧ starts_with_angle d = true
      · simp [hc]
      · dsimp only
        rw [if_neg hc]
        refine ⟨?_, fun _ => rfl⟩
        constructor
        · intro h; cases h
        · rintro ⟨d', hd', h1, h2⟩
          cases hd'
          exact absurd ⟨h1, h2⟩ hc

/-- C23 as stated fails: without a path, and with a path without a recognised
extension, the 4-character buffer `<a/>` starts with `<` and is detected as
MCNP. -/
theorem ag_detect_format_counterexample :
    starts_with_angle "<a/>".toList = true ∧
    ag_detect_format none (some "<a/>".toList) = .GEOM_FORMAT_MCNP ∧
    no_known_extension (some "geometry.txt".toList) ∧
    ag_detect_format (some "geometry.txt".toList) (some "<a/>".toList) = .GEOM_FORMAT_MCNP := by
  refine ⟨by decide, by decide, ?_, by decide⟩
  intro p hp
  cases hp
  decide

theorem ag_detect_format_cases_witness :
    ag_detect_format (some "model.xml".toList) (some "c title card".toList) =
      .GEOM_FORMAT_OPENMC ∧
    ag_detect_format (some "model.i".toList) (some "<?xml version".toList) =
      .GEOM_FORMAT_MCNP :=
  ⟨(ag_detect_format_cases (some "model.xml".toList) (some "c title card".toList)).1 _ rfl
     (by decide),
   (ag_detect_format_cases (some "model.i".toList) (some "<?xml version".toList)).2.1 _ rfl
     (Or.inr (Or.inl (by decide)))⟩

/-! ### Commit trailer -/

section trailer

variable {α : Type} (line : ag_diff_entry α → trailer_line)

theorem detail_loop_eq (ds : List (ag_diff_entry α)) (sb : List trailer_line) (n : Nat)
    (h : ∀ e ∈ ds, e.change ≠ .DIFF_UNCHANGED) :
    detail_loop line ds (sb, n) =
      (sb ++ (ds.map line).take (MAX_DETAIL_LINES - n),
        n + min ds.length (MAX_DETAIL_LINES - n)) := by
  induction ds generalizing sb n with
  | nil => simp [detail_loop]
  | cons d ds ih =>
    have hd : d.change ≠ .DIFF_UNCHANGED := h d (List.mem_cons_self _ _)
    have hds : ∀ e ∈ ds, e.change ≠ .DIFF_UNCHANGED :=
      fun e he => h e (List.mem_cons_of_mem _ he)
    by_cases hn : n < MAX_DETAIL_LINES
    · obtain ⟨k, hk⟩ : ∃ k, MAX_DETAIL_LINES - n = k + 1 := ⟨MAX_DETAIL_LINES - n - 1, by omega⟩
      have hk2 : MAX_DETAIL_LINES - (n + 1) = k := by omega
      cases hc : d.change with
      | DIFF_UNCHANGED => exact absurd hc hd
      | DIFF_ADDED =>
        simp only [detail_loop, hn, if_true, hc, ih _ _ hds, hk, hk2, List.map_cons,
          List.take_succ_cons, List.append_assoc, List.singleton_append, List.length_cons,
          Prod.mk.injEq, true_and]
        omega
      | DIFF_REMOVED =>
        simp only [detail_loop, hn, if_true, hc, ih _ _ hds, hk, hk2, List.map_cons,
          List.take_succ_cons, List.append_assoc, List.singleton_append, List.length_cons,
          Prod.mk.injEq, true_and]
        omega
      | DIFF_MODIFIED =>
        simp only [detail_loop, hn, if_true, hc, ih _ _ hds, hk, hk2, List.map_cons,
          List.take_succ_cons, List.append_assoc, List.singleton_append, List.length_cons,
          Prod.mk.injEq, true_and]
        omega
    · have h0 : MAX_DETAIL_LINES - n = 0 := by omega
      simp [detail_loop, hn, h0]

end trailer

theorem format_diff_trailer_eq (path : String) (diff : ag_diff_result_t)
    (h : diff_result_wf diff) :
    format_diff_trailer path diff =
      [trailer_line.header path,
       trailer_line.counts diff.cells_added diff.cells_removed diff.cells_modified
         diff.surfs_added diff.surfs_removed diff.surfs_modified] ++
      (all_details diff).take 30 ++
      (if (all_details diff).length > 30 then [trailer_line.more ((all_details diff).length - 30)]
       else []) := by
  obtain ⟨hs, hc, hsn, hcn⟩ := h
  simp only [format_diff_trailer, detail_loop_eq _ _ _ _ hs, detail_loop_eq _ _ _ _ hc, hsn, hcn,
    all_details, MAX_DETAIL_LINES, List.take_append_eq_append_take, List.length_map,
    List.length_append, List.append_assoc, Nat.sub_zero, Nat.zero_add]
  have e1 : 30 - min diff.surfaces.length 30 = 30 - diff.surfaces.length := by omega
  rw [e1]
  split_ifs with h1 h2 h2
  · simp only [List.append_assoc, List.cons_append, List.nil_append]
    congr 6
    omega
  · omega
  · omega
  · simp

theorem ag_diff_wf (old new : ag_fingerprint_set_t) : diff_result_wf (ag_diff old new) := by
  have hs := diff_list_change ag_surface_fp_t.surface_id ag_surface_fp_compare
    ag_surface_fp_diff ag_surface_fp_zero (old.surfaces.length + new.surfaces.length)
    old.surfaces new.surfaces
  have hc := diff_list_change ag_cell_fp_t.cell_id ag_cell_fp_compare
    ag_cell_fp_diff ag_cell_fp_zero (old.cells.length + new.cells.length)
    old.cells new.cells
  refine ⟨?_, ?_, ?_, ?_⟩
  · intro e he h
    rw [ag_diff_surfaces_eq] at he
    rcases hs e he with h' | h' | h' <;> rw [h] at h' <;> cases h'
  · intro e he h
    rw [ag_diff_cells_eq] at he
    rcases hc e he with h' | h' | h' <;> rw [h] at h' <;> cases h'
  · simp [ag_diff, diff_walk_eq, diff_state.init]
  · simp [ag_diff, diff_walk_eq, diff_state.init]

/-- C24: for every result `diff` of `ag_diff`, with `N = surface_count +
cell_count`, the trailer is the header line, the counts line, the first
`min(N, 30)` of the detail lines of all entries (surfaces before cells, in
result order), and then one overflow line announcing `N - 30` more when
`N > 30` and nothing when `N ≤ 30`. -/
theorem format_diff_trailer_lines (path : String) (old_fp new_fp : ag_fingerprint_set_t) :
    format_diff_trailer path (ag_diff old_fp new_fp) =
      [trailer_line.header path,
       trailer_line.counts (ag_diff old_fp new_fp).cells_added
         (ag_diff old_fp new_fp).cells_removed (ag_diff old_fp new_fp).cells_modified
         (ag_diff old_fp new_fp).surfs_added (ag_diff old_fp new_fp).surfs_removed
         (ag_diff old_fp new_fp).surfs_modified] ++
      ((ag_diff old_fp new_fp).surfaces.map trailer_line.surface_detail ++
        (ag_diff old_fp new_fp).cells.map trailer_line.cell_detail).take 30 ++
      (if (ag_diff old_fp new_fp).surface_count + (ag_diff old_fp new_fp).cell_count > 30 then
        [trailer_line.more
          ((ag_diff old_fp new_fp).surface_count + (ag_diff old_fp new_fp).cell_count - 30)]
       else []) ∧
    (((ag_diff old_fp new_fp).surfaces.map trailer_line.surface_detail ++
        (ag_diff old_fp new_fp).cells.map trailer_line.cell_detail).take 30).length =
      min ((ag_diff old_fp new_fp).surface_count + (ag_diff old_fp new_fp).cell_count) 30 := by
  have hwf := ag_diff_wf old_fp new_fp
  have hlen : (all_details (ag_diff old_fp new_fp)).length =
      (ag_diff old_fp new_fp).surface_count + (ag_diff old_fp new_fp).cell_count := by
    rw [hwf.2.2.1, hwf.2.2.2]
    simp [all_details]
  constructor
  · rw [format_diff_trailer_eq path _ hwf, hlen]
    rfl
  · rw [← hlen, List.length_take, Nat.min_comm]
    rfl

theorem format_diff_trailer_lines_witness :
    (format_diff_trailer "model.inp" (ag_diff many_old empty_set)).length = 2 + 30 + 1 ∧
    (format_diff_trailer "model.inp" (ag_diff many_old empty_set)).getLast? =
      some (trailer_line.more 5) ∧
    (format_diff_trailer "model.inp" (ag_diff sample_old sample_new)).length = 2 + 4 := by
  have h1 := (format_diff_trailer_lines "model.inp" many_old empty_set).1
  have h2 := (format_diff_trailer_lines "model.inp" sample_old sample_new).1
  rw [h1, h2]
  refine ⟨by decide!, by decide!, by decide!⟩

/-! ### The .gitattributes step -/

theorem gitattributes_step_long (content : List Char) (hlen : 1023 ≤ content.length)
    (hno : c_strstr ((content.take 1023).takeWhile (fun c => c ≠ Char.ofNat 0))
      "diff=mcnp".toList = false) (tail : List Char) :
    gitattributes_step (some (content ++ tail)) =
      some (content ++ tail ++ "\n".toList ++ GITATTRIBUTES_CONTENT) := by
  have ht : (content ++ tail).take 1023 = content.take 1023 := by
    rw [List.take_append_of_le_length hlen]
  simp only [gitattributes_step, ht, hno, Bool.false_eq_true, if_false]

/-- C27 fails on a `.gitattributes` of 1023 characters that does not contain
`diff=mcnp`: the step reads only the first 1023 characters, so it appends the
patterns on the first run and again on the second run. For a missing file and
for a short file the second run changes nothing. -/
theorem gitattributes_step_not_idempotent :
    (gitattributes_step none).bind (fun f => gitattributes_step (some f)) =
      gitattributes_step none ∧
    (gitattributes_step (some "*.txt text\n".toList)).bind
        (fun f => gitattributes_step (some f)) =
      gitattributes_step (some "*.txt text\n".toList) ∧
    long_attributes.length = 1023 ∧
    gitattributes_step (some long_attributes) =
      some (long_attributes ++ "\n".toList ++ GITATTRIBUTES_CONTENT) ∧
    (gitattributes_step (some long_attributes)).bind (fun f => gitattributes_step (some f)) =
      some (long_attributes ++ "\n".toList ++ GITATTRIBUTES_CONTENT ++ "\n".toList ++
        GITATTRIBUTES_CONTENT) ∧
    (gitattributes_step (some long_attributes)).bind (fun f => gitattributes_step (some f)) ≠
      gitattributes_step (some long_attributes) := by
  have hl : long_attributes.length = 1023 := by decide!
  have hno : c_strstr ((long_attributes.take 1023).takeWhile (fun c => c ≠ Char.ofNat 0))
      "diff=mcnp".toList = false := by decide!
  have h1 := gitattributes_step_long long_attributes (le_of_eq hl.symm) hno []
  have h2 := gitattributes_step_long long_attributes (le_of_eq hl.symm) hno
    ("\n".toList ++ GITATTRIBUTES_CONTENT)
  rw [List.append_nil] at h1
  rw [← List.append_assoc] at h2
  refine ⟨by decide!, by decide!, hl, h1, ?_, ?_⟩
  · rw [h1, Option.some_bind, h2]
  · rw [h1, Option.some_bind, h2]
    intro h
    have := congrArg (fun o => (o.map List.length)) h
    simp only [Option.map_some', List.length_append, Option.some.injEq] at this
    have hc : 0 < GITATTRIBUTES_CONTENT.length := by decide
    have hn : ("\n".toList).length = 1 := by decide
    omega

/-! ### Slice selection -/

section select

variable {β : Type} (sc : β → slice_score_t)

theorem keep_better_by_fold (l : List β) (b : β) :
    (l.foldl (keep_better_by sc) b = b ∧ ∀ x ∈ l, ¬ score_lt (sc b) (sc x)) ∨
    (∃ (i : Nat) (r : β), l[i]? = some r ∧ l.foldl (keep_better_by sc) b = r ∧ score_lt (sc b) (sc r) ∧
      (∀ x ∈ l, score_le (sc x) (sc r)) ∧
      ∀ (j : Nat) (x : β), j < i → l[j]? = some x → score_lt (sc x) (sc r)) := by
  induction l generalizing b with
  | nil => exact Or.inl ⟨rfl, fun x hx => by cases hx⟩
  | cons x xs ih =>
    rw [List.foldl_cons]
    by_cases hbx : score_lt (sc b) (sc x)
    · have hk : keep_better_by sc b x = x := by
        unfold keep_better_by
        rw [if_pos]
        unfold score_lt at hbx
        omega
      rw [hk]
      rcases ih x with ⟨hf, hall⟩ | ⟨i, r, hi, hf, hlt, hall, hbefore⟩
      · refine Or.inr ⟨0, x, List.getElem?_cons_zero, hf, hbx, ?_,
          fun j y hj => absurd hj (by omega)⟩
        intro y hy
        rcases List.mem_cons.1 hy with rfl | hy
        · unfold score_le; omega
        · have := hall y hy
          unfold score_lt at this
          unfold score_le
          omega
      · refine Or.inr ⟨i + 1, r, by simpa using hi, hf, ?_, ?_, ?_⟩
        · unfold score_lt at hbx hlt ⊢; omega
        · intro y hy
          rcases List.mem_cons.1 hy with rfl | hy
          · unfold score_lt at hlt; unfold score_le; omega
          · exact hall y hy
        · intro j y hj hy
          cases j with
          | zero =>
            simp only [List.getElem?_cons_zero, Option.some.injEq] at hy
            subst hy
            exact hlt
          | succ j =>
            simp only [List.getElem?_cons_succ] at hy
            exact hbefore j y (by omega) hy
    · have hk : keep_better_by sc b x = b := by
        unfold keep_better_by
        rw [if_neg]
        unfold score_lt at hbx
        omega
      rw [hk]
      rcases ih b with ⟨hf, hall⟩ | ⟨i, r, hi, hf, hlt, hall, hbefore⟩
      · refine Or.inl ⟨hf, ?_⟩
        intro y hy
        rcases List.mem_cons.1 hy with rfl | hy
        · exact hbx
        · exact hall y hy
      · refine Or.inr ⟨i + 1, r, by simpa using hi, hf, hlt, ?_, ?_⟩
        · intro y hy
          rcases List.mem_cons.1 hy with rfl | hy
          · unfold score_lt at hbx hlt; unfold score_le; omega
          · exact hall y hy
        · intro j y hj hy
          cases j with
          | zero =>
            simp only [List.getElem?_cons_zero, Option.some.injEq] at hy
            subst hy
            unfold score_lt at hbx hlt ⊢; omega
          | succ j =>
            simp only [List.getElem?_cons_succ] at hy
            exact hbefore j y (by omega) hy

end select

theorem count_pixels_eq (n : Nat) (co cn mo mn : List Int) :
    count_pixels n co cn mo mn =
      ((((List.range n).countP
          (fun i => decide (co.getD i 0 ≠ cn.getD i 0 ∨ mo.getD i 0 ≠ mn.getD i 0)) : Nat) : Int),
       (((List.range n).countP
          (fun i => decide (co.getD i 0 > 0 ∨ cn.getD i 0 > 0)) : Nat) : Int)) := by
  unfold count_pixels
  induction n with
  | zero => simp
  | succ n ih =>
    rw [List.range_succ, List.foldl_append, ih, List.countP_append, List.countP_append]
    simp only [List.foldl_cons, List.foldl_nil, List.countP_cons, List.countP_nil,
      Bool.or_eq_true, decide_eq_true_eq, Prod.mk.injEq]
    constructor
    · split_ifs <;> push_cast <;> omega
    · split_ifs <;> push_cast <;> omega

theorem slice_sample_diff_nonneg (grid : grid_finder) (old_sys new_sys : alea_system_t)
    (axis : ag_slice_axis_t) (inner_bb : alea_bbox_t) (s : Nat) :
    0 ≤ (slice_sample grid old_sys new_sys axis inner_bb s).diff_count := by
  simp only [slice_sample, count_pixels_eq]
  exact Int.natCast_nonneg _

theorem find_best_eq_fold (grid : grid_finder) (old_sys new_sys : alea_system_t)
    (axis : ag_slice_axis_t) (inner_bb : alea_bbox_t) :
    find_best_slice_for_axis grid old_sys new_sys axis inner_bb =
      ((List.range N_SAMPLES).map (slice_sample grid old_sys new_sys axis inner_bb)).foldl
        (keep_better_by id)
        { pos := ((bbox_axis_range inner_bb axis).1 + (bbox_axis_range inner_bb axis).2) * (1 / 2),
          diff_count := -1, geom_count := 0 } := by
  rw [List.foldl_map]
  rfl

theorem find_best_first_max (grid : grid_finder) (old_sys new_sys : alea_system_t)
    (axis : ag_slice_axis_t) (inner_bb : alea_bbox_t) :
    ∃ s, s < 20 ∧
      find_best_slice_for_axis grid old_sys new_sys axis inner_bb =
        slice_sample grid old_sys new_sys axis inner_bb s ∧
      (∀ j, j < 20 → score_le (slice_sample grid old_sys new_sys axis inner_bb j)
        (slice_sample grid old_sys new_sys axis inner_bb s)) ∧
      (∀ j, j < s → score_lt (slice_sample grid old_sys new_sys axis inner_bb j)
        (slice_sample grid old_sys new_sys axis inner_bb s)) := by
  rw [find_best_eq_fold]
  have hget : ∀ (i : Nat) (r : slice_score_t),
      ((List.range N_SAMPLES).map (slice_sample grid old_sys new_sys axis inner_bb))[i]? =
        some r → i < 20 ∧ r = slice_sample grid old_sys new_sys axis inner_bb i := by
    intro i r h
    rw [List.getElem?_map] at h
    by_cases hi : i < N_SAMPLES
    · rw [List.getElem?_range hi] at h
      simp only [Option.map_some', Option.some.injEq] at h
      exact ⟨hi, h.symm⟩
    · rw [List.getElem?_eq_none (by simpa using hi)] at h
      cases h
  have hmem : ∀ j, j < 20 → slice_sample grid old_sys new_sys axis inner_bb j ∈
      (List.range N_SAMPLES).map (slice_sample grid old_sys new_sys axis inner_bb) :=
    fun j hj => List.mem_map.2 ⟨j, List.mem_range.2 hj, rfl⟩
  rcases keep_better_by_fold id
    ((List.range N_SAMPLES).map (slice_sample grid old_sys new_sys axis inner_bb))
    { pos := ((bbox_axis_range inner_bb axis).1 + (bbox_axis_range inner_bb axis).2) * (1 / 2),
      diff_count := -1, geom_count := 0 } with ⟨_, hall⟩ | ⟨i, r, hi, hf, _, hall, hbefore⟩
  · exfalso
    have h0 := hall _ (hmem 0 (by decide))
    have hn := slice_sample_diff_nonneg grid old_sys new_sys axis inner_bb 0
    apply h0
    unfold score_lt
    simp only [id]
    omega
  · obtain ⟨hi20, rfl⟩ := hget i r hi
    refine ⟨i, hi20, hf, fun j hj => hall _ (hmem j hj), fun j hj => ?_⟩
    exact hbefore j _ hj (by
      rw [List.getElem?_map, List.getElem?_range (show j < N_SAMPLES by unfold N_SAMPLES; omega)]
      rfl)

theorem find_best_diff_nonneg (grid : grid_finder) (old_sys new_sys : alea_system_t)
    (axis : ag_slice_axis_t) (inner_bb : alea_bbox_t) :
    0 ≤ (find_best_slice_for_axis grid old_sys new_sys axis inner_bb).diff_count := by
  obtain ⟨s, _, hs, _⟩ := find_best_first_max grid old_sys new_sys axis inner_bb
  rw [hs]
  exact slice_sample_diff_nonneg _ _ _ _ _ _

theorem auto_select_eq_fold (grid : grid_finder) (old_sys new_sys : alea_system_t)
    (inner_bb : alea_bbox_t) :
    auto_select grid old_sys new_sys inner_bb =
      ([ag_slice_axis_t.AG_AXIS_X, .AG_AXIS_Y, .AG_AXIS_Z].map
          (fun a => (a, find_best_slice_for_axis grid old_sys new_sys a inner_bb))).foldl
        (keep_better_by Prod.snd)
        (.AG_AXIS_Z, { pos := 0, diff_count := -1, geom_count := 0 }) := by
  rw [List.foldl_map]
  rfl

theorem auto_select_first_max (grid : grid_finder) (old_sys new_sys : alea_system_t)
    (inner_bb : alea_bbox_t) :
    ∃ axis,
      auto_select grid old_sys new_sys inner_bb =
        (axis, find_best_slice_for_axis grid old_sys new_sys axis inner_bb) ∧
      (∀ a, score_le (find_best_slice_for_axis grid old_sys new_sys a inner_bb)
        (find_best_slice_for_axis grid old_sys new_sys axis inner_bb)) ∧
      (∀ a, axis_index a < axis_index axis →
        score_lt (find_best_slice_for_axis grid old_sys new_sys a inner_bb)
          (find_best_slice_for_axis grid old_sys new_sys axis inner_bb)) := by
  rw [auto_select_eq_fold]
  have hmem : ∀ a : ag_slice_axis_t,
      (a, find_best_slice_for_axis grid old_sys new_sys a inner_bb) ∈
        [ag_slice_axis_t.AG_AXIS_X, .AG_AXIS_Y, .AG_AXIS_Z].map
          (fun a => (a, find_best_slice_for_axis grid old_sys new_sys a inner_bb)) := by
    intro a
    cases a <;> simp
  have hidx : ∀ a : ag_slice_axis_t,
      ([ag_slice_axis_t.AG_AXIS_X, .AG_AXIS_Y, .AG_AXIS_Z].map
          (fun a => (a, find_best_slice_for_axis grid old_sys new_sys a inner_bb)))[axis_index a]? =
        some (a, find_best_slice_for_axis grid old_sys new_sys a inner_bb) := by
    intro a
    cases a <;> rfl
  rcases keep_better_by_fold Prod.snd
    ([ag_slice_axis_t.AG_AXIS_X, .AG_AXIS_Y, .AG_AXIS_Z].map
      (fun a => (a, find_best_slice_for_axis grid old_sys new_sys a inner_bb)))
    (.AG_AXIS_Z, { pos := 0, diff_count := -1, geom_count := 0 })
    with ⟨_, hall⟩ | ⟨i, r, hi, hf, _, hall, hbefore⟩
  · exfalso
    have h0 := hall _ (hmem .AG_AXIS_X)
    have hn := find_best_diff_nonneg grid old_sys new_sys .AG_AXIS_X inner_bb
    apply h0
    unfold score_lt
    dsimp only
    omega
  · have hr : ∃ axis, axis_index axis = i ∧
        r = (axis, find_best_slice_for_axis grid old_sys new_sys axis inner_bb) := by
      rcases i with _ | _ | _ | i
      · exact ⟨.AG_AXIS_X, rfl, by simpa using hi.symm⟩
      · exact ⟨.AG_AXIS_Y, rfl, by simpa using hi.symm⟩
      · exact ⟨.AG_AXIS_Z, rfl, by simpa using hi.symm⟩
      · simp at hi
    obtain ⟨axis, hax, rfl⟩ := hr
    refine ⟨axis, hf, fun a => ?_, fun a ha => ?_⟩
    · have h1 := hall (a, find_best_slice_for_axis grid old_sys new_sys a inner_bb) (hmem a)
      dsimp only at h1
      exact h1
    · have h1 := hbefore (axis_index a)
        (a, find_best_slice_for_axis grid old_sys new_sys a inner_bb) (by omega) (hidx a)
      dsimp only at h1
      exact h1

/-- C28: for every axis `find_best_slice_for_axis` returns one of the 20
samples, the first one whose `(diff, geom)` pair is the lexicographic maximum;
sample `s` lies at `lo + s/19 * (hi - lo)`, its `diff` counts the pixels of the
two 32×32 rasters whose cell id or material id disagree and its `geom` the
pixels where either cell id is positive; `auto_select` returns the axis whose
result is the lexicographic maximum, the one with the lowest enum value (X
before Y before Z) on ties, with that axis's result. -/
theorem find_best_slice_lex_max (grid : grid_finder) (old_sys new_sys : alea_system_t)
    (inner_bb : alea_bbox_t) :
    (∀ axis, ∃ s, s < 20 ∧
      find_best_slice_for_axis grid old_sys new_sys axis inner_bb =
        slice_sample grid old_sys new_sys axis inner_bb s ∧
      (∀ j, j < 20 → score_le (slice_sample grid old_sys new_sys axis inner_bb j)
        (slice_sample grid old_sys new_sys axis inner_bb s)) ∧
      (∀ j, j < s → score_lt (slice_sample grid old_sys new_sys axis inner_bb j)
        (slice_sample grid old_sys new_sys axis inner_bb s))) ∧
    (∀ (axis : ag_slice_axis_t) (s : Nat), ∃ (pos : ℚ) (g_old g_new : List Int × List Int),
      pos = (bbox_axis_range inner_bb axis).1 +
        (s : ℚ) / 19 * ((bbox_axis_range inner_bb axis).2 - (bbox_axis_range inner_bb axis).1) ∧
      g_old = grid old_sys axis pos (bbox_uv_range inner_bb axis) ∧
      g_new = grid new_sys axis pos (bbox_uv_range inner_bb axis) ∧
      slice_sample grid old_sys new_sys axis inner_bb s =
        { pos := pos,
          diff_count := (((List.range 1024).countP (fun i =>
            decide (g_old.1.getD i 0 ≠ g_new.1.getD i 0 ∨ g_old.2.getD i 0 ≠ g_new.2.getD i 0)) :
              Nat) : Int),
          geom_count := (((List.range 1024).countP (fun i =>
            decide (g_old.1.getD i 0 > 0 ∨ g_new.1.getD i 0 > 0)) : Nat) : Int) }) ∧
    (∃ axis,
      auto_select grid old_sys new_sys inner_bb =
        (axis, find_best_slice_for_axis grid old_sys new_sys axis inner_bb) ∧
      (∀ a, score_le (find_best_slice_for_axis grid old_sys new_sys a inner_bb)
        (find_best_slice_for_axis grid old_sys new_sys axis inner_bb)) ∧
      (∀ a, axis_index a < axis_index axis →
        score_lt (find_best_slice_for_axis grid old_sys new_sys a inner_bb)
          (find_best_slice_for_axis grid old_sys new_sys axis inner_bb))) := by
  refine ⟨fun axis => find_best_first_max grid old_sys new_sys axis inner_bb, ?_,
    auto_select_first_max grid old_sys new_sys inner_bb⟩
  intro axis s
  refine ⟨_, _, _, rfl, rfl, rfl, ?_⟩
  simp only [slice_sample, count_pixels_eq, N_SAMPLES, SAMPLE_RES]
  norm_num

/-! ### Colours -/

theorem and_127_le (h : Nat) : h &&& 0x7F ≤ 127 := Nat.and_le_right

theorem and_127_eq_mod (h : Nat) : h &&& 0x7F = h % 128 :=
  Nat.and_pow_two_sub_one_eq_mod h 7

/-- C21: for every id > 0 each channel of `id_to_color` is 80 plus seven bits of
`h = (id mod 2^32) * 2654435761 mod 2^32` (bits 0-6, 8-14 and 16-22), hence in
`[80, 207]`; for every id ≤ 0 the colour is `(40, 40, 40)`. -/
theorem id_to_color_range (id : Int) :
    (0 < id →
      (id_to_color id).r = 80 + ((id % 4294967296).toNat * 2654435761) % 4294967296 % 128 ∧
      (id_to_color id).g =
        80 + ((id % 4294967296).toNat * 2654435761) % 4294967296 / 256 % 128 ∧
      (id_to_color id).b =
        80 + ((id % 4294967296).toNat * 2654435761) % 4294967296 / 65536 % 128 ∧
      (80 ≤ (id_to_color id).r ∧ (id_to_color id).r ≤ 207) ∧
      (80 ≤ (id_to_color id).g ∧ (id_to_color id).g ≤ 207) ∧
      (80 ≤ (id_to_color id).b ∧ (id_to_color id).b ≤ 207)) ∧
    (id ≤ 0 → id_to_color id = { r := 40, g := 40, b := 40 }) := by
  constructor
  · intro h
    have hn : ¬ id ≤ 0 := by omega
    simp only [id_to_color, hn, if_false, and_127_eq_mod, Nat.shiftRight_eq_div_pow]
    norm_num
    omega
  · intro h
    simp [id_to_color, h]

theorem id_to_color_range_witness :
    id_to_color 3 = { r := 80 + 19, g := 80 + 109, b := 80 + 38 } ∧
    id_to_color 0 = { r := 40, g := 40, b := 40 } :=
  ⟨by decide, (id_to_color_range 0).2 (by decide)⟩

/-! ### Density scenario -/

theorem ag_diff_one_cell (c : ag_cell_fp_t) (d : ℚ) :
    ag_diff (one_cell_set c) (one_cell_set { c with density := d }) =
      if density_changed c.density d = true then
        { ag_diff_result_empty with
          cells := [{ change := .DIFF_MODIFIED, id := c.cell_id, flags := CELL_CHG_DENSITY,
                      old_fp := c, new_fp := { c with density := d } }],
          cell_count := 1, cells_modified := 1 }
      else ag_diff_result_empty := by
  by_cases h : density_changed c.density d = true
  · simp [ag_diff, one_cell_set, diff_walk, diff_state.init, ag_cell_fp_compare, ag_cell_fp_diff,
      h, emit_modified, entry_modified, ag_diff_result_empty, CELL_CHG_DENSITY]
  · simp [ag_diff, one_cell_set, diff_walk, diff_state.init, ag_cell_fp_compare, h,
      ag_diff_result_empty]

/-- C25: for a cell with density 1.0 as the only content of `old` (whatever
its other fields; the scenario has material 3 and universe 1), and the same
cell with density `1.0 + 5e-7` as `new`, `ag_diff` returns no entries and all
counters 0; with density 1.1 it returns exactly one cell entry, `DIFF_MODIFIED`
with flags `CELL_CHG_DENSITY` alone, `old_fp` the old cell and `new_fp` the cell
with density 1.1, and `cells_modified = 1` as the only non-zero counter. -/
theorem ag_diff_density_scenario (c : ag_cell_fp_t) (hd : c.density = 1) :
    ag_diff (one_cell_set c) (one_cell_set { c with density := 1 + 5 / 10000000 }) =
      ag_diff_result_empty ∧
    ag_diff (one_cell_set c) (one_cell_set { c with density := 11 / 10 }) =
      { ag_diff_result_empty with
        cells := [{ change := .DIFF_MODIFIED, id := c.cell_id, flags := CELL_CHG_DENSITY,
                    old_fp := c, new_fp := { c with density := 11 / 10 } }],
        cell_count := 1, cells_modified := 1 } := by
  have h1 : density_changed c.density (1 + 5 / 10000000) = false := by rw [hd]; decide!
  have h2 : density_changed c.density (11 / 10) = true := by rw [hd]; decide!
  constructor
  · rw [ag_diff_one_cell, h1]; rfl
  · rw [ag_diff_one_cell, h2]; rfl

theorem ag_diff_density_scenario_witness :
    density_cell.material_id = 3 ∧ density_cell.density = 1 ∧ density_cell.universe_id = 1 ∧
    ag_diff (one_cell_set density_cell)
        (one_cell_set { density_cell with density := 1 + 5 / 10000000 }) =
      ag_diff_result_empty ∧
    (ag_diff (one_cell_set density_cell)
        (one_cell_set { density_cell with density := 11 / 10 })).cells.map
          (fun e => (e.change, e.flags, e.old_fp.density, e.new_fp.density)) =
      [(.DIFF_MODIFIED, 2, 1, 11 / 10)] :=
  ⟨rfl, rfl, rfl, (ag_diff_density_scenario density_cell rfl).1,
   by rw [(ag_diff_density_scenario density_cell rfl).2]; decide!⟩

/-! ### Type-change scenario -/

theorem fnv_step_lt (h b : Nat) :
    ((h ^^^ b) * FNV_PRIME) % 18446744073709551616 < 18446744073709551616 :=
  Nat.mod_lt _ (by norm_num)

theorem fnv_step_inj (h₁ h₂ b : Nat) (hh₁ : h₁ < 18446744073709551616)
    (hh₂ : h₂ < 18446744073709551616) (hb : b < 18446744073709551616)
    (he : ((h₁ ^^^ b) * FNV_PRIME) % 18446744073709551616 =
      ((h₂ ^^^ b) * FNV_PRIME) % 18446744073709551616) : h₁ = h₂ := by
  have hx₁ : h₁ ^^^ b < 2 ^ 64 := Nat.xor_lt_two_pow (by simpa using hh₁) (by simpa using hb)
  have hx₂ : h₂ ^^^ b < 2 ^ 64 := Nat.xor_lt_two_pow (by simpa using hh₂) (by simpa using hb)
  have hm : (h₁ ^^^ b) * FNV_PRIME ≡ (h₂ ^^^ b) * FNV_PRIME [MOD 18446744073709551616] := he
  have hq : FNV_PRIME * 14886173955864302971 ≡ 1 [MOD 18446744073709551616] := by
    unfold FNV_PRIME
    decide
  have h1 : (h₁ ^^^ b) * (FNV_PRIME * 14886173955864302971) ≡
      (h₂ ^^^ b) * (FNV_PRIME * 14886173955864302971) [MOD 18446744073709551616] := by
    rw [← mul_assoc, ← mul_assoc]
    exact hm.mul_right _
  have h2 : (h₁ ^^^ b) * 1 ≡ (h₂ ^^^ b) * 1 [MOD 18446744073709551616] :=
    ((Nat.ModEq.mul_left _ hq).symm.trans h1).trans (Nat.ModEq.mul_left _ hq)
  rw [mul_one, mul_one] at h2
  have h3 : h₁ ^^^ b = h₂ ^^^ b :=
    Nat.ModEq.eq_of_lt_of_lt h2 (by simpa using hx₁) (by simpa using hx₂)
  have h4 := congrArg (fun x => x ^^^ b) h3
  dsimp only at h4
  rwa [Nat.xor_cancel_right, Nat.xor_cancel_right] at h4

theorem fnv_feed_inj (d : List Nat) (hd : ∀ b ∈ d, b < 256) (h₁ h₂ : Nat)
    (hh₁ : h₁ < 18446744073709551616) (hh₂ : h₂ < 18446744073709551616)
    (he : fnv_feed h₁ d = fnv_feed h₂ d) : h₁ = h₂ := by
  induction d generalizing h₁ h₂ with
  | nil => simpa [fnv_feed] using he
  | cons b d ih =>
    have hb : b < 256 := hd b (List.mem_cons_self _ _)
    rw [fnv_feed_cons, fnv_feed_cons] at he
    have := ih (fun x hx => hd x (List.mem_cons_of_mem _ hx)) _ _ (fnv_step_lt h₁ b)
      (fnv_step_lt h₂ b) he
    exact fnv_step_inj h₁ h₂ b hh₁ hh₂ (by omega) this

theorem bytes_of_u64_lt (x : Nat) : ∀ b ∈ bytes_of_u64 x, b < 256 := by
  intro b hb
  simp only [bytes_of_u64, List.mem_map] at hb
  obtain ⟨i, _, rfl⟩ := hb
  exact Nat.mod_lt _ (by norm_num)

theorem fnv_int_lt (h : Nat) (v : Int) : fnv_int h v < 18446744073709551616 :=
  fnv_feed_lt _ _ (by simp [bytes_of_u64_eq])

theorem fnv_int_inj (v : Int) (h₁ h₂ : Nat) (hh₁ : h₁ < 18446744073709551616)
    (hh₂ : h₂ < 18446744073709551616) (he : fnv_int h₁ v = fnv_int h₂ v) : h₁ = h₂ :=
  fnv_feed_inj _ (bytes_of_u64_lt _) h₁ h₂ hh₁ hh₂ he

theorem fnv_init_lt : fnv_init < 18446744073709551616 := by decide

theorem fnv_int_tag_inj (t₁ t₂ : Int) (h₁ : 0 ≤ t₁ ∧ t₁ ≤ 255) (h₂ : 0 ≤ t₂ ∧ t₂ ≤ 255)
    (he : fnv_int fnv_init t₁ = fnv_int fnv_init t₂) : t₁ = t₂ := by
  obtain ⟨a, rfl⟩ : ∃ a : Nat, t₁ = a := ⟨t₁.toNat, by omega⟩
  obtain ⟨b, rfl⟩ : ∃ b : Nat, t₂ = b := ⟨t₂.toNat, by omega⟩
  have ha : a < 256 := by omega
  have hb : b < 256 := by omega
  have ea : int64_bits (a : Int) = a := by
    unfold int64_bits
    omega
  have eb : int64_bits (b : Int) = b := by
    unfold int64_bits
    omega
  have ba : bytes_of_u64 a = a :: [0, 0, 0, 0, 0, 0, 0] := by
    rw [bytes_of_u64_eq]
    simp only [List.cons.injEq, and_true]
    omega
  have bb : bytes_of_u64 b = b :: [0, 0, 0, 0, 0, 0, 0] := by
    rw [bytes_of_u64_eq]
    simp only [List.cons.injEq, and_true]
    omega
  simp only [fnv_int, ea, eb, ba, bb] at he
  rw [fnv_feed_cons fnv_init a, fnv_feed_cons fnv_init b] at he
  have h3 := fnv_feed_inj [0, 0, 0, 0, 0, 0, 0]
    (by intro x hx; simp only [List.mem_cons, List.mem_nil_iff, or_false, or_self] at hx; omega)
    (((fnv_init ^^^ a) * FNV_PRIME) % 18446744073709551616)
    (((fnv_init ^^^ b) * FNV_PRIME) % 18446744073709551616) (fnv_step_lt _ a)
    (fnv_step_lt _ b) he
  have h6 : a = b :=
    fnv_step_inj a b fnv_init (by omega) (by omega) fnv_init_lt
      (by rw [Nat.xor_comm a, Nat.xor_comm b]; exact h3)
  rw [h6]

theorem surface_data_hash_eq (sys : alea_system_t) (s : alea_surface_t) :
    (surface_fingerprint sys s).data_hash =
      ((surface_data sys s).getD []).foldl fnv_double (fnv_int fnv_init s.ptype) := by
  unfold surface_fingerprint surface_data
  by_cases h : s.pos_node ≠ ALEA_NODE_ID_INVALID
  · rw [if_pos h]
    dsimp only
    rw [if_pos h]
    cases sys.primitive_data s.pos_node with
    | none => simp only [Option.getD_none, List.foldl_nil]
    | some dp => simp only [Option.getD_some]
  · rw [if_neg h]
    dsimp only
    rw [if_neg h]
    simp only [Option.getD_none, List.foldl_nil]

section blame_frame

variable {α : Type} (key : α → Int) (cmp : α → α → Int)

theorem blame_set_id (c : git_commit_t) (e : blame_entry_t) : (blame_set c e).id = e.id := rfl

theorem blame_update_cases (c : git_commit_t) (old : List α) (e : blame_entry_t) (cur : α) :
    ((∀ o ∈ old, key o = e.id → cmp cur o ≠ 0) → blame_update key cmp c old e cur = e) ∧
    (blame_update key cmp c old e cur = e ∨
      (blame_update key cmp c old e cur = blame_set c e ∧
        ∃ o ∈ old, key o = e.id ∧ cmp cur o = 0)) := by
  unfold blame_update
  cases hf : old.find? (fun o => decide (key o = e.id)) with
  | none => simp
  | some o =>
    have hmem : o ∈ old := List.mem_of_find?_eq_some hf
    have hkey : key o = e.id := by simpa using List.find?_some hf
    by_cases hc : cmp cur o = 0
    · dsimp only
      rw [if_pos hc]
      exact ⟨fun h => absurd hc (h o hmem hkey), Or.inr ⟨rfl, o, hmem, hkey, hc⟩⟩
    · simp [hc]

theorem blame_update_id (c : git_commit_t) (old : List α) (e : blame_entry_t) (cur : α) :
    (blame_update key cmp c old e cur).id = e.id := by
  rcases (blame_update_cases key cmp c old e cur).2 with h | ⟨h, _⟩ <;> rw [h]
  rfl

theorem blame_update_all_ids (c : git_commit_t) (old : List α) (es : List blame_entry_t)
    (curs : List α) :
    (blame_update_all key cmp c old es curs).map blame_entry_t.id = es.map blame_entry_t.id := by
  induction es generalizing curs with
  | nil => cases curs <;> rfl
  | cons e es ih =>
    cases curs with
    | nil => rfl
    | cons cur curs => simp [blame_update_all, ih, blame_update_id]

theorem blame_update_all_get (c : git_commit_t) (old : List α) (es : List blame_entry_t)
    (curs : List α) (i : Nat) (e : blame_entry_t) (cur : α)
    (he : es[i]? = some e) (hc : curs[i]? = some cur) :
    (blame_update_all key cmp c old es curs)[i]? = some (blame_update key cmp c old e cur) := by
  induction es generalizing curs i with
  | nil => simp at he
  | cons e0 es ih =>
    cases curs with
    | nil => simp at hc
    | cons c0 curs =>
      cases i with
      | zero =>
        simp only [List.getElem?_cons_zero, Option.some.injEq] at he hc
        subst he hc
        simp [blame_update_all]
      | succ j =>
        simp only [List.getElem?_cons_succ] at he hc
        simpa [blame_update_all] using ih curs j he hc

theorem blame_update_all_frame (c : git_commit_t) (old : List α) (es : List blame_entry_t)
    (curs : List α) (i : Nat) (e : blame_entry_t) (cur : α)
    (he : es[i]? = some e) (hc : curs[i]? = some cur) :
    ((∀ o ∈ old, key o = e.id → cmp cur o ≠ 0) →
      (blame_update_all key cmp c old es curs)[i]? = some e) ∧
    ((blame_update_all key cmp c old es curs)[i]? = some e ∨
      ((blame_update_all key cmp c old es curs)[i]? = some (blame_set c e) ∧
        ∃ o ∈ old, key o = e.id ∧ cmp cur o = 0)) := by
  rw [blame_update_all_get key cmp c old es curs i e cur he hc]
  obtain ⟨h1, h2⟩ := blame_update_cases key cmp c old e cur
  refine ⟨fun h => by rw [h1 h], ?_⟩
  rcases h2 with h | ⟨h, hex⟩
  · exact Or.inl (by rw [h])
  · exact Or.inr ⟨by rw [h], hex⟩

end blame_frame

/-- C29: for a commit processed by `blame_walk_cb` with `first = false`: the
return value is 0, the tip fingerprint set and the ids of all records are
unchanged; a record is left unchanged when the commit's geometry does not
load, or when no fingerprint of the commit with the record's id compares equal
to the tip's fingerprint at the same index (in particular when the id is
absent); and a record that changes is overwritten with the commit's sha,
author and date, the commit holding a fingerprint with that id that compares
equal. The same holds for surfaces. -/
theorem blame_walk_cb_frame (commit : git_commit_t) (b : Nat) (w : blame_walk_t)
    (hf : w.first = false) :
    (blame_walk_cb commit b w).1 = 0 ∧
    (blame_walk_cb commit b w).2.current_fp = w.current_fp ∧
    (blame_walk_cb commit b w).2.cell_blames.map blame_entry_t.id =
      w.cell_blames.map blame_entry_t.id ∧
    (blame_walk_cb commit b w).2.surf_blames.map blame_entry_t.id =
      w.surf_blames.map blame_entry_t.id ∧
    (commit.fp = none → (blame_walk_cb commit b w).2 = w) ∧
    (∀ (i : Nat) (e : blame_entry_t) (cur : ag_cell_fp_t),
      w.cell_blames[i]? = some e → w.current_fp.cells[i]? = some cur →
      ((∀ old, commit.fp = some old →
          ∀ o ∈ old.cells, o.cell_id = e.id → ag_cell_fp_compare cur o ≠ 0) →
        (blame_walk_cb commit b w).2.cell_blames[i]? = some e) ∧
      ((blame_walk_cb commit b w).2.cell_blames[i]? = some e ∨
        ((blame_walk_cb commit b w).2.cell_blames[i]? = some (blame_set commit e) ∧
          ∃ old o, commit.fp = some old ∧ o ∈ old.cells ∧ o.cell_id = e.id ∧
            ag_cell_fp_compare cur o = 0))) ∧
    (∀ (i : Nat) (e : blame_entry_t) (cur : ag_surface_fp_t),
      w.surf_blames[i]? = some e → w.current_fp.surfaces[i]? = some cur →
      ((∀ old, commit.fp = some old →
          ∀ o ∈ old.surfaces, o.surface_id = e.id → ag_surface_fp_compare cur o ≠ 0) →
        (blame_walk_cb commit b w).2.surf_blames[i]? = some e) ∧
      ((blame_walk_cb commit b w).2.surf_blames[i]? = some e ∨
        ((blame_walk_cb commit b w).2.surf_blames[i]? = some (blame_set commit e) ∧
          ∃ old o, commit.fp = some old ∧ o ∈ old.surfaces ∧ o.surface_id = e.id ∧
            ag_surface_fp_compare cur o = 0))) := by
  cases hfp : commit.fp with
  | none =>
    have hw : (blame_walk_cb commit b w).2 = w := by simp [blame_walk_cb, hf, hfp]
    rw [hw]
    refine ⟨blame_walk_cb_ret commit b w, rfl, rfl, rfl, fun _ => rfl, ?_, ?_⟩ <;>
      intro i e cur he _ <;> exact ⟨fun _ => he, Or.inl he⟩
  | some old =>
    have hw : (blame_walk_cb commit b w).2 =
        { w with
          cell_blames := blame_update_all ag_cell_fp_t.cell_id ag_cell_fp_compare commit
            old.cells w.cell_blames w.current_fp.cells
          surf_blames := blame_update_all ag_surface_fp_t.surface_id ag_surface_fp_compare
            commit old.surfaces w.surf_blames w.current_fp.surfaces } := by
      simp [blame_walk_cb, hf, hfp]
    rw [hw]
    refine ⟨?_, ?_, ?_, ?_, ?_, ?_, ?_⟩
    · exact blame_walk_cb_ret commit b w
    · rfl
    · exact blame_update_all_ids _ _ _ _ _ _
    · exact blame_update_all_ids _ _ _ _ _ _
    · intro h
      cases h
    · intro i e cur he hc
      obtain ⟨h1, h2⟩ := blame_update_all_frame ag_cell_fp_t.cell_id ag_cell_fp_compare commit
        old.cells w.cell_blames w.current_fp.cells i e cur he hc
      refine ⟨fun h => h1 (h old rfl), ?_⟩
      rcases h2 with h | ⟨h, o, ho, hk, hcmp⟩
      · exact Or.inl h
      · exact Or.inr ⟨h, old, o, rfl, ho, hk, hcmp⟩
    · intro i e cur he hc
      obtain ⟨h1, h2⟩ := blame_update_all_frame ag_surface_fp_t.surface_id
        ag_surface_fp_compare commit old.surfaces w.surf_blames w.current_fp.surfaces i e cur
        he hc
      refine ⟨fun h => h1 (h old rfl), ?_⟩
      rcases h2 with h | ⟨h, o, ho, hk, hcmp⟩
      · exact Or.inl h
      · exact Or.inr ⟨h, old, o, rfl, ho, hk, hcmp⟩

theorem blame_walk_cb_frame_witness :
    seeded_walk.first = false ∧
    (blame_walk_cb (commit_of "c1" (some 1) (some fp_one_cell_changed)) 1 seeded_walk).2 =
      seeded_walk ∧
    (blame_walk_cb (commit_of "c2" (some 2) (some fp_one_cell)) 2 seeded_walk).2.cell_blames =
      [{ id := 7, sha := "c2", author := "c2", date := "c2" }] ∧
    (blame_walk_cb (commit_of "c2" (some 2) (some fp_one_cell)) 2 seeded_walk).2.current_fp =
      seeded_walk.current_fp :=
  ⟨by decide!, by decide!, by decide!,
   (blame_walk_cb_frame (commit_of "c2" (some 2) (some fp_one_cell)) 2 seeded_walk
     (by decide!)).2.1⟩

/-! ### Sort comparators -/

/-- C30 fails at ids 2147483647 and -2: the 32-bit difference wraps, so
`cmp_cell_fp` and `cmp_surface_fp` return a negative value although the first
id is the larger one, and a positive value in the other direction; for ids
2147483647 and -1 both directions return the same negative value. The sign is
right whenever the difference of the two ids fits 32 bits. -/
theorem cmp_fp_sign_wrong_on_overflow :
    ((-2 : Int) < 2147483647 ∧
      cmp_cell_fp { ag_cell_fp_zero with cell_id := 2147483647 }
        { ag_cell_fp_zero with cell_id := -2 } < 0 ∧
      0 < cmp_cell_fp { ag_cell_fp_zero with cell_id := -2 }
        { ag_cell_fp_zero with cell_id := 2147483647 }) ∧
    (cmp_surface_fp { ag_surface_fp_zero with surface_id := 2147483647 }
        { ag_surface_fp_zero with surface_id := -2 } < 0 ∧
      0 < cmp_surface_fp { ag_surface_fp_zero with surface_id := -2 }
        { ag_surface_fp_zero with surface_id := 2147483647 }) ∧
    (cmp_cell_fp { ag_cell_fp_zero with cell_id := 2147483647 }
        { ag_cell_fp_zero with cell_id := -1 } = -2147483648 ∧
      cmp_cell_fp { ag_cell_fp_zero with cell_id := -1 }
        { ag_cell_fp_zero with cell_id := 2147483647 } = -2147483648) ∧
    (∀ a b : ag_cell_fp_t,
      -2147483648 ≤ a.cell_id - b.cell_id → a.cell_id - b.cell_id < 2147483648 →
      (cmp_cell_fp a b < 0 ↔ a.cell_id < b.cell_id) ∧
      (cmp_cell_fp a b = 0 ↔ a.cell_id = b.cell_id) ∧
      (0 < cmp_cell_fp a b ↔ b.cell_id < a.cell_id)) ∧
    (∀ a b : ag_surface_fp_t,
      -2147483648 ≤ a.surface_id - b.surface_id →
      a.surface_id - b.surface_id < 2147483648 →
      (cmp_surface_fp a b < 0 ↔ a.surface_id < b.surface_id) ∧
      (cmp_surface_fp a b = 0 ↔ a.surface_id = b.surface_id) ∧
      (0 < cmp_surface_fp a b ↔ b.surface_id < a.surface_id)) := by
  refine ⟨⟨by decide, by decide, by decide⟩, ⟨by decide, by decide⟩, ⟨by decide, by decide⟩,
    ?_, ?_⟩
  · intro a b h1 h2
    rw [cmp_cell_fp, wrap_int32_of_bounded _ h1 h2]
    omega
  · intro a b h1 h2
    rw [cmp_surface_fp, wrap_int32_of_bounded _ h1 h2]
    omega

/-! ### Discretisation of hashed doubles -/

theorem grid_point_bound (p : ℚ) (k : Int)
    (h : |p - k| ≤ 1 / 2 - (|(k : ℚ)| + 1) / 2 ^ 53) : |k| < 4503599627370496 := by
  have h0 : (0 : ℚ) ≤ 1 / 2 - (|(k : ℚ)| + 1) / 2 ^ 53 := le_trans (abs_nonneg _) h
  have h1 : |(k : ℚ)| + 1 ≤ 4503599627370496 := by
    have h2 : (|(k : ℚ)| + 1) / 2 ^ 53 ≤ 1 / 2 := by linarith
    rw [div_le_iff₀ (by norm_num)] at h2
    norm_num at h2
    linarith
  have h3 : ((|k| : Int) : ℚ) + 1 ≤ 4503599627370496 := by
    rw [Int.cast_abs]
    exact h1
  have h4 : |k| + 1 ≤ 4503599627370496 := by exact_mod_cast h3
  omega

theorem fnv_double_defined_of_near (v : ℚ) (k : Int)
    (hv : |v * 1000000 - k| ≤ 1 / 2 - (|(k : ℚ)| + 1) / 2 ^ 53) : fnv_double_defined v := by
  unfold fnv_double_defined
  rw [c_round_double_near _ k hv]
  have hb := grid_point_bound _ k hv
  rw [abs_lt] at hb
  constructor <;> omega

theorem fnv_double_of_near (h : Nat) (v : ℚ) (k : Int)
    (hv : |v * 1000000 - k| ≤ 1 / 2 - (|(k : ℚ)| + 1) / 2 ^ 53) :
    fnv_double h v = fnv_int h k := by
  show fnv_int h (c_round (round_to_double (v * 1000000))) = fnv_int h k
  rw [c_round_double_near _ k hv]

theorem fnv_double_congr (v w : ℚ) (hvw : same_grid_point v w) (h : Nat) :
    fnv_double h v = fnv_double h w := by
  obtain ⟨k, hv, hw⟩ := hvw
  rw [fnv_double_of_near h v k hv, fnv_double_of_near h w k hw]

theorem fold_fnv_double_congr (d d' : List ℚ) (hd : List.Forall₂ same_grid_point d d')
    (h : Nat) : d.foldl fnv_double h = d'.foldl fnv_double h := by
  induction hd generalizing h with
  | nil => rfl
  | cons hvw _ ih => rw [List.foldl_cons, List.foldl_cons, fnv_double_congr _ _ hvw, ih]

theorem hash_lattice_congr (info info' : alea_cell_info_t)
    (ht : info.lat_type = info'.lat_type) (hdims : info.lat_fill_dims = info'.lat_fill_dims)
    (hfill : info.lat_fill = info'.lat_fill)
    (hp : ∀ i, same_grid_point (info.lat_pitch i) (info'.lat_pitch i))
    (hl : ∀ i, same_grid_point (info.lat_lower_left i) (info'.lat_lower_left i)) :
    hash_lattice info = hash_lattice info' := by
  rw [hash_lattice_eq, hash_lattice_eq, ← ht]
  by_cases h0 : info.lat_type = 0
  · rw [if_pos h0, if_pos h0]
  · rw [if_neg h0, if_neg h0]
    simp only [lattice_inputs, feed_inputs, ← ht, ← hdims, ← hfill, List.foldl_append,
      List.foldl_cons, List.foldl_nil]
    rw [fnv_double_congr _ _ (hp 0), fnv_double_congr _ _ (hl 0), fnv_double_congr _ _ (hp 1),
      fnv_double_congr _ _ (hl 1), fnv_double_congr _ _ (hp 2), fnv_double_congr _ _ (hl 2)]

/-- C12 (amended): the discretisation is an absolute grid of `10^-6`. When
`v * 10^6` and `w * 10^6` lie within `1/2 - (|k| + 1) / 2^53` of the same
integer `k` (the margin covers the rounding of the product to a double), the
cast to `int64_t` is defined for both and `fnv_double` gives the same state for
`v` and `w`, namely `fnv_int h k`; two
cells whose pitches and lower-left coordinates lie pairwise at the same grid
point, the other lattice fields being equal, have the same `hash_lattice`; and
two surface slots with the same type tag whose parameters lie pairwise at the
same grid point have the same `data_hash`. -/
theorem fnv_double_same_grid_point :
    (∀ (h : Nat) (v w : ℚ) (k : Int),
      |v * 1000000 - k| ≤ 1 / 2 - (|(k : ℚ)| + 1) / 2 ^ 53 →
      |w * 1000000 - k| ≤ 1 / 2 - (|(k : ℚ)| + 1) / 2 ^ 53 →
      fnv_double_defined v ∧ fnv_double_defined w ∧
      fnv_double h v = fnv_double h w ∧ fnv_double h v = fnv_int h k) ∧
    (∀ info info' : alea_cell_info_t,
      info.lat_type = info'.lat_type → info.lat_fill_dims = info'.lat_fill_dims →
      info.lat_fill = info'.lat_fill →
      (∀ i, same_grid_point (info.lat_pitch i) (info'.lat_pitch i)) →
      (∀ i, same_grid_point (info.lat_lower_left i) (info'.lat_lower_left i)) →
      hash_lattice info = hash_lattice info') ∧
    (∀ (sys sys' : alea_system_t) (s s' : alea_surface_t),
      s.ptype = s'.ptype →
      List.Forall₂ same_grid_point ((surface_data sys s).getD [])
        ((surface_data sys' s').getD []) →
      (surface_fingerprint sys s).data_hash = (surface_fingerprint sys' s').data_hash) := by
  refine ⟨fun h v w k hv hw => ?_, hash_lattice_congr, fun sys sys' s s' ht hd => ?_⟩
  · rw [fnv_double_of_near h v k hv, fnv_double_of_near h w k hw]
    exact ⟨fnv_double_defined_of_near v k hv, fnv_double_defined_of_near w k hw, rfl, rfl⟩
  · rw [surface_data_hash_eq, surface_data_hash_eq, ht]
    exact fold_fnv_double_congr _ _ hd _

theorem fnv_double_same_grid_point_witness :
    |(1 : ℚ) * 1000000 - (1000000 : Int)| ≤ 1 / 2 - (|((1000000 : Int) : ℚ)| + 1) / 2 ^ 53 ∧
    |((1 : ℚ) + 1 / 4000000) * 1000000 - (1000000 : Int)| ≤
      1 / 2 - (|((1000000 : Int) : ℚ)| + 1) / 2 ^ 53 ∧
    fnv_double fnv_init 1 = fnv_double fnv_init (1 + 1 / 4000000) ∧
    fnv_double fnv_init 1 = fnv_int fnv_init 1000000 :=
  ⟨by decide!, by decide!,
   (fnv_double_same_grid_point.1 fnv_init 1 (1 + 1 / 4000000) 1000000 (by decide!)
     (by decide!)).2.2⟩

/-- C12 as stated fails. The doubles 1000 and 1000.001 differ by less than
`10^-6 * 1000` and hash differently, and so do the lattice hashes of two cells
whose pitches take these values. The double nearest to `5e-7` and the next
double below it differ by `2^-73` and hash as 1 and as 0: the product of the
first with `10^6` rounds to the double 0.5. -/
theorem fnv_double_relative_counterexample :
    |round_to_double (1000 + 1 / 1000) - 1000| ≤ 1 / 1000000 * |(1000 : ℚ)| ∧
    fnv_double fnv_init 1000 ≠ fnv_double fnv_init (round_to_double (1000 + 1 / 1000)) ∧
    hash_lattice { lat_cell_pitch with lat_pitch := fun _ => 1000 } ≠
      hash_lattice
        { lat_cell_pitch with lat_pitch := fun _ => round_to_double (1000 + 1 / 1000) } ∧
    round_to_double (round_to_double (5 / 10000000) * 1000000) = 1 / 2 ∧
    fnv_double fnv_init (round_to_double (5 / 10000000)) = fnv_int fnv_init 1 ∧
    round_to_double (round_to_double (5 / 10000000) - pow2 (-73)) =
      round_to_double (5 / 10000000) - pow2 (-73) ∧
    fnv_double fnv_init (round_to_double (5 / 10000000) - pow2 (-73)) = fnv_int fnv_init 0 ∧
    fnv_int fnv_init 1 ≠ fnv_int fnv_init 0 := by
  refine ⟨by decide!, by decide!, by decide!, by decide!, by decide!, by decide!, by decide!,
    by decide!⟩

/-! ### Change masks -/

section modified

variable {α : Type} (key : α → Int) (cmp : α → α → Int) (mask : α → α → Nat) (zero : α)

theorem diff_list_modified (fuel : Nat) (old new : List α) :
    ∀ e ∈ diff_list key cmp mask zero fuel old new, e.change = .DIFF_MODIFIED →
      ∃ o ∈ old, ∃ n ∈ new, key o = key n ∧ cmp o n ≠ 0 ∧ e = entry_modified key mask o n := by
  induction fuel generalizing old new with
  | zero => simp [diff_list]
  | succ f ih =>
    rcases old with _ | ⟨o, os⟩ <;> rcases new with _ | ⟨n, ns⟩
    · simp [diff_list]
    · intro e he hm
      simp only [diff_list, List.mem_cons] at he
      rcases he with rfl | he
      · simp [entry_added] at hm
      · obtain ⟨o', ho', _, _⟩ := ih _ _ e he hm
        cases ho'
    · intro e he hm
      simp only [diff_list, List.mem_cons] at he
      rcases he with rfl | he
      · simp [entry_removed] at hm
      · obtain ⟨o', _, n', hn', _⟩ := ih _ _ e he hm
        cases hn'
    · intro e he hm
      simp only [diff_list] at he
      split_ifs at he with h1 h2 h3
      · rcases List.mem_cons.1 he with rfl | he
        · exact ⟨o, List.mem_cons_self _ _, n, List.mem_cons_self _ _, h1, h2, rfl⟩
        · obtain ⟨o', ho', n', hn', h⟩ := ih _ _ e he hm
          exact ⟨o', List.mem_cons_of_mem _ ho', n', List.mem_cons_of_mem _ hn', h⟩
      · obtain ⟨o', ho', n', hn', h⟩ := ih _ _ e he hm
        exact ⟨o', List.mem_cons_of_mem _ ho', n', List.mem_cons_of_mem _ hn', h⟩
      · rcases List.mem_cons.1 he with rfl | he
        · simp [entry_removed] at hm
        · obtain ⟨o', ho', n', hn', h⟩ := ih _ _ e he hm
          exact ⟨o', List.mem_cons_of_mem _ ho', n', hn', h⟩
      · rcases List.mem_cons.1 he with rfl | he
        · simp [entry_added] at hm
        · obtain ⟨o', ho', n', hn', h⟩ := ih _ _ e he hm
          exact ⟨o', ho', n', List.mem_cons_of_mem _ hn', h⟩

end modified

theorem ag_cell_fp_diff_ne_zero_iff (a b : ag_cell_fp_t)
    (h : a.lat_type ≠ b.lat_type → a.lattice_hash ≠ b.lattice_hash) :
    ag_cell_fp_diff a b ≠ 0 ↔ ag_cell_fp_compare a b ≠ 0 := by
  rw [not_iff_not, ag_cell_fp_diff_eq_zero_iff, ag_cell_fp_compare_zero_iff_fields,
    ag_cell_fp_compare_zero_iff_fields]
  constructor
  · rintro ⟨h1, h2, h3, _, h5, h6, h7⟩
    refine ⟨h1, h2, h3, ?_, h5, h6, h7⟩
    by_contra hne
    exact h hne h6
  · rintro ⟨h1, h2, h3, _, h5, h6, h7⟩
    exact ⟨h1, h2, h3, rfl, h5, h6, h7⟩

theorem feed_inputs_lt (l : List hash_input) (h : Nat) (hh : h < 18446744073709551616) :
    feed_inputs h l < 18446744073709551616 := by
  induction l generalizing h with
  | nil => exact hh
  | cons x l ih =>
    cases x with
    | int v => exact ih _ (fnv_int_lt h v)
    | dbl v => exact ih _ (fnv_int_lt h _)

theorem feed_inputs_inj (l : List hash_input) (h₁ h₂ : Nat)
    (hh₁ : h₁ < 18446744073709551616) (hh₂ : h₂ < 18446744073709551616)
    (he : feed_inputs h₁ l = feed_inputs h₂ l) : h₁ = h₂ := by
  induction l generalizing h₁ h₂ with
  | nil => exact he
  | cons x l ih =>
    cases x with
    | int v => exact fnv_int_inj v h₁ h₂ hh₁ hh₂ (ih _ _ (fnv_int_lt h₁ v) (fnv_int_lt h₂ v) he)
    | dbl v =>
      exact fnv_int_inj _ h₁ h₂ hh₁ hh₂ (ih _ _ (fnv_int_lt h₁ _) (fnv_int_lt h₂ _) he)

theorem feed_inputs_cons_int (h : Nat) (v : Int) (l : List hash_input) :
    feed_inputs h (.int v :: l) = feed_inputs (fnv_int h v) l := by
  simp [feed_inputs]

theorem hash_lattice_type_change (info info' : alea_cell_info_t)
    (ht : 1 ≤ info.lat_type ∧ info.lat_type ≤ 255)
    (ht' : 1 ≤ info'.lat_type ∧ info'.lat_type ≤ 255)
    (hne : info.lat_type ≠ info'.lat_type)
    (hdims : info.lat_fill_dims = info'.lat_fill_dims)
    (hp : info.lat_pitch = info'.lat_pitch)
    (hl : info.lat_lower_left = info'.lat_lower_left)
    (hfill : info.lat_fill = info'.lat_fill) :
    hash_lattice info ≠ hash_lattice info' := by
  rw [hash_lattice_eq, hash_lattice_eq, if_neg (by omega), if_neg (by omega)]
  have e₁ : lattice_inputs info = .int info.lat_type :: (lattice_inputs info).tail := by
    simp [lattice_inputs]
  have e₂ : lattice_inputs info' = .int info'.lat_type :: (lattice_inputs info).tail := by
    simp [lattice_inputs, hdims, hp, hl, hfill]
  rw [e₂]
  nth_rewrite 1 [e₁]
  rw [feed_inputs_cons_int, feed_inputs_cons_int]
  intro h1
  have h2 := feed_inputs_inj _ _ _ (fnv_int_lt _ _) (fnv_int_lt _ _) h1
  exact hne (fnv_int_tag_inj _ _ ⟨by omega, ht.2⟩ ⟨by omega, ht'.2⟩ h2)

theorem fingerprint_cells_mem (sys : alea_system_t) (fuel : Nat)
    (l : List (Option alea_cell_info_t)) (cs : List ag_cell_fp_t)
    (h : fingerprint_cells sys fuel l = some cs) :
    ∀ f ∈ cs, ∃ c ∈ l, cell_fingerprint sys fuel c = some f := by
  induction l generalizing cs with
  | nil =>
    simp only [fingerprint_cells, Option.some.injEq] at h
    subst h
    simp
  | cons x l ih =>
    simp only [fingerprint_cells] at h
    cases hx : cell_fingerprint sys fuel x with
    | none => simp [hx] at h
    | some g =>
      cases hl : fingerprint_cells sys fuel l with
      | none => simp [hx, hl] at h
      | some gs =>
        simp only [hx, hl, Option.some.injEq] at h
        subst h
        intro f hf
        rcases List.mem_cons.1 hf with rfl | hf
        · exact ⟨x, List.mem_cons_self _ _, hx⟩
        · obtain ⟨c, hc, hcf⟩ := ih gs hl f hf
          exact ⟨c, List.mem_cons_of_mem _ hc, hcf⟩

theorem ag_fingerprint_cells_mem (fuel : Nat) (sys : alea_system_t) (fp : ag_fingerprint_set_t)
    (h : ag_fingerprint fuel sys = some fp) :
    ∀ f ∈ fp.cells, ∃ c ∈ sys.cells, cell_fingerprint sys fuel c = some f := by
  unfold ag_fingerprint at h
  cases hc : fingerprint_cells sys fuel sys.cells with
  | none => simp [hc] at h
  | some cs =>
    simp only [hc, Option.some.injEq] at h
    subst h
    intro f hf
    have hf' : f ∈ cs := (List.perm_insertionSort _ cs).subset hf
    exact fingerprint_cells_mem sys fuel sys.cells cs hc f hf'

theorem cell_fingerprint_lattice (sys : alea_system_t) (fuel : Nat) (info : alea_cell_info_t)
    (f : ag_cell_fp_t) (h : cell_fingerprint sys fuel (some info) = some f) :
    f.cell_id = info.cell_id ∧ f.lat_type = info.lat_type ∧
      f.lattice_hash = hash_lattice info := by
  simp only [cell_fingerprint] at h
  cases ht : hash_tree sys fuel info.root with
  | none => simp [ht] at h
  | some th =>
    simp only [ht, Option.some.injEq] at h
    subst h
    exact ⟨rfl, rfl, rfl⟩

/-- C8 (amended): for every pair of cell fingerprints whose `lattice_hash`
differ whenever their `lat_type` differ, `ag_cell_fp_diff` is non-zero exactly
when `ag_cell_fp_compare` reports them unequal; `ag_surface_fp_diff` is
non-zero exactly when `ag_surface_fp_compare` reports unequal, for every pair;
every `DIFF_MODIFIED` surface entry of `ag_diff` has a non-empty mask, and so
has every `DIFF_MODIFIED` cell entry when the cells with the same id in the two
sets satisfy the proviso. For two sets built by `ag_fingerprint` from
geometries whose cell slots are all readable the proviso says that
`hash_lattice` does not collide on two cells with the same id and different
lattice types, and `hash_lattice`, which folds `lat_type` first, does not
collide for two lattice types in 1..255 on otherwise equal lattice fields. -/
theorem ag_fp_diff_names_disagreement :
    (∀ a b : ag_cell_fp_t, (a.lat_type ≠ b.lat_type → a.lattice_hash ≠ b.lattice_hash) →
      (ag_cell_fp_diff a b ≠ 0 ↔ ag_cell_fp_compare a b ≠ 0)) ∧
    (∀ a b : ag_surface_fp_t, ag_surface_fp_diff a b ≠ 0 ↔ ag_surface_fp_compare a b ≠ 0) ∧
    (∀ old new : ag_fingerprint_set_t,
      (∀ e ∈ (ag_diff old new).surfaces, e.change = .DIFF_MODIFIED → e.flags ≠ 0) ∧
      ((∀ a ∈ old.cells, ∀ b ∈ new.cells, a.cell_id = b.cell_id →
          a.lat_type ≠ b.lat_type → a.lattice_hash ≠ b.lattice_hash) →
        ∀ e ∈ (ag_diff old new).cells, e.change = .DIFF_MODIFIED → e.flags ≠ 0)) ∧
    (∀ (fuel₁ fuel₂ : Nat) (sys₁ sys₂ : alea_system_t) (fp₁ fp₂ : ag_fingerprint_set_t),
      ag_fingerprint fuel₁ sys₁ = some fp₁ → ag_fingerprint fuel₂ sys₂ = some fp₂ →
      none ∉ sys₁.cells → none ∉ sys₂.cells →
      (∀ i₁ i₂ : alea_cell_info_t, some i₁ ∈ sys₁.cells → some i₂ ∈ sys₂.cells →
        i₁.cell_id = i₂.cell_id → i₁.lat_type ≠ i₂.lat_type →
        hash_lattice i₁ ≠ hash_lattice i₂) →
      ∀ e ∈ (ag_diff fp₁ fp₂).cells, e.change = .DIFF_MODIFIED → e.flags ≠ 0) ∧
    (∀ info info' : alea_cell_info_t,
      1 ≤ info.lat_type ∧ info.lat_type ≤ 255 → 1 ≤ info'.lat_type ∧ info'.lat_type ≤ 255 →
      info.lat_type ≠ info'.lat_type → info.lat_fill_dims = info'.lat_fill_dims →
      info.lat_pitch = info'.lat_pitch → info.lat_lower_left = info'.lat_lower_left →
      info.lat_fill = info'.lat_fill → hash_lattice info ≠ hash_lattice info') := by
  have hcells : ∀ old new : ag_fingerprint_set_t,
      (∀ a ∈ old.cells, ∀ b ∈ new.cells, a.cell_id = b.cell_id →
          a.lat_type ≠ b.lat_type → a.lattice_hash ≠ b.lattice_hash) →
        ∀ e ∈ (ag_diff old new).cells, e.change = .DIFF_MODIFIED → e.flags ≠ 0 := by
    intro old new hprov e he hm
    rw [ag_diff_cells_eq] at he
    obtain ⟨o, ho, n, hn, hk, hcmp, rfl⟩ := diff_list_modified _ _ _ _ _ _ _ e he hm
    exact (ag_cell_fp_diff_ne_zero_iff o n (hprov o ho n hn hk)).2 hcmp
  refine ⟨ag_cell_fp_diff_ne_zero_iff, ag_surface_fp_diff_ne_zero_iff,
    fun old new => ⟨?_, hcells old new⟩, ?_, hash_lattice_type_change⟩
  · intro e he hm
    rw [ag_diff_surfaces_eq] at he
    obtain ⟨o, _, n, _, _, hcmp, rfl⟩ := diff_list_modified _ _ _ _ _ _ _ e he hm
    exact (ag_surface_fp_diff_ne_zero_iff o n).2 hcmp
  · intro fuel₁ fuel₂ sys₁ sys₂ fp₁ fp₂ h₁ h₂ hr₁ hr₂ hcol
    apply hcells
    intro a ha b hb hid hlt
    obtain ⟨c₁, hc₁, hf₁⟩ := ag_fingerprint_cells_mem fuel₁ sys₁ fp₁ h₁ a ha
    obtain ⟨c₂, hc₂, hf₂⟩ := ag_fingerprint_cells_mem fuel₂ sys₂ fp₂ h₂ b hb
    cases c₁ with
    | none => exact absurd hc₁ hr₁
    | some i₁ =>
      cases c₂ with
      | none => exact absurd hc₂ hr₂
      | some i₂ =>
        obtain ⟨a1, a2, a3⟩ := cell_fingerprint_lattice sys₁ fuel₁ i₁ a hf₁
        obtain ⟨b1, b2, b3⟩ := cell_fingerprint_lattice sys₂ fuel₂ i₂ b hf₂
        rw [a3, b3]
        exact hcol i₁ i₂ hc₁ hc₂ (by rw [← a1, ← b1]; exact hid) (by rw [← a2, ← b2]; exact hlt)

theorem ag_fp_diff_names_disagreement_witness :
    ag_cell_fp_compare lat_cell_old { lat_cell_new with lattice_hash := 23 } ≠ 0 ∧
    ag_cell_fp_diff lat_cell_old { lat_cell_new with lattice_hash := 23 } ≠ 0 :=
  ⟨by decide!,
   (ag_fp_diff_names_disagreement.1 lat_cell_old { lat_cell_new with lattice_hash := 23 }
     (fun _ => by decide)).2 (by decide!)⟩

end Aleagit
